import Mathlib

/-!
# Bruinbase B+-tree index and select planner

A shallow embedding of `BTreeNode.cc`, `BTreeIndex.cc` and the planning part of
`SqlEngine.cc`, followed by theorems about the embedded code.

Conventions of the embedding.

* `int`, `PageId` and `RC` are `Int`; the one place where the source relies on
  32-bit arithmetic that may wrap (`gtKey + 1`, `ltKey - 1`, `ltKey - gtKey`)
  goes through `wrap32`.
* Counters and array indices (`keyCount`, `eid`, loop variables) are `Nat`:
  the source only ever assigns them non-negative values.
* A C array is a `List` holding all of its slots, used and unused.  A store
  `a[i] = v` is `List.set`, a load `a[i]` is `List.getD` with a zero default.
* An out-parameter is an extra argument (its value before the call) and an
  extra component of the result (its value after the call).
* The headers `BTreeNode.h`, `BTreeIndex.h`, `PageFile.h`, `RecordFile.h` and
  `Bruinbase.h` are not part of the sources at hand.  The capacities
  `MAX_ENTRIES` and `MAX_KEYS` are parameters of the node operations, and the
  paged file is modelled from the specification.
* A node declared as a local variable in the source (`BTLeafNode sibling;`)
  has indeterminate slot contents: the constructors take those contents as an
  argument.
-/

namespace Bruinbase

/-! ## Basic types -/

abbrev PageId := Int

abbrev RC := Int

/-- Record locator of the heap file, `(pid, sid)`. -/
structure RecordId where
  pid : PageId
  sid : Int
  deriving DecidableEq, Repr, Inhabited

/-- One slot of a leaf, `BuffEntry temp = {rid, key}`. -/
structure BuffEntry where
  rid : RecordId
  key : Int
  deriving DecidableEq, Repr, Inhabited

/-- Cursor into the leaf level, `IndexCursor`. -/
structure IndexCursor where
  pid : PageId
  eid : Nat
  deriving DecidableEq, Repr, Inhabited

/-! ## Bytes and `memcpy`

The two `insertAndSplit` routines call `memcpy` with a byte count, so the
arrays are given their byte image.  Modelled from the spec: the page layouts of
section 6 (`entry = [locator.pid: i32][locator.sid: i32][key: i32]`, keys and
page ids `i32`, little-endian), which stand in for the missing `BTreeNode.h`. -/

/-- Reduction of an integer to the signed 32-bit range. -/
def wrap32 (x : Int) : Int :=
  (x + 2147483648) % 4294967296 - 2147483648

def INT_MAX : Int := 2147483647

def INT_MIN : Int := -2147483648

/-- The four bytes of a 32-bit integer, least significant first. -/
def bytesOfInt (x : Int) : List Nat :=
  let u := (x % 4294967296).toNat
  [u % 256, u / 256 % 256, u / 65536 % 256, u / 16777216 % 256]

/-- The 32-bit integer stored in the first four bytes of `bs`. -/
def intOfBytes (bs : List Nat) : Int :=
  wrap32 (Int.ofNat (bs.getD 0 0 + 256 * bs.getD 1 0 + 65536 * bs.getD 2 0
    + 16777216 * bs.getD 3 0))

def bytesOfInts : List Int → List Nat
  | [] => []
  | x :: xs => bytesOfInt x ++ bytesOfInts xs

/-- Reads `n` consecutive 32-bit integers. -/
def intsOfBytes : Nat → List Nat → List Int
  | 0, _ => []
  | n + 1, bs => intOfBytes bs :: intsOfBytes n (bs.drop 4)

def bytesOfEntry (e : BuffEntry) : List Nat :=
  bytesOfInt e.rid.pid ++ bytesOfInt e.rid.sid ++ bytesOfInt e.key

def bytesOfEntries : List BuffEntry → List Nat
  | [] => []
  | e :: es => bytesOfEntry e ++ bytesOfEntries es

/-- Reads `n` consecutive 12-byte entries. -/
def entriesOfBytes : Nat → List Nat → List BuffEntry
  | 0, _ => []
  | n + 1, bs =>
    ⟨⟨intOfBytes bs, intOfBytes (bs.drop 4)⟩, intOfBytes (bs.drop 8)⟩
      :: entriesOfBytes n (bs.drop 12)

/-- The call `memcpy(dst, src, n)` on byte images: the first `n` bytes of
`dst` are replaced by the first `n` bytes of `src`. -/
def memcpy (dst src : List Nat) (n : Nat) : List Nat :=
  src.take n ++ dst.drop n

/-- The call `memcpy(dst, src, n)` where both pointers point into arrays of
leaf entries. -/
def memcpyEntries (dst src : List BuffEntry) (n : Nat) : List BuffEntry :=
  entriesOfBytes dst.length (memcpy (bytesOfEntries dst) (bytesOfEntries src) n)

/-- The call `memcpy(dst, src, n)` where both pointers point into arrays of
`int`. -/
def memcpyInts (dst src : List Int) (n : Nat) : List Int :=
  intsOfBytes dst.length (memcpy (bytesOfInts dst) (bytesOfInts src) n)

/-! ## Leaf node (`BTLeafNode`) -/

/-- The structure `buff.nodeData` of a leaf: `entries` holds all `MAX_ENTRIES`
slots, of which the first `keyCount` are in use. -/
structure BTLeafNode where
  keyCount : Nat
  nextNode : PageId
  entries : List BuffEntry
  deriving DecidableEq, Repr, Inhabited

namespace BTLeafNode

/-- The constructor `BTLeafNode::BTLeafNode`: only `keyCount` and `nextNode`
are set; `slots` is the indeterminate content of the entry array. -/
def init (slots : List BuffEntry) : BTLeafNode :=
  { keyCount := 0, nextNode := -1, entries := slots }

def getKeyCount (n : BTLeafNode) : Nat := n.keyCount

/-- The load `buff.nodeData.entries[i]`. -/
def entry (n : BTLeafNode) (i : Nat) : BuffEntry :=
  n.entries.getD i default

/-- The loop of `BTLeafNode::locate`, with `todo` iterations left and loop
variable `i`. -/
def locateLoop (n : BTLeafNode) (searchKey : Int) : Nat → Nat → Option Nat
  | 0, _ => none
  | todo + 1, i =>
    if (n.entry i).key ≥ searchKey then some i
    else locateLoop n searchKey todo (i + 1)

/-- The method `BTLeafNode::locate`: `eid` is the out-parameter, left alone
when the method returns `-1`. -/
def locate (n : BTLeafNode) (searchKey : Int) (eid : Nat) : RC × Nat :=
  match locateLoop n searchKey n.getKeyCount 0 with
  | some i => (0, i)
  | none => (-1, eid)

/-- The loop `for(int i = numKeys; i > eid; i--) entries[i] = entries[i-1];`
with `todo` iterations left. -/
def shiftLoop (es : List BuffEntry) : Nat → Nat → List BuffEntry
  | 0, _ => es
  | todo + 1, i => shiftLoop (es.set i (es.getD (i - 1) default)) todo (i - 1)

/-- The method `BTLeafNode::insert`. -/
def insert (MAX_ENTRIES : Nat) (n : BTLeafNode) (key : Int) (rid : RecordId) :
    RC × BTLeafNode :=
  if n.getKeyCount ≥ MAX_ENTRIES then (-1, n)
  else
    let numKeys := n.getKeyCount
    let (status, eid0) := n.locate key 0
    let (es, eid) :=
      if status = 0 then (shiftLoop n.entries (numKeys - eid0) numKeys, eid0)
      else (n.entries, numKeys)
    (0, { n with entries := es.set eid ⟨rid, key⟩, keyCount := n.keyCount + 1 })

/-- State of the copy loop of `BTLeafNode::insertAndSplit`: the sibling's
entry array, the index `j` and the flag `found`. -/
structure SplitLoop where
  sib : List BuffEntry
  j : Nat
  found : Bool
  deriving DecidableEq, Repr

/-- The loop `for(; i < MAX_ENTRIES; i++, j++)` of `BTLeafNode::insertAndSplit`
with `todo` iterations left.  In the branch that places the new entry the body
increments `j` and the loop header increments it again; the entry at `i` is
not copied in that iteration. -/
def splitLoop (src : List BuffEntry) (key : Int) (rid : RecordId) :
    Nat → Nat → SplitLoop → SplitLoop
  | 0, _, s => s
  | todo + 1, i, s =>
    if !s.found && decide ((src.getD i default).key ≥ key) then
      splitLoop src key rid todo (i + 1)
        { sib := s.sib.set s.j ⟨rid, key⟩, j := s.j + 1 + 1, found := true }
    else
      splitLoop src key rid todo (i + 1)
        { sib := s.sib.set s.j (src.getD i default), j := s.j + 1, found := s.found }

/-- Result of `BTLeafNode::insertAndSplit`: return code, the node, the sibling
and the out-parameter `siblingKey`. -/
structure SplitResult where
  rc : RC
  node : BTLeafNode
  sibling : BTLeafNode
  siblingKey : Int
  deriving DecidableEq, Repr

/-- The method `BTLeafNode::insertAndSplit`.  `siblingKey0` is the value of the
out-parameter before the call. -/
def insertAndSplit (MAX_ENTRIES : Nat) (n : BTLeafNode) (key : Int) (rid : RecordId)
    (sibling : BTLeafNode) (siblingKey0 : Int) : SplitResult :=
  if n.getKeyCount ≠ MAX_ENTRIES then
    { rc := -1, node := n, sibling := sibling, siblingKey := siblingKey0 }
  else
    let half := MAX_ENTRIES / 2
    let siblingKey := (n.entry half).key
    let n1 : BTLeafNode := { n with keyCount := half }
    let sib1 : BTLeafNode := { sibling with nextNode := n1.nextNode }
    if key ≥ siblingKey then
      let s := splitLoop n1.entries key rid (MAX_ENTRIES - half) half
        { sib := sib1.entries, j := 0, found := false }
      let es := if !s.found then s.sib.set s.j ⟨rid, key⟩ else s.sib
      { rc := 0, node := n1,
        sibling := { sib1 with entries := es, keyCount := MAX_ENTRIES - half + 1 },
        siblingKey := siblingKey }
    else
      let sib2 : BTLeafNode :=
        { sib1 with
          entries := memcpyEntries sib1.entries (n1.entries.drop half) (MAX_ENTRIES - half),
          keyCount := MAX_ENTRIES - half }
      let (status, n2) := insert MAX_ENTRIES n1 key rid
      { rc := status, node := n2, sibling := sib2, siblingKey := siblingKey }

/-- The method `BTLeafNode::readEntry`; `key0` and `rid0` are the
out-parameters before the call. -/
def readEntry (n : BTLeafNode) (eid : Nat) (key0 : Int) (rid0 : RecordId) :
    RC × Int × RecordId :=
  if eid < n.getKeyCount then (0, (n.entry eid).key, (n.entry eid).rid)
  else (-1, key0, rid0)

def getNextNodePtr (n : BTLeafNode) : PageId := n.nextNode

def setNextNodePtr (n : BTLeafNode) (pid : PageId) : RC × BTLeafNode :=
  (0, { n with nextNode := pid })

end BTLeafNode

/-! ## Non-leaf node (`BTNonLeafNode`) -/

/-- The structure `buff.nodeData` of a non-leaf: `keyEntries` holds all
`MAX_KEYS` slots and `pageEntries` all `MAX_KEYS + 1` slots. -/
structure BTNonLeafNode where
  keyCount : Nat
  keyEntries : List Int
  pageEntries : List PageId
  deriving DecidableEq, Repr, Inhabited

namespace BTNonLeafNode

/-- The constructor `BTNonLeafNode::BTNonLeafNode`: `keyCount` and
`pageEntries[0]` are set; `keys` and `pages` are the indeterminate contents of
the two arrays. -/
def init (keys : List Int) (pages : List PageId) : BTNonLeafNode :=
  { keyCount := 0, keyEntries := keys, pageEntries := pages.set 0 (-1) }

def getKeyCount (n : BTNonLeafNode) : Nat := n.keyCount

/-- The load `buff.nodeData.keyEntries[i]`. -/
def keyAt (n : BTNonLeafNode) (i : Nat) : Int := n.keyEntries.getD i 0

/-- The load `buff.nodeData.pageEntries[i]`. -/
def pageAt (n : BTNonLeafNode) (i : Nat) : PageId := n.pageEntries.getD i 0

/-- The loop of `BTNonLeafNode::locate`, with `todo` iterations left and loop
variable `i`. -/
def locateLoop (n : BTNonLeafNode) (searchKey : Int) : Nat → Nat → Option Nat
  | 0, _ => none
  | todo + 1, i =>
    if n.keyAt i ≥ searchKey then some i
    else locateLoop n searchKey todo (i + 1)

/-- The method `BTNonLeafNode::locate`: `eid` is the out-parameter, left alone
when the method returns `-1`. -/
def locate (n : BTNonLeafNode) (searchKey : Int) (eid : Nat) : RC × Nat :=
  match locateLoop n searchKey n.getKeyCount 0 with
  | some i => (0, i)
  | none => (-1, eid)

/-- The method `BTNonLeafNode::locateChildPtr`: `pid0` is the out-parameter
before the call. -/
def locateChildPtr (n : BTNonLeafNode) (searchKey : Int) (pid0 : PageId) : RC × PageId :=
  let (status, eid) := n.locate searchKey 0
  if status ≠ 0 then (status, pid0)
  else (0, n.pageAt (eid + 1))

/-- The shifting loop of `BTNonLeafNode::insert`, with `todo` iterations left:
`keyEntries[i] = keyEntries[i-1]; pageEntries[i+1] = pageEntries[i];`. -/
def shiftLoop (ks : List Int) (ps : List PageId) : Nat → Nat → List Int × List PageId
  | 0, _ => (ks, ps)
  | todo + 1, i =>
    shiftLoop (ks.set i (ks.getD (i - 1) 0)) (ps.set (i + 1) (ps.getD i 0)) todo (i - 1)

/-- The method `BTNonLeafNode::insert`. -/
def insert (MAX_KEYS : Nat) (n : BTNonLeafNode) (key : Int) (pid : PageId) :
    RC × BTNonLeafNode :=
  if n.getKeyCount ≥ MAX_KEYS then (-1, n)
  else
    let numKeys := n.getKeyCount
    let (status, eid0) := n.locate key 0
    let (ksps, eid) :=
      if status = 0 then (shiftLoop n.keyEntries n.pageEntries (numKeys - eid0) numKeys, eid0)
      else ((n.keyEntries, n.pageEntries), numKeys)
    (0, { keyEntries := ksps.1.set eid key,
          pageEntries := ksps.2.set (eid + 1) pid,
          keyCount := n.keyCount + 1 })

/-- State of the copy loop of `BTNonLeafNode::insertAndSplit`. -/
structure SplitLoop where
  sibKeys : List Int
  sibPages : List PageId
  j : Nat
  found : Bool
  deriving DecidableEq, Repr

/-- The loop `for(; i < MAX_KEYS; i++, j++)` of `BTNonLeafNode::insertAndSplit`
with `todo` iterations left. -/
def splitLoop (ks : List Int) (ps : List PageId) (key : Int) (pid : PageId) :
    Nat → Nat → SplitLoop → SplitLoop
  | 0, _, s => s
  | todo + 1, i, s =>
    if !s.found && decide (ks.getD i 0 ≥ key) then
      splitLoop ks ps key pid todo (i + 1)
        { sibKeys := s.sibKeys.set s.j key, sibPages := s.sibPages.set (s.j + 1) pid,
          j := s.j + 1 + 1, found := true }
    else
      splitLoop ks ps key pid todo (i + 1)
        { sibKeys := s.sibKeys.set s.j (ks.getD i 0),
          sibPages := s.sibPages.set (s.j + 1) (ps.getD (i + 1) 0),
          j := s.j + 1, found := s.found }

/-- Result of `BTNonLeafNode::insertAndSplit`: return code, the node, the
sibling and the out-parameter `midKey`. -/
structure SplitResult where
  rc : RC
  node : BTNonLeafNode
  sibling : BTNonLeafNode
  midKey : Int
  deriving DecidableEq, Repr

/-- The method `BTNonLeafNode::insertAndSplit`.  `midKey0` is the value of the
out-parameter before the call. -/
def insertAndSplit (MAX_KEYS : Nat) (n : BTNonLeafNode) (key : Int) (pid : PageId)
    (sibling : BTNonLeafNode) (midKey0 : Int) : SplitResult :=
  if n.getKeyCount ≠ MAX_KEYS then
    { rc := -1, node := n, sibling := sibling, midKey := midKey0 }
  else
    let half := MAX_KEYS / 2
    let midKey := n.keyAt half
    let n1 : BTNonLeafNode := { n with keyCount := half }
    if key ≥ midKey then
      let s := splitLoop n1.keyEntries n1.pageEntries key pid (MAX_KEYS - half) half
        { sibKeys := sibling.keyEntries, sibPages := sibling.pageEntries, j := 0, found := false }
      let ks := if !s.found then s.sibKeys.set s.j key else s.sibKeys
      let ps := if !s.found then s.sibPages.set (s.j + 1) pid else s.sibPages
      { rc := 0, node := n1,
        sibling := { keyEntries := ks, pageEntries := ps, keyCount := MAX_KEYS - half + 1 },
        midKey := midKey }
    else
      let sib2 : BTNonLeafNode :=
        { keyEntries := memcpyInts sibling.keyEntries (n1.keyEntries.drop half) (MAX_KEYS - half),
          pageEntries :=
            memcpyInts sibling.pageEntries (n1.pageEntries.drop (half + 1)) (MAX_KEYS - half + 1),
          keyCount := MAX_KEYS - half }
      let (status, n2) := insert MAX_KEYS n1 key pid
      { rc := status, node := n2, sibling := sib2, midKey := midKey }

/-- The method `BTNonLeafNode::initializeRoot`. -/
def initializeRoot (n : BTNonLeafNode) (pid1 : PageId) (key : Int) (pid2 : PageId) :
    RC × BTNonLeafNode :=
  if n.getKeyCount ≠ 0 then (-1, n)
  else
    (0, { keyCount := 1,
          keyEntries := n.keyEntries.set 0 key,
          pageEntries := (n.pageEntries.set 0 pid1).set 1 pid2 })

end BTNonLeafNode

/-! ## Paged file -/

/-- Content of one page of the index file.  The source overlays the raw page
buffer with the node structures; which structure a page holds is known from
the level at which the page is reached, and the embedding records it in the
page.  `metadata` is the page written by `BTreeIndex::close`. -/
inductive Page where
  | leaf (n : BTLeafNode)
  | nonleaf (n : BTNonLeafNode)
  | metadata (rootPid : PageId) (treeHeight : Int)
  deriving DecidableEq, Repr

/-- Modelled from the spec: the paged file (`PageFile`), whose code is not among
the sources.  Section 6: `read(pid, buf)`, `write(pid, buf)`, and
`endPid() → pid`: next page id to allocate, `write(endPid(), ...)` appends.
The file is the list of its pages, page `i` at position `i`. -/
structure PageFile where
  pages : List Page
  deriving DecidableEq, Repr

/-- Modelled from the spec: the code returned by a page read or write that
fails (an I/O error, some non-zero code). -/
def RC_INVALID_PID : RC := -1007

namespace PageFile

/-- Modelled from the spec: `endPid`, the next page id to allocate. -/
def endPid (pf : PageFile) : PageId := Int.ofNat pf.pages.length

/-- Modelled from the spec: `read(pid, buf)`; reading a page that is not in the
file fails. -/
def read (pf : PageFile) (pid : PageId) : Except RC Page :=
  if pid < 0 then .error RC_INVALID_PID
  else
    match pf.pages.get? pid.toNat with
    | some p => .ok p
    | none => .error RC_INVALID_PID

/-- Modelled from the spec: `write(pid, buf)`; writing at `endPid()` appends,
writing an existing page replaces it, and any other page id is an error. -/
def write (pf : PageFile) (pid : PageId) (p : Page) : RC × PageFile :=
  if pid < 0 then (RC_INVALID_PID, pf)
  else if pid.toNat < pf.pages.length then (0, { pages := pf.pages.set pid.toNat p })
  else if pid.toNat = pf.pages.length then (0, { pages := pf.pages ++ [p] })
  else (RC_INVALID_PID, pf)

end PageFile

/-- The method `BTLeafNode::read`: on success the buffer of the node is the
page read.  A page holding another structure is reported as a failed read:
reinterpreting its bytes is outside the embedding. -/
def BTLeafNode.read (n : BTLeafNode) (pid : PageId) (pf : PageFile) : RC × BTLeafNode :=
  match pf.read pid with
  | .ok (Page.leaf m) => (0, m)
  | .ok _ => (RC_INVALID_PID, n)
  | .error e => (e, n)

/-- The method `BTLeafNode::write`. -/
def BTLeafNode.write (n : BTLeafNode) (pid : PageId) (pf : PageFile) : RC × PageFile :=
  pf.write pid (Page.leaf n)

/-- The method `BTNonLeafNode::read`, as `BTLeafNode.read`. -/
def BTNonLeafNode.read (n : BTNonLeafNode) (pid : PageId) (pf : PageFile) :
    RC × BTNonLeafNode :=
  match pf.read pid with
  | .ok (Page.nonleaf m) => (0, m)
  | .ok _ => (RC_INVALID_PID, n)
  | .error e => (e, n)

/-- The method `BTNonLeafNode::write`. -/
def BTNonLeafNode.write (n : BTNonLeafNode) (pid : PageId) (pf : PageFile) : RC × PageFile :=
  pf.write pid (Page.nonleaf n)

/-! ## The index (`BTreeIndex`)

`BTreeIndex.cc` does not compile as it stands.  Three places are read the only
way the surrounding code allows:

* in `insertRecursive`, non-leaf branch, `leaf.insertAndSplit(possibleKey,
  possiblePid, sibling, midKey)` names a `leaf` that is not in scope; the
  receiver is `node`, the non-leaf the branch works on (`sibling` is a
  `BTNonLeafNode`);
* in `insert`, `root.write(pid, pf)` names a `pid` that is not in scope; the
  page written is `rootPid`, assigned on the line before;
* the parameter list of `insertRecursive` lacks a comma after `outKey`. -/

/-- Indeterminate contents of the arrays of a node declared as a local
variable. -/
structure Uninit where
  entries : List BuffEntry
  keyEntries : List Int
  pageEntries : List PageId
  deriving DecidableEq, Repr

/-- The fields of `BTreeIndex`. -/
structure BTreeIndex where
  pf : PageFile
  rootPid : PageId
  treeHeight : Int
  deriving DecidableEq, Repr

/-- Result of `BTreeIndex::insertRecursive`: return code, the paged file and
the two out-parameters. -/
structure InsertRec where
  rc : RC
  pf : PageFile
  outKey : Int
  outPid : PageId
  deriving DecidableEq, Repr

namespace BTreeIndex

/-- The constructor `BTreeIndex::BTreeIndex` on the paged file `pf`. -/
def init (pf : PageFile) : BTreeIndex :=
  { pf := pf, rootPid := -1, treeHeight := 0 }

/-- The leaf branch of `BTreeIndex::insertRecursive` (`currentHeight == 1`). -/
def insertLeaf (MAX_ENTRIES : Nat) (u : Uninit) (key : Int) (rid : RecordId)
    (pf : PageFile) (pid : PageId) (outKey : Int) (outPid : PageId) : InsertRec :=
  let (result, leaf) := (BTLeafNode.init u.entries).read pid pf
  if result ≠ 0 then { rc := result, pf := pf, outKey := outKey, outPid := outPid }
  else
    let (result, leaf) := leaf.insert MAX_ENTRIES key rid
    if result ≠ 0 then
      let r := leaf.insertAndSplit MAX_ENTRIES key rid (BTLeafNode.init u.entries) 0
      if r.rc ≠ 0 then { rc := r.rc, pf := pf, outKey := outKey, outPid := outPid }
      else
        let siblingPid := pf.endPid
        let oldPointed := r.node.getNextNodePtr
        let (_, sibling) := r.sibling.setNextNodePtr oldPointed
        let (_, leaf) := r.node.setNextNodePtr siblingPid
        let (result, pf1) := sibling.write siblingPid pf
        if result ≠ 0 then { rc := result, pf := pf1, outKey := outKey, outPid := outPid }
        else
          let (result, pf2) := leaf.write pid pf1
          { rc := result, pf := pf2, outKey := r.siblingKey, outPid := siblingPid }
    else
      let (result, pf1) := leaf.write pid pf
      { rc := result, pf := pf1, outKey := outKey, outPid := outPid }

/-- The part of the non-leaf branch of `BTreeIndex::insertRecursive` that
follows the recursive call: `node` is the non-leaf read from `pid`, `sub` the
result of the recursive call, made with `possibleKey = possiblePid = -1`. -/
def insertUp (MAX_KEYS : Nat) (u : Uninit) (node : BTNonLeafNode) (pid : PageId)
    (sub : InsertRec) (outKey : Int) (outPid : PageId) : InsertRec :=
  let possibleKey := sub.outKey
  let possiblePid := sub.outPid
  let pf := sub.pf
  if sub.rc ≠ 0 then { rc := sub.rc, pf := pf, outKey := outKey, outPid := outPid }
  else if possibleKey ≠ -1 ∧ possiblePid ≠ -1 then
    let (result, node1) := node.insert MAX_KEYS possibleKey possiblePid
    if result ≠ 0 then
      let r := node1.insertAndSplit MAX_KEYS possibleKey possiblePid
        (BTNonLeafNode.init u.keyEntries u.pageEntries) 0
      if r.rc ≠ 0 then { rc := r.rc, pf := pf, outKey := outKey, outPid := outPid }
      else
        let siblingPid := pf.endPid
        let (result, pf1) := r.sibling.write siblingPid pf
        if result ≠ 0 then { rc := result, pf := pf1, outKey := outKey, outPid := outPid }
        else
          let (result, pf2) := r.node.write pid pf1
          { rc := result, pf := pf2, outKey := r.midKey, outPid := siblingPid }
    else
      let (result, pf1) := node1.write pid pf
      { rc := result, pf := pf1, outKey := outKey, outPid := outPid }
  else
    -- neither `if` of the source returned: control reaches the final `return -1;`
    { rc := -1, pf := pf, outKey := outKey, outPid := outPid }

/-- The method `BTreeIndex::insertRecursive`; the recursion is on
`currentHeight`.  A height that is neither `> 1` nor `== 1` returns `-1`. -/
def insertRecursive (MAX_ENTRIES MAX_KEYS : Nat) (u : Uninit) (key : Int) (rid : RecordId) :
    Nat → PageFile → PageId → Int → PageId → InsertRec
  | 0, pf, _, outKey, outPid => { rc := -1, pf := pf, outKey := outKey, outPid := outPid }
  | 1, pf, pid, outKey, outPid => insertLeaf MAX_ENTRIES u key rid pf pid outKey outPid
  | h + 2, pf, pid, outKey, outPid =>
    let (result, node) := (BTNonLeafNode.init u.keyEntries u.pageEntries).read pid pf
    if result ≠ 0 then { rc := result, pf := pf, outKey := outKey, outPid := outPid }
    else
      let (result, childPid) := node.locateChildPtr key 0
      if result ≠ 0 then { rc := result, pf := pf, outKey := outKey, outPid := outPid }
      else
        insertUp MAX_KEYS u node pid
          (insertRecursive MAX_ENTRIES MAX_KEYS u key rid (h + 1) pf childPid (-1) (-1))
          outKey outPid

/-- The method `BTreeIndex::insert`: return code and the index afterwards. -/
def insert (MAX_ENTRIES MAX_KEYS : Nat) (u : Uninit) (t : BTreeIndex) (key : Int)
    (rid : RecordId) : RC × BTreeIndex :=
  if t.treeHeight = 0 then
    let (result, root) := (BTLeafNode.init u.entries).insert MAX_ENTRIES key rid
    if result ≠ 0 then (result, t)
    else
      let rootPid := t.pf.endPid
      let (result, pf1) := root.write rootPid t.pf
      if result ≠ 0 then (result, { t with rootPid := rootPid, pf := pf1 })
      else (0, { pf := pf1, rootPid := rootPid, treeHeight := t.treeHeight + 1 })
  else
    let r := insertRecursive MAX_ENTRIES MAX_KEYS u key rid t.treeHeight.toNat
      t.pf t.rootPid (-1) (-1)
    if r.rc ≠ 0 then (r.rc, { t with pf := r.pf })
    else if r.outKey ≠ -1 ∧ r.outPid ≠ -1 then
      let (result, newRoot) :=
        (BTNonLeafNode.init u.keyEntries u.pageEntries).initializeRoot t.rootPid r.outKey r.outPid
      if result ≠ 0 then (result, { t with pf := r.pf })
      else
        let newRootPid := r.pf.endPid
        let (result, pf1) := newRoot.write newRootPid r.pf
        if result ≠ 0 then (result, { t with pf := pf1 })
        else (0, { pf := pf1, rootPid := newRootPid, treeHeight := t.treeHeight + 1 })
    else (0, { t with pf := r.pf })

/-- The descent loop of `BTreeIndex::locate`,
`for(height = treeHeight; height > 1; height--)`, with `todo` iterations left:
return code and `currentPid`. -/
def descend (u : Uninit) (pf : PageFile) (searchKey : Int) : Nat → PageId → RC × PageId
  | 0, currentPid => (0, currentPid)
  | todo + 1, currentPid =>
    let (result, node) := (BTNonLeafNode.init u.keyEntries u.pageEntries).read currentPid pf
    if result ≠ 0 then (result, currentPid)
    else
      let (result, childPid) := node.locateChildPtr searchKey currentPid
      if result ≠ 0 then (result, childPid)
      else descend u pf searchKey todo childPid

/-- The method `BTreeIndex::locate`: return code and the cursor afterwards. -/
def locate (u : Uninit) (t : BTreeIndex) (searchKey : Int) (cursor : IndexCursor) :
    RC × IndexCursor :=
  if t.treeHeight = 0 then (-1, cursor)
  else
    let (result, currentPid) := descend u t.pf searchKey (t.treeHeight - 1).toNat t.rootPid
    if result ≠ 0 then (result, cursor)
    else
      let (result, node) := (BTLeafNode.init u.entries).read currentPid t.pf
      if result ≠ 0 then (result, cursor)
      else
        let (result, eid) := node.locate searchKey cursor.eid
        if result ≠ 0 then (result, { cursor with eid := eid })
        else (0, { pid := currentPid, eid := eid })

/-- Result of `BTreeIndex::readForward`: return code, the cursor afterwards
and the two out-parameters. -/
structure ReadForward where
  rc : RC
  cursor : IndexCursor
  key : Int
  rid : RecordId
  deriving DecidableEq, Repr

/-- The method `BTreeIndex::readForward`; `key0` and `rid0` are the
out-parameters before the call. -/
def readForward (u : Uninit) (t : BTreeIndex) (cursor : IndexCursor) (key0 : Int)
    (rid0 : RecordId) : ReadForward :=
  let (readRes, leaf) := (BTLeafNode.init u.entries).read cursor.pid t.pf
  if readRes ≠ 0 then { rc := readRes, cursor := cursor, key := key0, rid := rid0 }
  else
    let (readEntryRes, key, rid) := leaf.readEntry cursor.eid key0 rid0
    { rc := readEntryRes, cursor := cursor, key := key, rid := rid }

/-- A run of `BTreeIndex::insert` calls: the return codes, in order, and the
index after the last call. -/
def insertAll (MAX_ENTRIES MAX_KEYS : Nat) (u : Uninit) :
    BTreeIndex → List (Int × RecordId) → List RC × BTreeIndex
  | t, [] => ([], t)
  | t, (key, rid) :: rest =>
    let (rc, t1) := insert MAX_ENTRIES MAX_KEYS u t key rid
    let (rcs, t2) := insertAll MAX_ENTRIES MAX_KEYS u t1 rest
    (rc :: rcs, t2)

/-- Modelled from the spec: the page id of the metadata page, `META_PID` of the
missing `BTreeIndex.h` (section 3: page `0` of the index file is the metadata
page). -/
def META_PID : PageId := 0

/-- The page that a raw buffer is once written to the metadata page: its first
eight bytes, read as two 32-bit integers. -/
def pageOfMetaBytes (temp : List Nat) : Page :=
  Page.metadata (intOfBytes temp) (intOfBytes (temp.drop 4))

/-- The first eight bytes of the raw buffer that a read of the metadata page
fills.  A page holding a node is reported as a failed read, as for the nodes. -/
def metaBytesOfPage : Page → Option (List Nat)
  | Page.metadata rootPid treeHeight => some (bytesOfInt rootPid ++ bytesOfInt treeHeight)
  | _ => none

/-- The method `BTreeIndex::close`.  `temp` is the indeterminate content of the
local buffer and `closeRes` the value returned by `pf.close()`, which belongs
to the paged file. -/
def close (temp : List Nat) (closeRes : RC) (t : BTreeIndex) : RC × BTreeIndex :=
  let temp1 := memcpy temp (bytesOfInt t.rootPid) 4
  let temp2 := temp1.take 4 ++ memcpy (temp1.drop 4) (bytesOfInt t.treeHeight) 4
  let (writeRes, pf1) := t.pf.write META_PID (pageOfMetaBytes temp2)
  if writeRes ≠ 0 then (writeRes, { t with pf := pf1 })
  else (closeRes, { t with pf := pf1 })

/-- The method `BTreeIndex::open`.  `openRes` is the value returned by
`pf.open(indexname, mode)` and `file` the paged file that this call opens;
`t` holds the fields of the object before the call. -/
def «open» (openRes : RC) (file : PageFile) (t : BTreeIndex) : RC × BTreeIndex :=
  if openRes = 0 then
    match file.read META_PID with
    | .ok p =>
      match metaBytesOfPage p with
      | some temp =>
        (openRes,
          { pf := file,
            rootPid := intOfBytes (memcpy (bytesOfInt t.rootPid) temp 4),
            treeHeight := intOfBytes (memcpy (bytesOfInt t.treeHeight) (temp.drop 4) 4) })
      | none => (RC_INVALID_PID, { t with pf := file })
    | .error e => (e, { t with pf := file })
  else (openRes, t)

end BTreeIndex

/-! ## The planner of `SqlEngine::select`

The part of `SqlEngine::select` that runs before the first tuple is read: the
folding loop over the conditions, the checks on the folded bounds and the
choice of `minKey` and `maxKey`. -/

/-- The comparison of a condition, `SelCond::comp`. -/
inductive Comparator where
  | EQ | NE | LT | GT | LE | GE
  deriving DecidableEq, Repr

/-- A condition of the `WHERE` clause.  `attr` is `1` for the key column and
`2` for the value column; `value` stands for `atoi(cond[i].value)`, the only
form in which the planner looks at the literal of a key condition. -/
structure SelCond where
  attr : Int
  comp : Comparator
  value : Int
  deriving DecidableEq, Repr

/-- The local variables of `SqlEngine::select` that the planner works on. -/
structure PlanState where
  useIndex : Bool
  noResults : Bool
  equalsExists : Bool
  equalsKey : Int
  gtExists : Bool
  gtNotGte : Bool
  gtKey : Int
  ltExists : Bool
  ltNotLte : Bool
  ltKey : Int
  needValue : Bool
  deriving DecidableEq, Repr

namespace SqlEngine

/-- The initialisations in front of the folding loop, for the projection
`attr` and `n` conditions. -/
def planInit (attr : Int) (n : Nat) : PlanState :=
  { useIndex := decide (n = 0 ∧ attr = 4),
    noResults := false,
    equalsExists := false,
    equalsKey := -1,
    gtExists := false,
    gtNotGte := true,
    gtKey := INT_MIN,
    ltExists := false,
    ltNotLte := true,
    ltKey := INT_MAX,
    needValue := decide (attr = 2 ∨ attr = 3) }

/-- The `switch(cond[i].comp)` of the folding loop, entered for a key
condition other than `NE`, after `useIndex = true`. -/
def planKey (s : PlanState) (comp : Comparator) (currentKey : Int) : PlanState :=
  match comp with
  | .EQ =>
    if s.equalsExists then
      if s.equalsKey ≠ currentKey then { s with noResults := true } else s
    else { s with equalsExists := true, equalsKey := currentKey }
  | .GT =>
    if !s.gtExists || decide (currentKey ≥ s.gtKey) then
      { s with gtExists := true, gtKey := currentKey, gtNotGte := true }
    else s
  | .LT =>
    if !s.ltExists || decide (currentKey ≤ s.ltKey) then
      { s with ltExists := true, ltKey := currentKey, ltNotLte := true }
    else s
  | .GE =>
    if !s.gtExists || decide (currentKey > s.gtKey) then
      { s with gtExists := true, gtKey := currentKey, gtNotGte := false }
    else s
  | .LE =>
    if !s.ltExists || decide (currentKey < s.ltKey) then
      { s with ltExists := true, ltKey := currentKey, ltNotLte := true }
    else s
  | .NE => s

/-- One pass through the body of the folding loop, up to the test
`if(noResults) break;`. -/
def planStep (s : PlanState) (c : SelCond) : PlanState :=
  if c.attr = 1 then
    let currentKey := c.value
    if c.comp = Comparator.NE then
      if s.equalsExists && decide (s.equalsKey = currentKey) then { s with noResults := true }
      else s
    else planKey { s with useIndex := true } c.comp currentKey
  else if c.attr = 2 then { s with needValue := true }
  else s

/-- The folding loop `for (unsigned i = 0; i < cond.size(); i++)`, left by
`break` as soon as `noResults` is set. -/
def planLoop : List SelCond → PlanState → PlanState
  | [], s => s
  | c :: cs, s =>
    let s1 := planStep s c
    if s1.noResults then s1 else planLoop cs s1

/-- The checks on the folded bounds, `if(!noResults) { if(gtExists) ... }`.
The difference `ltKey-gtKey` is computed in 32 bits. -/
def planChecks (s : PlanState) : PlanState :=
  if !s.noResults then
    let s1 :=
      if s.gtExists then
        if decide (s.gtKey > s.ltKey)
            || ((s.gtNotGte || s.ltNotLte) && decide (s.gtKey = s.ltKey))
            || ((s.gtNotGte && s.ltNotLte) && decide (wrap32 (s.ltKey - s.gtKey) = 1))
            || (s.gtNotGte && decide (s.gtKey = INT_MAX)) then
          { s with noResults := true }
        else s
      else s
    if s1.ltExists then
      if s1.ltNotLte && decide (s1.ltKey = INT_MIN) then { s1 with noResults := true }
      else s1
    else s1
  else s

/-- The planner state when the scan starts. -/
def plan (attr : Int) (cond : List SelCond) : PlanState :=
  planChecks (planLoop cond (planInit attr cond.length))

/-- The value given to `minKey` in the index branch; `gtKey + 1` is computed
in 32 bits. -/
def minKey (s : PlanState) : Int :=
  if s.equalsExists then s.equalsKey
  else if s.gtExists then
    if s.gtNotGte then wrap32 (s.gtKey + 1) else s.gtKey
  else INT_MIN

/-- The value given to `maxKey` in the index branch; `ltKey - 1` is computed
in 32 bits. -/
def maxKey (s : PlanState) : Int :=
  if s.equalsExists then s.equalsKey
  else if s.ltExists then
    if s.ltNotLte then wrap32 (s.ltKey - 1) else s.ltKey
  else INT_MAX

/-- The test `validIndex && useIndex` that selects the index branch. -/
def usesIndex (validIndex : Bool) (s : PlanState) : Bool :=
  validIndex && s.useIndex

/-- The `switch (cond[i].comp)` of the table scan: `true` when the tuple is not
skipped, for the value `diff` computed before it. -/
def scanTest (comp : Comparator) (diff : Int) : Bool :=
  match comp with
  | .EQ => !decide (diff ≠ 0)
  | .NE => !decide (diff = 0)
  | .GT => !decide (diff ≤ 0)
  | .LT => !decide (diff ≥ 0)
  | .GE => !decide (diff < 0)
  | .LE => !decide (diff > 0)

/-- The `switch (cond[i].attr)` of the table scan: the new value of `diff`.  For
a key condition it is `key - atoi(cond[i].value)`, computed in 32 bits; for a
value condition it is the result of `strcmp`, given by `valueDiff`; any other
attribute leaves `diff` as it was. -/
def scanDiff (key : Int) (valueDiff : SelCond → Int) (c : SelCond) (diff : Int) : Int :=
  if c.attr = 1 then wrap32 (key - c.value)
  else if c.attr = 2 then valueDiff c
  else diff

/-- The loop over the conditions in the table scan: `true` when control reaches
`count++`, `false` when it leaves through `goto next_tuple`. -/
def scanConds (key : Int) (valueDiff : SelCond → Int) : List SelCond → Int → Bool
  | [], _ => true
  | c :: cs, diff =>
    if scanTest c.comp (scanDiff key valueDiff c diff) then
      scanConds key valueDiff cs (scanDiff key valueDiff c diff)
    else false

/-- The retrieval part of `SqlEngine::select`, `int count = 0; if(!noResults) {...}`:
the rows printed and the value of `count` after it.  The block itself (the walk
of the index or the scan of the table) is the parameter `body`. -/
def retrieve (Row : Type) (s : PlanState) (body : PlanState → List Row × Nat) :
    List Row × Nat :=
  if !s.noResults then body s else ([], 0)

end SqlEngine

/-! ## Statements of the specification

Definitions that follow the wording of the specification, for comparison with
the code above. -/

/-- The meaning of a comparison between a key and a literal. -/
def Comparator.holds (c : Comparator) (key lit : Int) : Prop :=
  match c with
  | .EQ => key = lit
  | .NE => key ≠ lit
  | .LT => key < lit
  | .GT => key > lit
  | .LE => key ≤ lit
  | .GE => key ≥ lit

instance (c : Comparator) (key lit : Int) : Decidable (c.holds key lit) := by
  cases c <;> unfold Comparator.holds <;> infer_instance

/-- The key `k` satisfies every key predicate of `cond`. -/
def satisfiesKeyPreds (k : Int) (cond : List SelCond) : Prop :=
  ∀ c ∈ cond, c.attr = 1 → c.comp.holds k c.value

instance (k : Int) (cond : List SelCond) : Decidable (satisfiesKeyPreds k cond) := by
  unfold satisfiesKeyPreds; infer_instance

/-- The key `k` differs from the literal of every key `NE` predicate of `cond`. -/
def avoidsKeyNE (k : Int) (cond : List SelCond) : Prop :=
  ∀ c ∈ cond, c.attr = 1 → c.comp = Comparator.NE → k ≠ c.value

instance (k : Int) (cond : List SelCond) : Decidable (avoidsKeyNE k cond) := by
  unfold avoidsKeyNE; infer_instance

/-- A 32-bit integer. -/
def isInt32 (k : Int) : Prop := INT_MIN ≤ k ∧ k ≤ INT_MAX

instance (k : Int) : Decidable (isInt32 k) := by
  unfold isInt32; infer_instance

/-- The key `k` respects the low bound held in `gtExists`, `gtNotGte`, `gtKey`. -/
def PlanState.aboveLow (s : PlanState) (k : Int) : Prop :=
  s.gtExists = true → if s.gtNotGte = true then k > s.gtKey else k ≥ s.gtKey

/-- The key `k` is below the high bound `ltKey`, when the planner holds one. -/
def PlanState.belowHigh (s : PlanState) (k : Int) : Prop :=
  s.ltExists = true → k < s.ltKey

/-- The child that section 4.2 of the specification prescribes for
`locateChildPtr`: `pageEntries[i]` for the smallest `i` with
`keyEntries[i] > searchKey`, and `pageEntries[keyCount]` if there is none.
`todo` counts the separators still to inspect. -/
def specChildLoop (n : BTNonLeafNode) (searchKey : Int) : Nat → Nat → PageId
  | 0, i => n.pageAt i
  | todo + 1, i =>
    if n.keyAt i > searchKey then n.pageAt i
    else specChildLoop n searchKey todo (i + 1)

def specChild (n : BTNonLeafNode) (searchKey : Int) : PageId :=
  specChildLoop n searchKey n.keyCount 0

/-- The entries of a leaf that are in use, `entries[0..keyCount)`. -/
def BTLeafNode.used (n : BTLeafNode) : List BuffEntry :=
  n.entries.take n.keyCount

/-- The entry `e` put into a list of entries at its sorted position, the first
position whose stored key is `≥ e.key` (section 4.1). -/
def insertSorted (e : BuffEntry) : List BuffEntry → List BuffEntry
  | [] => [e]
  | x :: xs => if x.key ≥ e.key then e :: x :: xs else x :: insertSorted e xs

/-- The leaf stored in page `pid` of the file, if that page holds a leaf. -/
def PageFile.leafAt (pf : PageFile) (pid : Nat) : Option BTLeafNode :=
  match pf.pages.get? pid with
  | some (Page.leaf n) => some n
  | _ => none

/-- The non-leaf stored in page `pid` of the file, if that page holds one. -/
def PageFile.nonLeafAt (pf : PageFile) (pid : Nat) : Option BTNonLeafNode :=
  match pf.pages.get? pid with
  | some (Page.nonleaf n) => some n
  | _ => none

/-- The keys of the entries in use of a leaf are non-decreasing. -/
def BTLeafNode.sortedKeys (n : BTLeafNode) : Prop :=
  ∀ i, i < n.keyCount - 1 → (n.entry i).key ≤ (n.entry (i + 1)).key

instance (n : BTLeafNode) : Decidable n.sortedKeys := by
  unfold BTLeafNode.sortedKeys; infer_instance

/-- The separators in use of a non-leaf are non-decreasing. -/
def BTNonLeafNode.sortedKeys (n : BTNonLeafNode) : Prop :=
  ∀ i, i < n.keyCount - 1 → n.keyAt i ≤ n.keyAt (i + 1)

instance (n : BTNonLeafNode) : Decidable n.sortedKeys := by
  unfold BTNonLeafNode.sortedKeys; infer_instance

/-- The separators of a non-leaf that are in use, `keyEntries[0..keyCount)`. -/
def BTNonLeafNode.usedKeys (n : BTNonLeafNode) : List Int :=
  n.keyEntries.take n.keyCount

/-- The children of a non-leaf that are in use, `pageEntries[0..keyCount]`. -/
def BTNonLeafNode.usedPages (n : BTNonLeafNode) : List PageId :=
  n.pageEntries.take (n.keyCount + 1)

/-- The key `k` put into a list of keys at its sorted position, the first
position whose stored key is `≥ k`. -/
def insertSortedKey (k : Int) : List Int → List Int
  | [] => [k]
  | x :: xs => if x ≥ k then k :: x :: xs else x :: insertSortedKey k xs

/-- The `n` pairs `(k+1, rid k), (k+2, rid (k+1)), ...`: consecutive keys from
`k + 1` on, the key `i + 1` with the record locator `rid i`. -/
def numbered (rid : Nat → RecordId) : Nat → Nat → List (Int × RecordId)
  | _, 0 => []
  | k, n + 1 => (Int.ofNat k + 1, rid k) :: numbered rid (k + 1) n

/-! ## Inputs used in the evaluations -/

/-- Modelled from the spec: the leaf capacity of section 6,
`L = floor((PAGE_SIZE - 8) / 12)` for pages of 1024 bytes; `MAX_ENTRIES` of the
missing `BTreeNode.h`. -/
def leafCapacity : Nat := (1024 - 8) / 12

/-- Modelled from the spec: the non-leaf capacity of section 6,
`K = floor((PAGE_SIZE - 8) / 8)` for pages of 1024 bytes; `MAX_KEYS` of the
missing `BTreeNode.h`. -/
def nonLeafCapacity : Nat := (1024 - 8) / 8

/-- Local nodes whose arrays happen to hold zeros. -/
def zeroed : Uninit :=
  { entries := List.replicate leafCapacity default,
    keyEntries := List.replicate nonLeafCapacity 0,
    pageEntries := List.replicate (nonLeafCapacity + 1) 0 }

/-- An index file that holds the metadata page only, so that `endPid()` is `1`
at the first insert, as the source expects (`// Should be 1`). -/
def freshFile : PageFile :=
  { pages := [Page.metadata (-1) 0] }

/-- The `n` pairs `(lo, (0,0)), (lo+1, (1,0)), ...`: consecutive keys, each
with a record locator of its own. -/
def ascending (lo : Int) (n : Nat) : List (Int × RecordId) :=
  (List.range n).map fun i => (lo + Int.ofNat i, ⟨Int.ofNat i, 0⟩)

/-- The keys `1 .. 85` inserted, in that order, into the empty index. -/
def run85 : List RC × BTreeIndex :=
  BTreeIndex.insertAll leafCapacity nonLeafCapacity zeroed (BTreeIndex.init freshFile)
    (ascending 1 85)

/-- The keys `-43 .. 40` inserted, in that order, into the empty index: the
root leaf is full and its entry `floor(L/2)` has key `-1`. -/
def runNeg : List RC × BTreeIndex :=
  BTreeIndex.insertAll leafCapacity nonLeafCapacity zeroed (BTreeIndex.init freshFile)
    (ascending (-43) 84)

/-- The key `5` inserted into the empty index. -/
def runOne : RC × BTreeIndex :=
  BTreeIndex.insert leafCapacity nonLeafCapacity zeroed (BTreeIndex.init freshFile) 5 ⟨0, 0⟩

/-- The leaf written by `runOne`. -/
def leafOne : BTLeafNode :=
  { keyCount := 1, nextNode := -1, entries := zeroed.entries.set 0 ⟨⟨0, 0⟩, 5⟩ }

/-- A non-leaf with the separators `10, 20` and the children `1, 2, 3`. -/
def twoKeys : BTNonLeafNode :=
  { keyCount := 2,
    keyEntries := 10 :: 20 :: List.replicate (nonLeafCapacity - 2) 0,
    pageEntries := 1 :: 2 :: 3 :: List.replicate (nonLeafCapacity - 2) 0 }

/-- A full leaf with the keys `10, 20, ..., 840` and next-leaf pointer `9`. -/
def fullLeaf : BTLeafNode :=
  { keyCount := leafCapacity, nextNode := 9,
    entries := (List.range leafCapacity).map fun i => ⟨⟨Int.ofNat i, 0⟩, 10 * (Int.ofNat i + 1)⟩ }

/-- A local leaf whose slots hold `-7` throughout. -/
def junkLeaf : BTLeafNode :=
  BTLeafNode.init (List.replicate leafCapacity ⟨⟨-7, -7⟩, -7⟩)

/-- The split of `fullLeaf` by the key `505`, which sorts into the sibling. -/
def splitHigh : BTLeafNode.SplitResult :=
  fullLeaf.insertAndSplit leafCapacity 505 ⟨99, 1⟩ junkLeaf 0

/-- The split of `fullLeaf` by the key `5`, which sorts into the left node. -/
def splitLow : BTLeafNode.SplitResult :=
  fullLeaf.insertAndSplit leafCapacity 5 ⟨99, 1⟩ junkLeaf 0

/-- The conditions `key >= 10 AND key <= 20`. -/
def condRange : List SelCond :=
  [⟨1, Comparator.GE, 10⟩, ⟨1, Comparator.LE, 20⟩]

/-- The conditions `key = 5 AND key > 10`. -/
def condEqOutside : List SelCond :=
  [⟨1, Comparator.EQ, 5⟩, ⟨1, Comparator.GT, 10⟩]

/-- The condition `key >= 2147483647`. -/
def condGeMax : List SelCond :=
  [⟨1, Comparator.GE, INT_MAX⟩]

/-- The conditions `key >= 5 AND key <= 5`. -/
def condPoint : List SelCond :=
  [⟨1, Comparator.GE, 5⟩, ⟨1, Comparator.LE, 5⟩]

/-- A leaf of capacity `4` holding the keys `10, 20, 30`. -/
def smallLeaf : BTLeafNode :=
  { keyCount := 3, nextNode := 9,
    entries := [⟨⟨0, 0⟩, 10⟩, ⟨⟨1, 0⟩, 20⟩, ⟨⟨2, 0⟩, 30⟩, ⟨⟨-7, -7⟩, -7⟩] }

/-- A full leaf of capacity `4` holding the keys `10, 20, 30, 40`. -/
def smallFullLeaf : BTLeafNode :=
  { keyCount := 4, nextNode := 9,
    entries := [⟨⟨0, 0⟩, 10⟩, ⟨⟨1, 0⟩, 20⟩, ⟨⟨2, 0⟩, 30⟩, ⟨⟨3, 0⟩, 40⟩] }

/-- A local leaf of capacity `4` whose slots hold `-7`. -/
def smallJunkLeaf : BTLeafNode :=
  BTLeafNode.init (List.replicate 4 ⟨⟨-7, -7⟩, -7⟩)

/-- A non-leaf of capacity `4` with the separators `10, 20, 30` and the
children `1, 2, 3, 4`. -/
def smallNonLeaf : BTNonLeafNode :=
  { keyCount := 3, keyEntries := [10, 20, 30, -7], pageEntries := [1, 2, 3, 4, -7] }

/-- A full non-leaf of capacity `4` with the separators `10, 20, 30, 40` and
the children `1, 2, 3, 4, 5`. -/
def smallFullNonLeaf : BTNonLeafNode :=
  { keyCount := 4, keyEntries := [10, 20, 30, 40], pageEntries := [1, 2, 3, 4, 5] }

/-- A local non-leaf of capacity `4` whose slots hold `-7`. -/
def smallJunkNonLeaf : BTNonLeafNode :=
  BTNonLeafNode.init (List.replicate 4 (-7)) (List.replicate 5 (-7))

/-- A full non-leaf with the separators `10, 20, ..., 1270` and the children
`100, 101, ..., 227`. -/
def fullNonLeaf : BTNonLeafNode :=
  { keyCount := nonLeafCapacity,
    keyEntries := (List.range nonLeafCapacity).map fun i => 10 * (Int.ofNat i + 1),
    pageEntries := (List.range (nonLeafCapacity + 1)).map fun i => 100 + Int.ofNat i }

/-- A local non-leaf whose slots hold `-7`. -/
def junkNonLeaf : BTNonLeafNode :=
  BTNonLeafNode.init (List.replicate nonLeafCapacity (-7))
    (List.replicate (nonLeafCapacity + 1) (-7))

/-- The split of `fullNonLeaf` by the key `2000`, larger than every separator. -/
def splitTop : BTNonLeafNode.SplitResult :=
  fullNonLeaf.insertAndSplit nonLeafCapacity 2000 555 junkNonLeaf 0

/-- A sibling that is not empty: three entries are counted as in use. -/
def busyLeaf : BTLeafNode :=
  { junkLeaf with keyCount := 3 }

/-- The conditions `key > 5 AND key < 5`. -/
def condEmpty : List SelCond :=
  [⟨1, Comparator.GT, 5⟩, ⟨1, Comparator.LT, 5⟩]

/-- The conditions `key > 10 AND key < 20`. -/
def condStrict : List SelCond :=
  [⟨1, Comparator.GT, 10⟩, ⟨1, Comparator.LT, 20⟩]

/-- The condition `key > -1`. -/
def condPositive : List SelCond :=
  [⟨1, Comparator.GT, -1⟩]

/-- An index of height `2` whose root is page `3`. -/
def grownIndex : BTreeIndex :=
  { pf := freshFile, rootPid := 3, treeHeight := 2 }

/-! ## Theorems -/

/-- The loop of `BTLeafNode::locate` finds nothing when every key it inspects
is smaller than `searchKey`. -/
theorem leaf_locateLoop_none (n : BTLeafNode) (searchKey : Int) :
    ∀ (todo i : Nat), (∀ j, i ≤ j → j < i + todo → (n.entry j).key < searchKey) →
      BTLeafNode.locateLoop n searchKey todo i = none := by
  intro todo
  induction todo with
  | zero => intro i _; rfl
  | succ m ih =>
    intro i h
    have h0 : ¬ (n.entry i).key ≥ searchKey := by
      have := h i (Nat.le_refl i) (by omega)
      omega
    simp only [BTLeafNode.locateLoop, h0, if_false]
    exact ih (i + 1) (fun j h1 h2 => h j (by omega) (by omega))

/-- The loop of `BTNonLeafNode::locate` finds nothing when every separator it
inspects is smaller than `searchKey`. -/
theorem nonLeaf_locateLoop_none (n : BTNonLeafNode) (searchKey : Int) :
    ∀ (todo i : Nat), (∀ j, i ≤ j → j < i + todo → n.keyAt j < searchKey) →
      BTNonLeafNode.locateLoop n searchKey todo i = none := by
  intro todo
  induction todo with
  | zero => intro i _; rfl
  | succ m ih =>
    intro i h
    have h0 : ¬ n.keyAt i ≥ searchKey := by
      have := h i (Nat.le_refl i) (by omega)
      omega
    simp only [BTNonLeafNode.locateLoop, h0, if_false]
    exact ih (i + 1) (fun j h1 h2 => h j (by omega) (by omega))

set_option maxRecDepth 200000

/-- Claim C1 fails on the code.  The keys `1 .. 85` are inserted into the empty
index with capacity `L = 84`, every call returning `0`.  Afterwards `locate(1)`
returns `0` with the cursor at entry `0` of page `2`, where `readForward` reads
the key `43`, not `1`; and `locate(85)` returns `-1`. -/
theorem insert_then_locate_misses_inserted_key :
    run85.1 = List.replicate 85 0
    ∧ ((1 : Int), (⟨0, 0⟩ : RecordId)) ∈ ascending 1 85
    ∧ BTreeIndex.locate zeroed run85.2 1 ⟨0, 0⟩ = (0, ⟨2, 0⟩)
    ∧ (BTreeIndex.readForward zeroed run85.2 ⟨2, 0⟩ 0 default).rc = 0
    ∧ (BTreeIndex.readForward zeroed run85.2 ⟨2, 0⟩ 0 default).key = 43
    ∧ ((85 : Int), (⟨84, 0⟩ : RecordId)) ∈ ascending 1 85
    ∧ BTreeIndex.locate zeroed run85.2 85 ⟨0, 0⟩ = (-1, ⟨0, 0⟩) := by
  decide!

/-- Claim C2 fails on the code.  On the non-leaf with separators `10, 20` and
children `1, 2, 3`, `locateChildPtr(5)` returns child `2` where the
specification prescribes `pageEntries[0] = 1`, and `locateChildPtr(15)` returns
child `3` where the specification prescribes `pageEntries[1] = 2`. -/
theorem locateChildPtr_differs_from_spec_child :
    twoKeys.keyCount = 2 ∧ twoKeys.keyAt 0 ≤ twoKeys.keyAt 1
    ∧ twoKeys.locateChildPtr 5 0 = (0, 2) ∧ specChild twoKeys 5 = 1
    ∧ twoKeys.locateChildPtr 15 0 = (0, 3) ∧ specChild twoKeys 15 = 2 := by
  decide!

/-- Claim C3 fails on the code.  Whenever `searchKey` is larger than every
separator of a non-leaf, `locateChildPtr` returns the not-found code `-1` and
leaves the out-parameter `pid` alone. -/
theorem locateChildPtr_not_found_above_separators (n : BTNonLeafNode) (searchKey : Int)
    (pid0 : PageId) (h : ∀ i, i < n.keyCount → n.keyAt i < searchKey) :
    n.locateChildPtr searchKey pid0 = (-1, pid0) := by
  have hl : BTNonLeafNode.locateLoop n searchKey n.getKeyCount 0 = none :=
    nonLeaf_locateLoop_none n searchKey n.getKeyCount 0
      (fun j _ h2 => h j (by simpa [BTNonLeafNode.getKeyCount] using h2))
  simp [BTNonLeafNode.locateChildPtr, BTNonLeafNode.locate, hl]

/-- Claim C3, at the non-leaf with separators `10, 20` and `searchKey = 25`. -/
theorem locateChildPtr_not_found_above_separators_witness :
    (∀ i, i < twoKeys.keyCount → twoKeys.keyAt i < 25)
    ∧ twoKeys.locateChildPtr 25 0 = (-1, 0) :=
  ⟨by decide, locateChildPtr_not_found_above_separators twoKeys 25 0 (by decide)⟩

/-- Claim C4 fails on the code.  The full leaf with the non-decreasing keys
`10, 20, ..., 840` is split with an empty sibling.  For the new key `505` (sibling side) the entry
with key `510` is gone afterwards and a slot the call never wrote counts as an
entry of the sibling.  For the new key `5` (left side) only the first `L - half`
bytes of the upper half reach the sibling, and the entry with key `840` is gone.
In both cases the entries of the two nodes are not the original entries with
the new one inserted. -/
theorem leaf_insertAndSplit_loses_entries :
    fullLeaf.keyCount = leafCapacity ∧ junkLeaf.keyCount = 0
    ∧ List.Pairwise (fun a b => a ≤ b) (fullLeaf.used.map BuffEntry.key)
    ∧ splitHigh.rc = 0
    ∧ splitHigh.node.used ++ splitHigh.sibling.used
        ≠ insertSorted ⟨⟨99, 1⟩, 505⟩ fullLeaf.used
    ∧ (⟨⟨50, 0⟩, 510⟩ : BuffEntry) ∈ fullLeaf.used
    ∧ (⟨⟨50, 0⟩, 510⟩ : BuffEntry) ∉ splitHigh.node.used ++ splitHigh.sibling.used
    ∧ (⟨⟨-7, -7⟩, -7⟩ : BuffEntry) ∈ splitHigh.sibling.used
    ∧ splitLow.rc = 0
    ∧ splitLow.node.used ++ splitLow.sibling.used
        ≠ insertSorted ⟨⟨99, 1⟩, 5⟩ fullLeaf.used
    ∧ (⟨⟨83, 0⟩, 840⟩ : BuffEntry) ∈ fullLeaf.used
    ∧ (⟨⟨83, 0⟩, 840⟩ : BuffEntry) ∉ splitLow.node.used ++ splitLow.sibling.used := by
  decide!

/-- Claim C5 fails on the code.  `readForward` never moves the cursor: whatever
the index, the cursor and the outcome of the read, the cursor after the call is
the cursor before it. -/
theorem readForward_cursor_unchanged (u : Uninit) (t : BTreeIndex) (cursor : IndexCursor)
    (key0 : Int) (rid0 : RecordId) :
    (BTreeIndex.readForward u t cursor key0 rid0).cursor = cursor := by
  unfold BTreeIndex.readForward
  split
  split
  · rfl
  · rfl

/-- Claim C6 as stated fails.  After the single key `5` is inserted into the
empty index, the tree is the leaf of page `1` with one entry; `locate(6)` does
not return success with the cursor `(1, keyCount)`. -/
theorem locate_past_last_key_no_cursor :
    runOne.1 = 0 ∧ runOne.2.treeHeight = 1 ∧ runOne.2.rootPid = 1
    ∧ runOne.2.pf.leafAt 1 = some leafOne
    ∧ leafOne.used = [⟨⟨0, 0⟩, 5⟩]
    ∧ BTreeIndex.locate zeroed runOne.2 6 ⟨7, 7⟩ ≠ (0, ⟨1, leafOne.keyCount⟩) := by
  decide!

/-- Claim C6, amended.  In a tree of height `1`, whose root is the leaf `leaf`,
`locate` of a `searchKey` larger than every key of the leaf returns the
not-found code `-1` of `BTLeafNode::locate` and leaves the cursor as it was. -/
theorem locate_past_last_key_not_found (u : Uninit) (t : BTreeIndex) (leaf : BTLeafNode)
    (searchKey : Int) (cursor : IndexCursor) (hh : t.treeHeight = 1)
    (hroot : t.pf.read t.rootPid = .ok (Page.leaf leaf))
    (hk : ∀ i, i < leaf.keyCount → (leaf.entry i).key < searchKey) :
    BTreeIndex.locate u t searchKey cursor = (-1, cursor) := by
  have hl : BTLeafNode.locateLoop leaf searchKey leaf.getKeyCount 0 = none :=
    leaf_locateLoop_none leaf searchKey leaf.getKeyCount 0
      (fun j _ h2 => hk j (by simpa [BTLeafNode.getKeyCount] using h2))
  simp [BTreeIndex.locate, hh, BTreeIndex.descend, BTLeafNode.read, hroot, BTLeafNode.locate, hl]

/-- Claim C6, amended, at the tree that holds the single key `5` and
`searchKey = 6`. -/
theorem locate_past_last_key_not_found_witness :
    runOne.2.treeHeight = 1
    ∧ runOne.2.pf.read runOne.2.rootPid = .ok (Page.leaf leafOne)
    ∧ (∀ i, i < leafOne.keyCount → (leafOne.entry i).key < 6)
    ∧ BTreeIndex.locate zeroed runOne.2 6 ⟨7, 7⟩ = (-1, ⟨7, 7⟩) :=
  ⟨by decide, by rfl, by decide,
    locate_past_last_key_not_found zeroed runOne.2 leafOne 6 ⟨7, 7⟩ (by decide) (by rfl)
      (by decide)⟩

/-- Claim C7 fails on the code.  After the keys `1 .. 85` the tree has height
`2`; the root, page `3`, sends the key `43` to the leaf of page `2`, which holds
`43` of `84` entries.  Inserting the key `43` adds the entry to that leaf
without a split (the call at the leaf
level returns `0` and promotes nothing), yet `insert` returns `-1`. -/
theorem insert_reports_error_when_leaf_did_not_split :
    run85.1 = List.replicate 85 0
    ∧ run85.2.treeHeight = 2
    ∧ run85.2.rootPid = 3
    ∧ (run85.2.pf.nonLeafAt 3).map (fun n => n.locateChildPtr 43 0) = some (0, 2)
    ∧ (run85.2.pf.leafAt 2).map BTLeafNode.getKeyCount = some 43
    ∧ (BTreeIndex.insertRecursive leafCapacity nonLeafCapacity zeroed 43 ⟨100, 0⟩ 1
        run85.2.pf 2 (-1) (-1)).rc = 0
    ∧ (BTreeIndex.insertRecursive leafCapacity nonLeafCapacity zeroed 43 ⟨100, 0⟩ 1
        run85.2.pf 2 (-1) (-1)).outKey = -1
    ∧ (BTreeIndex.insert leafCapacity nonLeafCapacity zeroed run85.2 43 ⟨100, 0⟩).1 = -1
    ∧ ((BTreeIndex.insert leafCapacity nonLeafCapacity zeroed run85.2 43 ⟨100, 0⟩).2.pf.leafAt
        2).map BTLeafNode.getKeyCount = some 44 := by
  decide!

/-- Claim C8 fails on the code.  After the keys `-43 .. 40` the root is a full
leaf, page `1`, whose entry `floor(L/2)` has key `-1`.  Inserting `41` splits
it: the call at the leaf level returns `0` and promotes `(-1, 2)`.  `insert`
returns `0`, but `treeHeight` is still `1`, `rootPid` is still `1` and no page
beyond the sibling was allocated. -/
theorem insert_drops_root_split_promoting_minus_one :
    runNeg.1 = List.replicate 84 0
    ∧ runNeg.2.treeHeight = 1 ∧ runNeg.2.rootPid = 1 ∧ runNeg.2.pf.endPid = 2
    ∧ (BTreeIndex.insertRecursive leafCapacity nonLeafCapacity zeroed 41 ⟨100, 0⟩ 1
        runNeg.2.pf 1 (-1) (-1)).rc = 0
    ∧ (BTreeIndex.insertRecursive leafCapacity nonLeafCapacity zeroed 41 ⟨100, 0⟩ 1
        runNeg.2.pf 1 (-1) (-1)).outKey = -1
    ∧ (BTreeIndex.insertRecursive leafCapacity nonLeafCapacity zeroed 41 ⟨100, 0⟩ 1
        runNeg.2.pf 1 (-1) (-1)).outPid = 2
    ∧ (BTreeIndex.insert leafCapacity nonLeafCapacity zeroed runNeg.2 41 ⟨100, 0⟩).1 = 0
    ∧ (BTreeIndex.insert leafCapacity nonLeafCapacity zeroed runNeg.2 41 ⟨100, 0⟩).2.treeHeight
        = 1
    ∧ (BTreeIndex.insert leafCapacity nonLeafCapacity zeroed runNeg.2 41 ⟨100, 0⟩).2.rootPid = 1
    ∧ (BTreeIndex.insert leafCapacity nonLeafCapacity zeroed runNeg.2 41 ⟨100, 0⟩).2.pf.endPid
        = 3 := by
  decide!

/-- Claim C9 fails on the code.  For `key >= 10 AND key <= 20` the planner does
not report no-results and chooses the index, with `minKey = 10` and
`maxKey = 19`: the key `20` satisfies both predicates and lies outside the
range. -/
theorem plan_range_excludes_satisfying_key :
    (SqlEngine.plan 1 condRange).noResults = false
    ∧ SqlEngine.usesIndex true (SqlEngine.plan 1 condRange) = true
    ∧ SqlEngine.minKey (SqlEngine.plan 1 condRange) = 10
    ∧ SqlEngine.maxKey (SqlEngine.plan 1 condRange) = 19
    ∧ isInt32 20 ∧ satisfiesKeyPreds 20 condRange
    ∧ ¬ (20 ≤ SqlEngine.maxKey (SqlEngine.plan 1 condRange)) := by
  decide!

/-- Claim C10 fails on the code.  For `key = 5 AND key > 10` the planner does
not report no-results and sets `minKey = maxKey = 5`: the key `5` lies in the
range, there is no `NE` predicate, and `5` does not satisfy `key > 10`. -/
theorem plan_range_includes_unsatisfying_key :
    (SqlEngine.plan 1 condEqOutside).noResults = false
    ∧ SqlEngine.usesIndex true (SqlEngine.plan 1 condEqOutside) = true
    ∧ SqlEngine.minKey (SqlEngine.plan 1 condEqOutside) = 5
    ∧ SqlEngine.maxKey (SqlEngine.plan 1 condEqOutside) = 5
    ∧ avoidsKeyNE 5 condEqOutside
    ∧ ¬ satisfiesKeyPreds 5 condEqOutside := by
  decide!

/-! ### Loads and stores, and the loops of `locate` and `insert` -/

/-- A load after a store: the stored value at the index stored to, if that
index is within the list, and the old value elsewhere. -/
theorem getD_set_ite {α : Type} (l : List α) (i j : Nat) (a d : α) :
    (l.set i a).getD j d = if i = j ∧ i < l.length then a else l.getD j d := by
  simp only [List.getD_eq_getElem?_getD, List.getElem?_set]
  by_cases h : i = j
  · subst h
    by_cases h2 : i < l.length
    · simp [h2]
    · simp [h2, List.getElem?_eq_none (Nat.le_of_not_lt h2)]
  · simp [h]

/-- The loop of `BTLeafNode::locate`, characterised. -/
theorem leaf_locateLoop_spec (n : BTLeafNode) (searchKey : Int) :
    ∀ (todo i : Nat),
      (∃ p, BTLeafNode.locateLoop n searchKey todo i = some p ∧ i ≤ p ∧ p < i + todo
          ∧ (n.entry p).key ≥ searchKey ∧ ∀ j, i ≤ j → j < p → (n.entry j).key < searchKey)
      ∨ (BTLeafNode.locateLoop n searchKey todo i = none
          ∧ ∀ j, i ≤ j → j < i + todo → (n.entry j).key < searchKey) := by
  intro todo
  induction todo with
  | zero => intro i; right; exact ⟨rfl, fun j h1 h2 => by omega⟩
  | succ m ih =>
    intro i
    by_cases h0 : (n.entry i).key ≥ searchKey
    · left
      refine ⟨i, ?_, Nat.le_refl i, by omega, h0, fun j h1 h2 => by omega⟩
      simp only [BTLeafNode.locateLoop, h0, if_true]
    · rcases ih (i + 1) with ⟨p, hp, h1, h2, h3, h4⟩ | ⟨hn, h4⟩
      · left
        refine ⟨p, ?_, by omega, by omega, h3, ?_⟩
        · simp only [BTLeafNode.locateLoop, h0, if_false]; exact hp
        · intro j hj1 hj2
          by_cases hji : j = i
          · subst hji; omega
          · exact h4 j (by omega) hj2
      · right
        refine ⟨?_, ?_⟩
        · simp only [BTLeafNode.locateLoop, h0, if_false]; exact hn
        · intro j hj1 hj2
          by_cases hji : j = i
          · subst hji; omega
          · exact h4 j (by omega) (by omega)

/-- The two outcomes of `BTLeafNode::locate`. -/
theorem leaf_locate_cases (n : BTLeafNode) (searchKey : Int) (eid0 : Nat) :
    (∃ p, n.locate searchKey eid0 = (0, p) ∧ p < n.keyCount
        ∧ (n.entry p).key ≥ searchKey ∧ ∀ j, j < p → (n.entry j).key < searchKey)
    ∨ (n.locate searchKey eid0 = (-1, eid0)
        ∧ ∀ j, j < n.keyCount → (n.entry j).key < searchKey) := by
  rcases leaf_locateLoop_spec n searchKey n.getKeyCount 0 with ⟨p, hp, _, h2, h3, h4⟩ | ⟨hn, h4⟩
  · left
    refine ⟨p, ?_, by simpa [BTLeafNode.getKeyCount] using h2, h3,
      fun j hj => h4 j (Nat.zero_le j) hj⟩
    simp [BTLeafNode.locate, hp]
  · right
    refine ⟨?_, fun j hj => h4 j (Nat.zero_le j) (by simpa [BTLeafNode.getKeyCount] using hj)⟩
    simp [BTLeafNode.locate, hn]

/-- The loop of `BTNonLeafNode::locate`, characterised. -/
theorem nonLeaf_locateLoop_spec (n : BTNonLeafNode) (searchKey : Int) :
    ∀ (todo i : Nat),
      (∃ p, BTNonLeafNode.locateLoop n searchKey todo i = some p ∧ i ≤ p ∧ p < i + todo
          ∧ n.keyAt p ≥ searchKey ∧ ∀ j, i ≤ j → j < p → n.keyAt j < searchKey)
      ∨ (BTNonLeafNode.locateLoop n searchKey todo i = none
          ∧ ∀ j, i ≤ j → j < i + todo → n.keyAt j < searchKey) := by
  intro todo
  induction todo with
  | zero => intro i; right; exact ⟨rfl, fun j h1 h2 => by omega⟩
  | succ m ih =>
    intro i
    by_cases h0 : n.keyAt i ≥ searchKey
    · left
      refine ⟨i, ?_, Nat.le_refl i, by omega, h0, fun j h1 h2 => by omega⟩
      simp only [BTNonLeafNode.locateLoop, h0, if_true]
    · rcases ih (i + 1) with ⟨p, hp, h1, h2, h3, h4⟩ | ⟨hn, h4⟩
      · left
        refine ⟨p, ?_, by omega, by omega, h3, ?_⟩
        · simp only [BTNonLeafNode.locateLoop, h0, if_false]; exact hp
        · intro j hj1 hj2
          by_cases hji : j = i
          · subst hji; omega
          · exact h4 j (by omega) hj2
      · right
        refine ⟨?_, ?_⟩
        · simp only [BTNonLeafNode.locateLoop, h0, if_false]; exact hn
        · intro j hj1 hj2
          by_cases hji : j = i
          · subst hji; omega
          · exact h4 j (by omega) (by omega)

/-- The two outcomes of `BTNonLeafNode::locate`. -/
theorem nonLeaf_locate_cases (n : BTNonLeafNode) (searchKey : Int) (eid0 : Nat) :
    (∃ p, n.locate searchKey eid0 = (0, p) ∧ p < n.keyCount
        ∧ n.keyAt p ≥ searchKey ∧ ∀ j, j < p → n.keyAt j < searchKey)
    ∨ (n.locate searchKey eid0 = (-1, eid0)
        ∧ ∀ j, j < n.keyCount → n.keyAt j < searchKey) := by
  rcases nonLeaf_locateLoop_spec n searchKey n.getKeyCount 0 with
    ⟨p, hp, _, h2, h3, h4⟩ | ⟨hn, h4⟩
  · left
    refine ⟨p, ?_, by simpa [BTNonLeafNode.getKeyCount] using h2, h3,
      fun j hj => h4 j (Nat.zero_le j) hj⟩
    simp [BTNonLeafNode.locate, hp]
  · right
    refine ⟨?_, fun j hj => h4 j (Nat.zero_le j) (by simpa [BTNonLeafNode.getKeyCount] using hj)⟩
    simp [BTNonLeafNode.locate, hn]

/-- The shifting loop of `BTLeafNode::insert` keeps the number of slots. -/
theorem leaf_shiftLoop_length : ∀ (todo i : Nat) (es : List BuffEntry),
    (BTLeafNode.shiftLoop es todo i).length = es.length := by
  intro todo
  induction todo with
  | zero => intro i es; rfl
  | succ m ih =>
    intro i es
    simp only [BTLeafNode.shiftLoop]
    rw [ih]
    simp

/-- The shifting loop of `BTLeafNode::insert`: the slots `(i - todo, i]` receive
the content of their left neighbour, the others keep theirs. -/
theorem leaf_shiftLoop_getD : ∀ (todo i : Nat) (es : List BuffEntry), todo ≤ i → i < es.length →
    ∀ j, (BTLeafNode.shiftLoop es todo i).getD j default
      = if i - todo < j ∧ j ≤ i then es.getD (j - 1) default else es.getD j default := by
  intro todo
  induction todo with
  | zero =>
    intro i es _ _ j
    have : ¬ (i - 0 < j ∧ j ≤ i) := by omega
    simp only [BTLeafNode.shiftLoop, this, if_false]
  | succ m ih =>
    intro i es h1 h2 j
    simp only [BTLeafNode.shiftLoop]
    rw [ih (i - 1) _ (by omega) (by simp; omega) j]
    by_cases hj : i - 1 - m < j ∧ j ≤ i - 1
    · have hj2 : i - (m + 1) < j ∧ j ≤ i := by omega
      have hne : ¬ (i = j - 1 ∧ i < es.length) := by omega
      simp only [hj, hj2, and_self, if_true, getD_set_ite, hne, if_false]
    · by_cases hji : j = i
      · subst hji
        have hj2 : j - (m + 1) < j ∧ j ≤ j := by omega
        simp only [hj, hj2, and_self, if_true, if_false, getD_set_ite, h2]
      · have hj2 : ¬ (i - (m + 1) < j ∧ j ≤ i) := by omega
        have hne : ¬ (i = j ∧ i < es.length) := by omega
        simp only [hj, hj2, if_false, getD_set_ite, hne]

/-- The shifting loop of `BTNonLeafNode::insert` keeps the number of slots. -/
theorem nonLeaf_shiftLoop_length : ∀ (todo i : Nat) (ks : List Int) (ps : List PageId),
    (BTNonLeafNode.shiftLoop ks ps todo i).1.length = ks.length
    ∧ (BTNonLeafNode.shiftLoop ks ps todo i).2.length = ps.length := by
  intro todo
  induction todo with
  | zero => intro i ks ps; exact ⟨rfl, rfl⟩
  | succ m ih =>
    intro i ks ps
    simp only [BTNonLeafNode.shiftLoop]
    have := ih (i - 1) (ks.set i (ks.getD (i - 1) 0)) (ps.set (i + 1) (ps.getD i 0))
    simpa using this

/-- The shifting loop of `BTNonLeafNode::insert`, on the keys. -/
theorem nonLeaf_shiftLoop_keys : ∀ (todo i : Nat) (ks : List Int) (ps : List PageId),
    todo ≤ i → i < ks.length →
    ∀ j, (BTNonLeafNode.shiftLoop ks ps todo i).1.getD j 0
      = if i - todo < j ∧ j ≤ i then ks.getD (j - 1) 0 else ks.getD j 0 := by
  intro todo
  induction todo with
  | zero =>
    intro i ks ps _ _ j
    have : ¬ (i - 0 < j ∧ j ≤ i) := by omega
    simp only [BTNonLeafNode.shiftLoop, this, if_false]
  | succ m ih =>
    intro i ks ps h1 h2 j
    simp only [BTNonLeafNode.shiftLoop]
    rw [ih (i - 1) _ _ (by omega) (by simp; omega) j]
    by_cases hj : i - 1 - m < j ∧ j ≤ i - 1
    · have hj2 : i - (m + 1) < j ∧ j ≤ i := by omega
      have hne : ¬ (i = j - 1 ∧ i < ks.length) := by omega
      simp only [hj, hj2, and_self, if_true, getD_set_ite, hne, if_false]
    · by_cases hji : j = i
      · subst hji
        have hj2 : j - (m + 1) < j ∧ j ≤ j := by omega
        simp only [hj, hj2, and_self, if_true, if_false, getD_set_ite, h2]
      · have hj2 : ¬ (i - (m + 1) < j ∧ j ≤ i) := by omega
        have hne : ¬ (i = j ∧ i < ks.length) := by omega
        simp only [hj, hj2, if_false, getD_set_ite, hne]

/-- The shifting loop of `BTNonLeafNode::insert`, on the children. -/
theorem nonLeaf_shiftLoop_pages : ∀ (todo i : Nat) (ks : List Int) (ps : List PageId),
    todo ≤ i → i + 1 < ps.length →
    ∀ j, (BTNonLeafNode.shiftLoop ks ps todo i).2.getD j 0
      = if i + 1 - todo < j ∧ j ≤ i + 1 then ps.getD (j - 1) 0 else ps.getD j 0 := by
  intro todo
  induction todo with
  | zero =>
    intro i ks ps _ _ j
    have : ¬ (i + 1 - 0 < j ∧ j ≤ i + 1) := by omega
    simp only [BTNonLeafNode.shiftLoop, this, if_false]
  | succ m ih =>
    intro i ks ps h1 h2 j
    simp only [BTNonLeafNode.shiftLoop]
    rw [ih (i - 1) _ _ (by omega) (by simp; omega) j]
    by_cases hj : i - 1 + 1 - m < j ∧ j ≤ i - 1 + 1
    · have hj2 : i + 1 - (m + 1) < j ∧ j ≤ i + 1 := by omega
      have hne : ¬ (i + 1 = j - 1 ∧ i + 1 < ps.length) := by omega
      simp only [hj, hj2, and_self, if_true, getD_set_ite, hne, if_false]
    · by_cases hji : j = i + 1
      · subst hji
        have hj2 : i + 1 - (m + 1) < i + 1 ∧ i + 1 ≤ i + 1 := by omega
        simp only [hj, hj2, and_self, if_true, if_false, getD_set_ite, h2, Nat.add_sub_cancel]
      · have hj2 : ¬ (i + 1 - (m + 1) < j ∧ j ≤ i + 1) := by omega
        have hne : ¬ (i + 1 = j ∧ i + 1 < ps.length) := by omega
        simp only [hj, hj2, if_false, getD_set_ite, hne]

/-- Claim C11 fails on the code.  For `key >= 2147483647` the planner reports
no-results although the key `2147483647` satisfies the condition, and for
`key >= 5 AND key <= 5` it reports no-results although the key `5` satisfies
both conditions. -/
theorem plan_reports_unsat_for_satisfiable :
    (SqlEngine.plan 1 condGeMax).noResults = true
    ∧ isInt32 INT_MAX ∧ satisfiesKeyPreds INT_MAX condGeMax
    ∧ (SqlEngine.plan 1 condPoint).noResults = true
    ∧ isInt32 5 ∧ satisfiesKeyPreds 5 condPoint := by
  decide

/-- Claim C12.  For every leaf and every `searchKey`, `BTLeafNode::locate` either
returns `0` with the smallest `eid` in `[0, keyCount)` whose key is
`≥ searchKey`, or returns the not-found code `-1`, leaves `eid` alone, and every
key in use is smaller than `searchKey` (so not-found is returned exactly in
that case, the empty leaf included). -/
theorem leaf_locate_smallest_or_not_found (n : BTLeafNode) (searchKey : Int) (eid0 : Nat) :
    (∃ p, n.locate searchKey eid0 = (0, p) ∧ p < n.keyCount
        ∧ (n.entry p).key ≥ searchKey ∧ ∀ j, j < p → (n.entry j).key < searchKey)
    ∨ (n.locate searchKey eid0 = (-1, eid0)
        ∧ ∀ j, j < n.keyCount → (n.entry j).key < searchKey) :=
  leaf_locate_cases n searchKey eid0

/-- Claim C13.  For a leaf with `keyCount < L` (its array has `L` slots) and
non-decreasing keys, `BTLeafNode::insert` returns `0`, increments `keyCount`,
keeps `nextNode`, and there is a position `p`, the first whose stored key is
`≥ key` (`p = keyCount` if there is none), such that the new entry is at `p`, the
entries before `p` are unchanged, the entries from `p` on have moved right by
one, and the keys are still non-decreasing. -/
theorem leaf_insert_sorted_position (L : Nat) (n : BTLeafNode) (key : Int) (rid : RecordId)
    (hc : n.keyCount < L) (hl : n.entries.length = L) (hs : n.sortedKeys) :
    ∃ p, p ≤ n.keyCount
      ∧ (∀ j, j < p → (n.entry j).key < key)
      ∧ (p < n.keyCount → (n.entry p).key ≥ key)
      ∧ (BTLeafNode.insert L n key rid).1 = 0
      ∧ (BTLeafNode.insert L n key rid).2.keyCount = n.keyCount + 1
      ∧ (BTLeafNode.insert L n key rid).2.nextNode = n.nextNode
      ∧ (BTLeafNode.insert L n key rid).2.entry p = ⟨rid, key⟩
      ∧ (∀ j, j < p → (BTLeafNode.insert L n key rid).2.entry j = n.entry j)
      ∧ (∀ j, p ≤ j → j < n.keyCount →
          (BTLeafNode.insert L n key rid).2.entry (j + 1) = n.entry j)
      ∧ (BTLeafNode.insert L n key rid).2.sortedKeys := by
  have hfull : ¬ n.getKeyCount ≥ L := by simp [BTLeafNode.getKeyCount]; omega
  rcases leaf_locate_cases n key 0 with ⟨p, hp, hpk, hge, hlt⟩ | ⟨hn, hlt⟩
  · have hins : BTLeafNode.insert L n key rid
        = (0, { n with
                entries := (BTLeafNode.shiftLoop n.entries (n.keyCount - p) n.keyCount).set p
                  ⟨rid, key⟩,
                keyCount := n.keyCount + 1 }) := by
      simp [BTLeafNode.insert, hfull, hp, BTLeafNode.getKeyCount]
      exact hc
    have hent : ∀ j, (BTLeafNode.insert L n key rid).2.entry j
        = if j = p then ⟨rid, key⟩
          else if p < j ∧ j ≤ n.keyCount then n.entry (j - 1) else n.entry j := by
      intro j
      rw [hins]
      simp only [BTLeafNode.entry, getD_set_ite, leaf_shiftLoop_length]
      rw [leaf_shiftLoop_getD _ _ _ (by omega) (by omega)]
      by_cases hj : j = p
      · subst hj
        have : j = j ∧ j < n.entries.length := ⟨rfl, by omega⟩
        simp only [this, and_self, if_true]
      · have h1 : ¬ (p = j ∧ p < n.entries.length) := by omega
        have h2 : (n.keyCount - (n.keyCount - p) < j ∧ j ≤ n.keyCount) ↔ (p < j ∧ j ≤ n.keyCount) := by
          omega
        simp only [h1, hj, if_false, h2]
    refine ⟨p, by omega, hlt, fun _ => hge, by rw [hins], by rw [hins], by rw [hins], ?_, ?_, ?_, ?_⟩
    · rw [hent]; simp
    · intro j hj
      rw [hent]
      have h1 : ¬ j = p := by omega
      have h2 : ¬ (p < j ∧ j ≤ n.keyCount) := by omega
      simp only [h1, h2, if_false]
    · intro j hj1 hj2
      rw [hent]
      have h1 : ¬ j + 1 = p := by omega
      have h2 : p < j + 1 ∧ j + 1 ≤ n.keyCount := by omega
      simp only [h1, h2, and_self, if_true, if_false, Nat.add_sub_cancel]
    · intro i hi
      have hk : (BTLeafNode.insert L n key rid).2.keyCount = n.keyCount + 1 := by rw [hins]
      rw [hk] at hi
      rw [hent i, hent (i + 1)]
      by_cases c1 : i + 1 < p
      · have a1 : ¬ i = p := by omega
        have a2 : ¬ (p < i ∧ i ≤ n.keyCount) := by omega
        have a3 : ¬ i + 1 = p := by omega
        have a4 : ¬ (p < i + 1 ∧ i + 1 ≤ n.keyCount) := by omega
        simp only [a1, a2, a3, a4, if_false]
        exact hs i (by omega)
      · by_cases c2 : i + 1 = p
        · have a1 : ¬ i = p := by omega
          have a2 : ¬ (p < i ∧ i ≤ n.keyCount) := by omega
          simp only [a1, a2, c2, if_true, if_false]
          have := hlt i (by omega)
          omega
        · by_cases c3 : i = p
          · have a3 : ¬ i + 1 = p := by omega
            have a4 : p < i + 1 ∧ i + 1 ≤ n.keyCount := by omega
            subst c3
            simp only [a3, a4, and_self, if_true, if_false, Nat.add_sub_cancel]
            exact hge
          · have a1 : p < i ∧ i ≤ n.keyCount := by omega
            have a3 : ¬ i + 1 = p := by omega
            have a4 : p < i + 1 ∧ i + 1 ≤ n.keyCount := by omega
            simp only [c3, a1, a3, a4, and_self, if_true, if_false, Nat.add_sub_cancel]
            have := hs (i - 1) (by omega)
            have e : i - 1 + 1 = i := by omega
            rw [e] at this
            exact this
  · have hins : BTLeafNode.insert L n key rid
        = (0, { n with entries := n.entries.set n.keyCount ⟨rid, key⟩,
                       keyCount := n.keyCount + 1 }) := by
      simp [BTLeafNode.insert, hfull, hn, BTLeafNode.getKeyCount]
      exact hc
    have hent : ∀ j, (BTLeafNode.insert L n key rid).2.entry j
        = if j = n.keyCount then ⟨rid, key⟩ else n.entry j := by
      intro j
      rw [hins]
      simp only [BTLeafNode.entry, getD_set_ite]
      by_cases hj : j = n.keyCount
      · subst hj
        have : n.keyCount = n.keyCount ∧ n.keyCount < n.entries.length := ⟨rfl, by omega⟩
        simp only [this, and_self, if_true]
      · have h1 : ¬ (n.keyCount = j ∧ n.keyCount < n.entries.length) := by omega
        simp only [h1, hj, if_false]
    refine ⟨n.keyCount, Nat.le_refl _, hlt, fun h => absurd h (Nat.lt_irrefl _), by rw [hins],
      by rw [hins], by rw [hins], ?_, ?_, ?_, ?_⟩
    · rw [hent]; simp
    · intro j hj
      rw [hent]
      have h1 : ¬ j = n.keyCount := by omega
      simp only [h1, if_false]
    · intro j hj1 hj2
      omega
    · intro i hi
      have hk : (BTLeafNode.insert L n key rid).2.keyCount = n.keyCount + 1 := by rw [hins]
      rw [hk] at hi
      rw [hent i, hent (i + 1)]
      have a1 : ¬ i = n.keyCount := by omega
      by_cases c : i + 1 = n.keyCount
      · simp only [a1, c, if_true, if_false]
        have := hlt i (by omega)
        omega
      · simp only [a1, c, if_false]
        exact hs i (by omega)

/-- Claim C13, at the leaf of capacity `4` with keys `10, 20, 30` and the new
key `25`. -/
theorem leaf_insert_sorted_position_witness :
    smallLeaf.keyCount < 4 ∧ smallLeaf.entries.length = 4 ∧ smallLeaf.sortedKeys
    ∧ ∃ p, p ≤ smallLeaf.keyCount
      ∧ (∀ j, j < p → (smallLeaf.entry j).key < 25)
      ∧ (p < smallLeaf.keyCount → (smallLeaf.entry p).key ≥ 25)
      ∧ (BTLeafNode.insert 4 smallLeaf 25 ⟨9, 9⟩).1 = 0
      ∧ (BTLeafNode.insert 4 smallLeaf 25 ⟨9, 9⟩).2.keyCount = smallLeaf.keyCount + 1
      ∧ (BTLeafNode.insert 4 smallLeaf 25 ⟨9, 9⟩).2.nextNode = smallLeaf.nextNode
      ∧ (BTLeafNode.insert 4 smallLeaf 25 ⟨9, 9⟩).2.entry p = ⟨⟨9, 9⟩, 25⟩
      ∧ (∀ j, j < p → (BTLeafNode.insert 4 smallLeaf 25 ⟨9, 9⟩).2.entry j = smallLeaf.entry j)
      ∧ (∀ j, p ≤ j → j < smallLeaf.keyCount →
          (BTLeafNode.insert 4 smallLeaf 25 ⟨9, 9⟩).2.entry (j + 1) = smallLeaf.entry j)
      ∧ (BTLeafNode.insert 4 smallLeaf 25 ⟨9, 9⟩).2.sortedKeys :=
  ⟨by decide, by decide, by decide,
    leaf_insert_sorted_position 4 smallLeaf 25 ⟨9, 9⟩ (by decide) (by decide) (by decide)⟩

/-- Claim C14.  A leaf with `keyCount = L` makes `BTLeafNode::insert` return the
full error `-1` with the node unchanged (`keyCount`, `nextNode` and every
entry); a leaf with `keyCount < L` makes it return `0`. -/
theorem leaf_insert_full_error (L : Nat) (n : BTLeafNode) (key : Int) (rid : RecordId) :
    (n.keyCount = L → BTLeafNode.insert L n key rid = (-1, n))
    ∧ (n.keyCount < L → (BTLeafNode.insert L n key rid).1 = 0) := by
  constructor
  · intro h
    simp [BTLeafNode.insert, BTLeafNode.getKeyCount, h]
  · intro h
    have h1 : ¬ n.keyCount ≥ L := by omega
    simp only [BTLeafNode.insert, BTLeafNode.getKeyCount, h1, if_false]

/-- Claim C14, at the full leaf of capacity `4` with keys `10, 20, 30, 40` and
at the leaf with keys `10, 20, 30`. -/
theorem leaf_insert_full_error_witness :
    smallFullLeaf.keyCount = 4
    ∧ BTLeafNode.insert 4 smallFullLeaf 25 ⟨9, 9⟩ = (-1, smallFullLeaf)
    ∧ smallLeaf.keyCount < 4
    ∧ (BTLeafNode.insert 4 smallLeaf 25 ⟨9, 9⟩).1 = 0 :=
  ⟨by decide, (leaf_insert_full_error 4 smallFullLeaf 25 ⟨9, 9⟩).1 (by decide), by decide,
    (leaf_insert_full_error 4 smallLeaf 25 ⟨9, 9⟩).2 (by decide)⟩

/-! ### Lists read slot by slot -/

/-- Two lists of the same length with the same content in every slot are equal. -/
theorem list_eq_of_getD {α : Type} (d : α) (l1 l2 : List α) (hlen : l1.length = l2.length)
    (h : ∀ i, i < l1.length → l1.getD i d = l2.getD i d) : l1 = l2 := by
  apply List.ext_getElem hlen
  intro i h1 h2
  have := h i h1
  simpa [List.getD_eq_getElem?_getD, List.getElem?_eq_getElem h1, List.getElem?_eq_getElem h2]
    using this

/-- A load from a prefix of a list. -/
theorem getD_take {α : Type} (d : α) (l : List α) (m i : Nat) :
    (l.take m).getD i d = if i < m then l.getD i d else d := by
  simp only [List.getD_eq_getElem?_getD, List.getElem?_take]
  split <;> simp

/-- A load from a suffix of a list. -/
theorem getD_drop {α : Type} (d : α) (l : List α) (m i : Nat) :
    (l.drop m).getD i d = l.getD (m + i) d := by
  simp only [List.getD_eq_getElem?_getD, List.getElem?_drop]

/-- A load from a list extended by one element. -/
theorem getD_append_single {α : Type} (d : α) (l : List α) (a : α) (i : Nat) :
    (l ++ [a]).getD i d = if i < l.length then l.getD i d else if i = l.length then a else d := by
  simp only [List.getD_eq_getElem?_getD]
  by_cases h : i < l.length
  · simp [h, List.getElem?_append_left h]
  · by_cases h2 : i = l.length
    · subst h2; simp
    · have : l.length + 1 ≤ i := by omega
      simp [h, h2, List.getElem?_eq_none, this]

/-- A key larger than every key of the list sorts behind the list. -/
theorem insertSortedKey_of_lt (k : Int) : ∀ (l : List Int), (∀ x ∈ l, x < k) →
    insertSortedKey k l = l ++ [k] := by
  intro l
  induction l with
  | nil => intro _; rfl
  | cons a as ih =>
    intro h
    have ha : ¬ a ≥ k := by
      have := h a (List.mem_cons_self a as)
      omega
    simp only [insertSortedKey, ha, if_false, List.cons_append]
    rw [ih (fun x hx => h x (List.mem_cons_of_mem a hx))]

/-! ### The paged file -/

/-- Reading the page that follows `pre`. -/
theorem pageFile_read_at (pre rest : List Page) (a : Page) :
    PageFile.read { pages := pre ++ a :: rest } (Int.ofNat pre.length) = .ok a := by
  have h : ¬ (Int.ofNat pre.length < 0) := Int.not_lt.mpr (Int.ofNat_nonneg _)
  have ht : (Int.ofNat pre.length).toNat = pre.length := rfl
  have hg : (pre ++ a :: rest).get? pre.length = some a := by
    rw [List.get?_eq_getElem?, List.getElem?_append_right (Nat.le_refl _)]
    simp
  simp only [PageFile.read, h, if_false, ht, hg]

/-- Writing the page that follows `pre` replaces it. -/
theorem pageFile_write_at (pre rest : List Page) (a b : Page) :
    PageFile.write { pages := pre ++ a :: rest } (Int.ofNat pre.length) b
      = (0, { pages := pre ++ b :: rest }) := by
  simp [PageFile.write]

/-- Writing at `endPid()` appends the page. -/
theorem pageFile_write_end (pf : PageFile) (p : Page) :
    pf.write pf.endPid p = (0, { pages := pf.pages ++ [p] }) := by
  simp [PageFile.write, PageFile.endPid]

/-! ### Node operations -/

/-- A key larger than every key of a leaf with room left is put behind the
entries in use. -/
theorem leaf_insert_at_end (L : Nat) (n : BTLeafNode) (key : Int) (rid : RecordId)
    (hc : n.keyCount < L) (hlt : ∀ j, j < n.keyCount → (n.entry j).key < key) :
    BTLeafNode.insert L n key rid
      = (0, { n with entries := n.entries.set n.keyCount ⟨rid, key⟩,
                     keyCount := n.keyCount + 1 }) := by
  have hl : BTLeafNode.locateLoop n key n.keyCount 0 = none :=
    leaf_locateLoop_none n key n.keyCount 0 (fun j _ h2 => hlt j (by omega))
  have hfull : ¬ n.keyCount ≥ L := by omega
  simp [BTLeafNode.insert, BTLeafNode.getKeyCount, BTLeafNode.locate, hl, hfull]

/-- The copy loop of `BTNonLeafNode::insertAndSplit` when the new key is larger
than every key it passes: `todo` keys and children are copied, nothing is
placed, and the other slots of the sibling keep their content. -/
theorem nonLeaf_splitLoop_append (ks : List Int) (ps : List PageId) (key : Int) (pid : PageId) :
    ∀ (todo i : Nat) (s : BTNonLeafNode.SplitLoop), s.found = false →
      (∀ x, i ≤ x → x < i + todo → ks.getD x 0 < key) →
      s.j + todo ≤ s.sibKeys.length → s.j + todo + 1 ≤ s.sibPages.length →
      (BTNonLeafNode.splitLoop ks ps key pid todo i s).found = false
      ∧ (BTNonLeafNode.splitLoop ks ps key pid todo i s).j = s.j + todo
      ∧ (BTNonLeafNode.splitLoop ks ps key pid todo i s).sibKeys.length = s.sibKeys.length
      ∧ (BTNonLeafNode.splitLoop ks ps key pid todo i s).sibPages.length = s.sibPages.length
      ∧ (∀ x, (BTNonLeafNode.splitLoop ks ps key pid todo i s).sibKeys.getD x 0
          = if s.j ≤ x ∧ x < s.j + todo then ks.getD (i + (x - s.j)) 0 else s.sibKeys.getD x 0)
      ∧ (∀ x, (BTNonLeafNode.splitLoop ks ps key pid todo i s).sibPages.getD x 0
          = if s.j + 1 ≤ x ∧ x < s.j + 1 + todo then ps.getD (i + (x - s.j)) 0
            else s.sibPages.getD x 0) := by
  intro todo
  induction todo with
  | zero =>
    intro i s hf _ _ _
    refine ⟨hf, rfl, rfl, rfl, ?_, ?_⟩
    · intro x
      have : ¬ (s.j ≤ x ∧ x < s.j + 0) := by omega
      simp only [BTNonLeafNode.splitLoop, this, if_false]
    · intro x
      have : ¬ (s.j + 1 ≤ x ∧ x < s.j + 1 + 0) := by omega
      simp only [BTNonLeafNode.splitLoop, this, if_false]
  | succ m ih =>
    intro i s hf hlt hk hp
    have h0 : ¬ ks.getD i 0 ≥ key := by
      have := hlt i (Nat.le_refl i) (by omega)
      omega
    have hstep : BTNonLeafNode.splitLoop ks ps key pid (m + 1) i s
        = BTNonLeafNode.splitLoop ks ps key pid m (i + 1)
            { sibKeys := s.sibKeys.set s.j (ks.getD i 0),
              sibPages := s.sibPages.set (s.j + 1) (ps.getD (i + 1) 0),
              j := s.j + 1, found := s.found } := by
      have hd : decide (ks.getD i 0 ≥ key) = false := decide_eq_false h0
      simp only [BTNonLeafNode.splitLoop, hf, hd, Bool.not_false, Bool.and_false,
        Bool.false_eq_true, if_false]
    rw [hstep]
    obtain ⟨r1, r2, r3, r4, r5, r6⟩ := ih (i + 1)
      { sibKeys := s.sibKeys.set s.j (ks.getD i 0),
        sibPages := s.sibPages.set (s.j + 1) (ps.getD (i + 1) 0),
        j := s.j + 1, found := s.found } hf
      (fun x h1 h2 => hlt x (by omega) (by omega))
      (by simp; omega) (by simp; omega)
    refine ⟨r1, by rw [r2]; simp; omega, by rw [r3]; simp, by rw [r4]; simp, ?_, ?_⟩
    · intro x
      rw [r5 x]
      simp only [getD_set_ite]
      by_cases c1 : s.j + 1 ≤ x ∧ x < s.j + 1 + m
      · have c2 : s.j ≤ x ∧ x < s.j + (m + 1) := by omega
        have e : i + 1 + (x - (s.j + 1)) = i + (x - s.j) := by omega
        simp only [c1, c2, and_self, if_true, e]
      · by_cases c3 : x = s.j
        · subst c3
          have c2 : s.j ≤ s.j ∧ s.j < s.j + (m + 1) := by omega
          have c4 : s.j = s.j ∧ s.j < s.sibKeys.length := ⟨rfl, by omega⟩
          simp only [c1, c2, c4, and_self, if_true, if_false, Nat.sub_self, Nat.add_zero]
        · have c2 : ¬ (s.j ≤ x ∧ x < s.j + (m + 1)) := by omega
          have c4 : ¬ (s.j = x ∧ s.j < s.sibKeys.length) := by omega
          simp only [c1, c2, c4, if_false]
    · intro x
      rw [r6 x]
      simp only [getD_set_ite]
      by_cases c1 : s.j + 1 + 1 ≤ x ∧ x < s.j + 1 + 1 + m
      · have c2 : s.j + 1 ≤ x ∧ x < s.j + 1 + (m + 1) := by omega
        have e : i + 1 + (x - (s.j + 1)) = i + (x - s.j) := by omega
        simp only [c1, c2, and_self, if_true, e]
      · by_cases c3 : x = s.j + 1
        · subst c3
          have c2 : s.j + 1 ≤ s.j + 1 ∧ s.j + 1 < s.j + 1 + (m + 1) := by omega
          have c4 : s.j + 1 = s.j + 1 ∧ s.j + 1 < s.sibPages.length := ⟨rfl, by omega⟩
          have e : s.j + 1 - s.j = 1 := by omega
          simp only [c1, c2, c4, and_self, if_true, if_false, e]
        · have c2 : ¬ (s.j + 1 ≤ x ∧ x < s.j + 1 + (m + 1)) := by omega
          have c4 : ¬ (s.j + 1 = x ∧ s.j + 1 < s.sibPages.length) := by omega
          simp only [c1, c2, c4, if_false]

/-- One insert into a tree that is a single leaf with room left, for a key
larger than every key of the leaf. -/
theorem insert_single_leaf_step (L K : Nat) (u : Uninit) (pre : List Page) (n : BTLeafNode)
    (key : Int) (rid : RecordId) (hc : n.keyCount < L)
    (hlt : ∀ j, j < n.keyCount → (n.entry j).key < key) :
    BTreeIndex.insert L K u
        { pf := { pages := pre ++ [Page.leaf n] }, rootPid := Int.ofNat pre.length,
          treeHeight := 1 } key rid
      = (0, { pf := { pages := pre ++ [Page.leaf
                        { n with entries := n.entries.set n.keyCount ⟨rid, key⟩,
                                 keyCount := n.keyCount + 1 }] },
              rootPid := Int.ofNat pre.length, treeHeight := 1 }) := by
  have hr : BTLeafNode.read (BTLeafNode.init u.entries) (Int.ofNat pre.length)
      { pages := pre ++ [Page.leaf n] } = (0, n) := by
    simp only [BTLeafNode.read, pageFile_read_at]
  have hins := leaf_insert_at_end L n key rid hc hlt
  have hw : ∀ m : BTLeafNode, BTLeafNode.write m (Int.ofNat pre.length)
      { pages := pre ++ [Page.leaf n] } = (0, { pages := pre ++ [Page.leaf m] }) := by
    intro m
    simp only [BTLeafNode.write, pageFile_write_at]
  have hrec : BTreeIndex.insertRecursive L K u key rid 1 { pages := pre ++ [Page.leaf n] }
      (Int.ofNat pre.length) (-1) (-1)
      = { rc := 0,
          pf := { pages := pre ++ [Page.leaf
                    { n with entries := n.entries.set n.keyCount ⟨rid, key⟩,
                             keyCount := n.keyCount + 1 }] },
          outKey := -1, outPid := -1 } := by
    simp only [BTreeIndex.insertRecursive, BTreeIndex.insertLeaf, hr, hins, hw]
    simp
  have h1 : (1 : Int).toNat = 1 := rfl
  simp only [BTreeIndex.insert, h1, hrec]
  simp

/-- One insert into a tree that is a single full leaf: the leaf splits and a
new root is written, provided the split succeeds and promotes a key other
than `-1`. -/
theorem insert_single_leaf_split (L K : Nat) (u : Uninit) (pre : List Page) (n : BTLeafNode)
    (key : Int) (rid : RecordId) (hc : n.keyCount ≥ L)
    (hrc : (n.insertAndSplit L key rid (BTLeafNode.init u.entries) 0).rc = 0)
    (hsk : (n.insertAndSplit L key rid (BTLeafNode.init u.entries) 0).siblingKey ≠ -1) :
    BTreeIndex.insert L K u
        { pf := { pages := pre ++ [Page.leaf n] }, rootPid := Int.ofNat pre.length,
          treeHeight := 1 } key rid
      = (0, { pf := { pages := pre ++
                [Page.leaf { (n.insertAndSplit L key rid (BTLeafNode.init u.entries) 0).node with
                    nextNode := Int.ofNat (pre.length + 1) },
                 Page.leaf { (n.insertAndSplit L key rid (BTLeafNode.init u.entries) 0).sibling with
                    nextNode :=
                      (n.insertAndSplit L key rid (BTLeafNode.init u.entries) 0).node.nextNode },
                 Page.nonleaf
                  { keyCount := 1,
                    keyEntries := u.keyEntries.set 0
                      (n.insertAndSplit L key rid (BTLeafNode.init u.entries) 0).siblingKey,
                    pageEntries := (((u.pageEntries.set 0 (-1)).set 0 (Int.ofNat pre.length)).set 1
                      (Int.ofNat (pre.length + 1))) }] },
              rootPid := Int.ofNat (pre.length + 2), treeHeight := 2 }) := by
  have hr : BTLeafNode.read (BTLeafNode.init u.entries) (Int.ofNat pre.length)
      { pages := pre ++ [Page.leaf n] } = (0, n) := by
    simp only [BTLeafNode.read, pageFile_read_at]
  have hins : BTLeafNode.insert L n key rid = (-1, n) := by
    simp [BTLeafNode.insert, BTLeafNode.getKeyCount, hc]
  have hend1 : PageFile.endPid { pages := pre ++ [Page.leaf n] } = Int.ofNat (pre.length + 1) := by
    simp [PageFile.endPid]
  have hw1 : ∀ m : BTLeafNode, BTLeafNode.write m (Int.ofNat (pre.length + 1))
      { pages := pre ++ [Page.leaf n] } = (0, { pages := pre ++ [Page.leaf n, Page.leaf m] }) := by
    intro m
    have := pageFile_write_end { pages := pre ++ [Page.leaf n] } (Page.leaf m)
    rw [hend1] at this
    simpa [BTLeafNode.write] using this
  have hw2 : ∀ m m2 : BTLeafNode, BTLeafNode.write m (Int.ofNat pre.length)
      { pages := pre ++ [Page.leaf n, Page.leaf m2] }
      = (0, { pages := pre ++ [Page.leaf m, Page.leaf m2] }) := by
    intro m m2
    simp only [BTLeafNode.write, pageFile_write_at]
  have hrec : BTreeIndex.insertRecursive L K u key rid 1 { pages := pre ++ [Page.leaf n] }
      (Int.ofNat pre.length) (-1) (-1)
      = { rc := 0,
          pf := { pages := pre ++
                [Page.leaf { (n.insertAndSplit L key rid (BTLeafNode.init u.entries) 0).node with
                    nextNode := Int.ofNat (pre.length + 1) },
                 Page.leaf { (n.insertAndSplit L key rid (BTLeafNode.init u.entries) 0).sibling with
                    nextNode :=
                      (n.insertAndSplit L key rid (BTLeafNode.init u.entries) 0).node.nextNode }] },
          outKey := (n.insertAndSplit L key rid (BTLeafNode.init u.entries) 0).siblingKey,
          outPid := Int.ofNat (pre.length + 1) } := by
    simp only [BTreeIndex.insertRecursive, BTreeIndex.insertLeaf, hr, hins, hrc, hend1,
      BTLeafNode.setNextNodePtr, BTLeafNode.getNextNodePtr, hw1, hw2]
    simp
  have hend2 : ∀ a b : Page, PageFile.endPid { pages := pre ++ [a, b] }
      = Int.ofNat (pre.length + 2) := by
    intro a b
    simp [PageFile.endPid]
  have hw3 : ∀ (a b : Page) (m : BTNonLeafNode), BTNonLeafNode.write m (Int.ofNat (pre.length + 2))
      { pages := pre ++ [a, b] } = (0, { pages := pre ++ [a, b, Page.nonleaf m] }) := by
    intro a b m
    have := pageFile_write_end { pages := pre ++ [a, b] } (Page.nonleaf m)
    rw [hend2] at this
    simpa [BTNonLeafNode.write] using this
  have hp : ¬ ((pre.length : Int) + 1 = -1) := by omega
  have h1 : (1 : Int).toNat = 1 := rfl
  simp only [BTreeIndex.insert, h1, hrec, BTNonLeafNode.initializeRoot, BTNonLeafNode.init,
    BTNonLeafNode.getKeyCount, hend2, hw3]
  simp [hsk, hp]

/-- Claim C15.  For a non-leaf whose arrays have `K` and `K + 1` slots and whose
keys are non-decreasing: if `keyCount < K`, `BTNonLeafNode::insert` returns `0`,
increments `keyCount`, and there is a position `p`, the first whose stored key
is `≥ key` (`p = keyCount` if there is none), such that `keyEntries[p] = key`,
`pageEntries[p+1] = pid`, the keys before `p` and the children up to `p` are
unchanged, the later keys and children have moved right by one, and the keys
are still non-decreasing; if `keyCount = K` it returns the full error `-1` with
the node unchanged. -/
theorem nonLeaf_insert_sorted_position (K : Nat) (n : BTNonLeafNode) (key : Int) (pid : PageId)
    (hlk : n.keyEntries.length = K) (hlp : n.pageEntries.length = K + 1) (hs : n.sortedKeys) :
    (n.keyCount < K →
      ∃ p, p ≤ n.keyCount
        ∧ (∀ j, j < p → n.keyAt j < key)
        ∧ (p < n.keyCount → n.keyAt p ≥ key)
        ∧ (BTNonLeafNode.insert K n key pid).1 = 0
        ∧ (BTNonLeafNode.insert K n key pid).2.keyCount = n.keyCount + 1
        ∧ (BTNonLeafNode.insert K n key pid).2.keyAt p = key
        ∧ (BTNonLeafNode.insert K n key pid).2.pageAt (p + 1) = pid
        ∧ (∀ j, j < p → (BTNonLeafNode.insert K n key pid).2.keyAt j = n.keyAt j)
        ∧ (∀ j, j ≤ p → (BTNonLeafNode.insert K n key pid).2.pageAt j = n.pageAt j)
        ∧ (∀ j, p ≤ j → j < n.keyCount →
            (BTNonLeafNode.insert K n key pid).2.keyAt (j + 1) = n.keyAt j)
        ∧ (∀ j, p < j → j ≤ n.keyCount →
            (BTNonLeafNode.insert K n key pid).2.pageAt (j + 1) = n.pageAt j)
        ∧ (BTNonLeafNode.insert K n key pid).2.sortedKeys)
    ∧ (n.keyCount = K → BTNonLeafNode.insert K n key pid = (-1, n)) := by
  refine ⟨?_, fun h => by simp [BTNonLeafNode.insert, BTNonLeafNode.getKeyCount, h]⟩
  intro hc
  have hfull : ¬ n.getKeyCount ≥ K := by simp [BTNonLeafNode.getKeyCount]; omega
  -- the node after the call, in terms of the position found
  have key_fact : ∃ p, p ≤ n.keyCount
      ∧ (∀ j, j < p → n.keyAt j < key)
      ∧ (p < n.keyCount → n.keyAt p ≥ key)
      ∧ (BTNonLeafNode.insert K n key pid).1 = 0
      ∧ (BTNonLeafNode.insert K n key pid).2.keyCount = n.keyCount + 1
      ∧ (∀ j, (BTNonLeafNode.insert K n key pid).2.keyAt j
          = if j = p then key
            else if p < j ∧ j ≤ n.keyCount then n.keyAt (j - 1) else n.keyAt j)
      ∧ (∀ j, (BTNonLeafNode.insert K n key pid).2.pageAt j
          = if j = p + 1 then pid
            else if p + 1 < j ∧ j ≤ n.keyCount + 1 then n.pageAt (j - 1) else n.pageAt j) := by
    rcases nonLeaf_locate_cases n key 0 with ⟨p, hp, hpk, hge, hlt⟩ | ⟨hn, hlt⟩
    · have hins : BTNonLeafNode.insert K n key pid
          = (0, { keyEntries :=
                    (BTNonLeafNode.shiftLoop n.keyEntries n.pageEntries (n.keyCount - p)
                      n.keyCount).1.set p key,
                  pageEntries :=
                    (BTNonLeafNode.shiftLoop n.keyEntries n.pageEntries (n.keyCount - p)
                      n.keyCount).2.set (p + 1) pid,
                  keyCount := n.keyCount + 1 }) := by
        simp [BTNonLeafNode.insert, hfull, hp, BTNonLeafNode.getKeyCount]
        exact hc
      refine ⟨p, by omega, hlt, fun _ => hge, by rw [hins], by rw [hins], ?_, ?_⟩
      · intro j
        rw [hins]
        simp only [BTNonLeafNode.keyAt, getD_set_ite,
          (nonLeaf_shiftLoop_length _ _ _ _).1]
        rw [nonLeaf_shiftLoop_keys _ _ _ _ (by omega) (by omega)]
        by_cases hj : j = p
        · subst hj
          have : j = j ∧ j < n.keyEntries.length := ⟨rfl, by omega⟩
          simp only [this, and_self, if_true]
        · have h1 : ¬ (p = j ∧ p < n.keyEntries.length) := by omega
          have h2 : (n.keyCount - (n.keyCount - p) < j ∧ j ≤ n.keyCount)
              ↔ (p < j ∧ j ≤ n.keyCount) := by omega
          simp only [h1, hj, if_false, h2]
      · intro j
        rw [hins]
        simp only [BTNonLeafNode.pageAt, getD_set_ite,
          (nonLeaf_shiftLoop_length _ _ _ _).2]
        rw [nonLeaf_shiftLoop_pages _ _ _ _ (by omega) (by omega)]
        by_cases hj : j = p + 1
        · subst hj
          have : p + 1 = p + 1 ∧ p + 1 < n.pageEntries.length := ⟨rfl, by omega⟩
          simp only [this, and_self, if_true]
        · have h1 : ¬ (p + 1 = j ∧ p + 1 < n.pageEntries.length) := by omega
          have h2 : (n.keyCount + 1 - (n.keyCount - p) < j ∧ j ≤ n.keyCount + 1)
              ↔ (p + 1 < j ∧ j ≤ n.keyCount + 1) := by omega
          simp only [h1, hj, if_false, h2]
    · have hins : BTNonLeafNode.insert K n key pid
          = (0, { keyEntries := n.keyEntries.set n.keyCount key,
                  pageEntries := n.pageEntries.set (n.keyCount + 1) pid,
                  keyCount := n.keyCount + 1 }) := by
        simp [BTNonLeafNode.insert, hfull, hn, BTNonLeafNode.getKeyCount]
        exact hc
      refine ⟨n.keyCount, Nat.le_refl _, hlt, fun h => absurd h (Nat.lt_irrefl _), by rw [hins],
        by rw [hins], ?_, ?_⟩
      · intro j
        rw [hins]
        simp only [BTNonLeafNode.keyAt, getD_set_ite]
        by_cases hj : j = n.keyCount
        · subst hj
          have : n.keyCount = n.keyCount ∧ n.keyCount < n.keyEntries.length := ⟨rfl, by omega⟩
          simp only [this, and_self, if_true]
        · have h1 : ¬ (n.keyCount = j ∧ n.keyCount < n.keyEntries.length) := by omega
          have h2 : ¬ (n.keyCount < j ∧ j ≤ n.keyCount) := by omega
          simp only [h1, hj, h2, if_false]
      · intro j
        rw [hins]
        simp only [BTNonLeafNode.pageAt, getD_set_ite]
        by_cases hj : j = n.keyCount + 1
        · subst hj
          have : n.keyCount + 1 = n.keyCount + 1 ∧ n.keyCount + 1 < n.pageEntries.length :=
            ⟨rfl, by omega⟩
          simp only [this, and_self, if_true]
        · have h1 : ¬ (n.keyCount + 1 = j ∧ n.keyCount + 1 < n.pageEntries.length) := by omega
          have h2 : ¬ (n.keyCount + 1 < j ∧ j ≤ n.keyCount + 1) := by omega
          simp only [h1, hj, h2, if_false]
  obtain ⟨p, hp1, hlt, hge, hrc, hk, hkey, hpage⟩ := key_fact
  refine ⟨p, hp1, hlt, hge, hrc, hk, ?_, ?_, ?_, ?_, ?_, ?_, ?_⟩
  · rw [hkey]; simp
  · rw [hpage]; simp
  · intro j hj
    rw [hkey]
    have h1 : ¬ j = p := by omega
    have h2 : ¬ (p < j ∧ j ≤ n.keyCount) := by omega
    simp only [h1, h2, if_false]
  · intro j hj
    rw [hpage]
    have h1 : ¬ j = p + 1 := by omega
    have h2 : ¬ (p + 1 < j ∧ j ≤ n.keyCount + 1) := by omega
    simp only [h1, h2, if_false]
  · intro j hj1 hj2
    rw [hkey]
    have h1 : ¬ j + 1 = p := by omega
    have h2 : p < j + 1 ∧ j + 1 ≤ n.keyCount := by omega
    simp only [h1, h2, and_self, if_true, if_false, Nat.add_sub_cancel]
  · intro j hj1 hj2
    rw [hpage]
    have h1 : ¬ j + 1 = p + 1 := by omega
    have h2 : p + 1 < j + 1 ∧ j + 1 ≤ n.keyCount + 1 := by omega
    simp only [h1, h2, and_self, if_true, if_false, Nat.add_sub_cancel]
  · intro i hi
    rw [hk] at hi
    rw [hkey i, hkey (i + 1)]
    by_cases c1 : i + 1 < p
    · have a1 : ¬ i = p := by omega
      have a2 : ¬ (p < i ∧ i ≤ n.keyCount) := by omega
      have a3 : ¬ i + 1 = p := by omega
      have a4 : ¬ (p < i + 1 ∧ i + 1 ≤ n.keyCount) := by omega
      simp only [a1, a2, a3, a4, if_false]
      exact hs i (by omega)
    · by_cases c2 : i + 1 = p
      · have a1 : ¬ i = p := by omega
        have a2 : ¬ (p < i ∧ i ≤ n.keyCount) := by omega
        simp only [a1, a2, c2, if_true, if_false]
        have := hlt i (by omega)
        omega
      · by_cases c3 : i = p
        · have a3 : ¬ i + 1 = p := by omega
          have a4 : p < i + 1 ∧ i + 1 ≤ n.keyCount := by omega
          subst c3
          simp only [a3, a4, and_self, if_true, if_false, Nat.add_sub_cancel]
          exact hge (by omega)
        · have a1 : p < i ∧ i ≤ n.keyCount := by omega
          have a3 : ¬ i + 1 = p := by omega
          have a4 : p < i + 1 ∧ i + 1 ≤ n.keyCount := by omega
          simp only [c3, a1, a3, a4, and_self, if_true, if_false, Nat.add_sub_cancel]
          have := hs (i - 1) (by omega)
          have e : i - 1 + 1 = i := by omega
          rw [e] at this
          exact this

/-- Claim C15, at the non-leaf of capacity `4` with separators `10, 20, 30` and
the pair `(25, 77)`, and at the full non-leaf with separators `10, 20, 30, 40`. -/
theorem nonLeaf_insert_sorted_position_witness :
    smallNonLeaf.keyEntries.length = 4 ∧ smallNonLeaf.pageEntries.length = 4 + 1
    ∧ smallNonLeaf.sortedKeys ∧ smallNonLeaf.keyCount < 4
    ∧ (∃ p, p ≤ smallNonLeaf.keyCount
        ∧ (∀ j, j < p → smallNonLeaf.keyAt j < 25)
        ∧ (p < smallNonLeaf.keyCount → smallNonLeaf.keyAt p ≥ 25)
        ∧ (BTNonLeafNode.insert 4 smallNonLeaf 25 77).1 = 0
        ∧ (BTNonLeafNode.insert 4 smallNonLeaf 25 77).2.keyCount = smallNonLeaf.keyCount + 1
        ∧ (BTNonLeafNode.insert 4 smallNonLeaf 25 77).2.keyAt p = 25
        ∧ (BTNonLeafNode.insert 4 smallNonLeaf 25 77).2.pageAt (p + 1) = 77
        ∧ (∀ j, j < p → (BTNonLeafNode.insert 4 smallNonLeaf 25 77).2.keyAt j
            = smallNonLeaf.keyAt j)
        ∧ (∀ j, j ≤ p → (BTNonLeafNode.insert 4 smallNonLeaf 25 77).2.pageAt j
            = smallNonLeaf.pageAt j)
        ∧ (∀ j, p ≤ j → j < smallNonLeaf.keyCount →
            (BTNonLeafNode.insert 4 smallNonLeaf 25 77).2.keyAt (j + 1) = smallNonLeaf.keyAt j)
        ∧ (∀ j, p < j → j ≤ smallNonLeaf.keyCount →
            (BTNonLeafNode.insert 4 smallNonLeaf 25 77).2.pageAt (j + 1) = smallNonLeaf.pageAt j)
        ∧ (BTNonLeafNode.insert 4 smallNonLeaf 25 77).2.sortedKeys)
    ∧ smallFullNonLeaf.keyEntries.length = 4 ∧ smallFullNonLeaf.pageEntries.length = 4 + 1
    ∧ smallFullNonLeaf.sortedKeys ∧ smallFullNonLeaf.keyCount = 4
    ∧ BTNonLeafNode.insert 4 smallFullNonLeaf 25 77 = (-1, smallFullNonLeaf) :=
  ⟨by decide, by decide, by decide, by decide,
    (nonLeaf_insert_sorted_position 4 smallNonLeaf 25 77 (by decide) (by decide)
      (by decide)).1 (by decide),
    by decide, by decide, by decide, by decide,
    (nonLeaf_insert_sorted_position 4 smallFullNonLeaf 25 77 (by decide) (by decide)
      (by decide)).2 (by decide)⟩

/-- Claim C16 as stated fails.  The full non-leaf with the non-decreasing keys
`10, 20, ..., 1270` is split by the key `2000` with an empty sibling: `midKey`
is `640`, and the left keys, then `midKey`, then the sibling's keys are `K + 2`
keys, not the `K + 1` keys of the claim, because `midKey` is also stored in the
sibling. -/
theorem nonLeaf_insertAndSplit_keeps_midKey_in_sibling :
    fullNonLeaf.keyCount = nonLeafCapacity ∧ fullNonLeaf.sortedKeys ∧ junkNonLeaf.keyCount = 0
    ∧ splitTop.rc = 0
    ∧ splitTop.midKey = 640
    ∧ splitTop.node.usedKeys ++ [splitTop.midKey] ++ splitTop.sibling.usedKeys
        ≠ insertSortedKey 2000 fullNonLeaf.usedKeys
    ∧ (splitTop.node.usedKeys ++ [splitTop.midKey] ++ splitTop.sibling.usedKeys).length
        = nonLeafCapacity + 2
    ∧ splitTop.midKey ∈ splitTop.sibling.usedKeys := by
  decide!

/-- Claim C16, amended.  For a full non-leaf (`keyCount = K`, `K ≥ 2`), a sibling
with arrays of full size and a key larger than every stored key,
`BTNonLeafNode::insertAndSplit` returns `0` and copies `midKey` up: `midKey` is
the original `keyEntries[half]`, the left node keeps the keys `[0, half)`, the
sibling holds the keys `[half, K)` followed by the new key, so that the left
keys followed by the sibling's keys are the original keys with the new key at
its sorted position, and `midKey` is the first key of the sibling. -/
theorem nonLeaf_insertAndSplit_copies_midKey_up (K : Nat) (n sibling : BTNonLeafNode)
    (key : Int) (pid : PageId) (midKey0 : Int) (hK : 2 ≤ K) (hc : n.keyCount = K)
    (hlk : n.keyEntries.length = K) (hsk : sibling.keyEntries.length = K)
    (hsp : sibling.pageEntries.length = K + 1) (hgt : ∀ i, i < K → n.keyAt i < key) :
    (n.insertAndSplit K key pid sibling midKey0).rc = 0
    ∧ (n.insertAndSplit K key pid sibling midKey0).midKey = n.keyAt (K / 2)
    ∧ (n.insertAndSplit K key pid sibling midKey0).node.usedKeys = n.usedKeys.take (K / 2)
    ∧ (n.insertAndSplit K key pid sibling midKey0).sibling.usedKeys
        = n.usedKeys.drop (K / 2) ++ [key]
    ∧ (n.insertAndSplit K key pid sibling midKey0).node.usedKeys
        ++ (n.insertAndSplit K key pid sibling midKey0).sibling.usedKeys
        = insertSortedKey key n.usedKeys
    ∧ (n.insertAndSplit K key pid sibling midKey0).sibling.keyAt 0
        = (n.insertAndSplit K key pid sibling midKey0).midKey := by
  have hused : n.usedKeys = n.keyEntries := by
    simp [BTNonLeafNode.usedKeys, hc, ← hlk]
  have hmid : key ≥ n.keyAt (K / 2) := by
    have := hgt (K / 2) (by omega)
    omega
  obtain ⟨l1, l2, l3, _, l5, _⟩ := nonLeaf_splitLoop_append n.keyEntries n.pageEntries key pid
    (K - K / 2) (K / 2)
    { sibKeys := sibling.keyEntries, sibPages := sibling.pageEntries, j := 0, found := false }
    rfl
    (fun x h1 h2 => hgt x (by omega))
    (by simp; omega) (by simp; omega)
  have hres : n.insertAndSplit K key pid sibling midKey0
      = { rc := 0, node := { n with keyCount := K / 2 },
          sibling :=
            { keyEntries :=
                (BTNonLeafNode.splitLoop n.keyEntries n.pageEntries key pid (K - K / 2) (K / 2)
                  { sibKeys := sibling.keyEntries, sibPages := sibling.pageEntries, j := 0,
                    found := false }).sibKeys.set (K - K / 2) key,
              pageEntries :=
                (BTNonLeafNode.splitLoop n.keyEntries n.pageEntries key pid (K - K / 2) (K / 2)
                  { sibKeys := sibling.keyEntries, sibPages := sibling.pageEntries, j := 0,
                    found := false }).sibPages.set (K - K / 2 + 1) pid,
              keyCount := K - K / 2 + 1 },
          midKey := n.keyAt (K / 2) } := by
    simp only [BTNonLeafNode.insertAndSplit, BTNonLeafNode.getKeyCount, hc, ne_eq,
      not_true_eq_false, if_false, hmid, if_true, l1, l2, Bool.not_false, Nat.zero_add]
  have hsib : (n.insertAndSplit K key pid sibling midKey0).sibling.usedKeys
      = n.usedKeys.drop (K / 2) ++ [key] := by
    rw [hres, hused]
    apply list_eq_of_getD 0
    · simp [BTNonLeafNode.usedKeys, l3, hsk, hlk]
      omega
    · intro i hi
      have hi2 : i < K - K / 2 + 1 := by
        simp [BTNonLeafNode.usedKeys] at hi
        omega
      simp only [BTNonLeafNode.usedKeys, getD_take, hi2, if_true, getD_set_ite, l3, hsk,
        getD_append_single, getD_drop, List.length_drop, hlk]
      by_cases c : i = K - K / 2
      · subst c
        have c1 : K - K / 2 = K - K / 2 ∧ K - K / 2 < K := ⟨rfl, by omega⟩
        simp only [c1, and_self, if_true, Nat.lt_irrefl, if_false]
      · have c1 : ¬ (K - K / 2 = i ∧ K - K / 2 < K) := by omega
        have c2 : i < K - K / 2 := by omega
        have c3 : 0 ≤ i ∧ i < 0 + (K - K / 2) := by omega
        simp only [c1, c2, if_false, if_true]
        rw [l5 i]
        simp only [c3, and_self, if_true, Nat.sub_zero]
  have hleft : (n.insertAndSplit K key pid sibling midKey0).node.usedKeys
      = n.usedKeys.take (K / 2) := by
    rw [hres, hused]
    simp [BTNonLeafNode.usedKeys]
  refine ⟨by rw [hres], by rw [hres], hleft, hsib, ?_, ?_⟩
  · rw [hleft, hsib, ← List.append_assoc, List.take_append_drop]
    rw [insertSortedKey_of_lt]
    intro x hx
    rw [hused] at hx
    obtain ⟨i, hi, rfl⟩ := List.getElem_of_mem hx
    have := hgt i (by omega)
    simpa [BTNonLeafNode.keyAt, List.getD_eq_getElem?_getD, List.getElem?_eq_getElem hi]
      using this
  · have h0 : (n.insertAndSplit K key pid sibling midKey0).sibling.keyAt 0
        = (n.insertAndSplit K key pid sibling midKey0).sibling.usedKeys.getD 0 0 := by
      rw [hres]
      simp only [BTNonLeafNode.usedKeys, BTNonLeafNode.keyAt, getD_take]
      simp
    rw [h0, hsib, hused]
    rw [hres]
    simp only [getD_append_single, List.length_drop, hlk, getD_drop, BTNonLeafNode.keyAt]
    have : 0 < K - K / 2 := by omega
    simp only [this, if_true, Nat.add_zero]

/-- Claim C16, amended, at the full non-leaf of capacity `4` with separators
`10, 20, 30, 40` and the new key `50`. -/
theorem nonLeaf_insertAndSplit_copies_midKey_up_witness :
    2 ≤ 4 ∧ smallFullNonLeaf.keyCount = 4 ∧ smallFullNonLeaf.keyEntries.length = 4
    ∧ smallJunkNonLeaf.keyEntries.length = 4 ∧ smallJunkNonLeaf.pageEntries.length = 4 + 1
    ∧ (∀ i, i < 4 → smallFullNonLeaf.keyAt i < 50)
    ∧ (smallFullNonLeaf.insertAndSplit 4 50 9 smallJunkNonLeaf 0).rc = 0
    ∧ (smallFullNonLeaf.insertAndSplit 4 50 9 smallJunkNonLeaf 0).midKey
        = smallFullNonLeaf.keyAt (4 / 2)
    ∧ (smallFullNonLeaf.insertAndSplit 4 50 9 smallJunkNonLeaf 0).node.usedKeys
        = smallFullNonLeaf.usedKeys.take (4 / 2)
    ∧ (smallFullNonLeaf.insertAndSplit 4 50 9 smallJunkNonLeaf 0).sibling.usedKeys
        = smallFullNonLeaf.usedKeys.drop (4 / 2) ++ [50]
    ∧ (smallFullNonLeaf.insertAndSplit 4 50 9 smallJunkNonLeaf 0).node.usedKeys
        ++ (smallFullNonLeaf.insertAndSplit 4 50 9 smallJunkNonLeaf 0).sibling.usedKeys
        = insertSortedKey 50 smallFullNonLeaf.usedKeys
    ∧ (smallFullNonLeaf.insertAndSplit 4 50 9 smallJunkNonLeaf 0).sibling.keyAt 0
        = (smallFullNonLeaf.insertAndSplit 4 50 9 smallJunkNonLeaf 0).midKey :=
  ⟨by decide, by decide, by decide, by decide, by decide, by decide,
    nonLeaf_insertAndSplit_copies_midKey_up 4 smallFullNonLeaf smallJunkNonLeaf 50 9 0
      (by decide) (by decide) (by decide) (by decide) (by decide) (by decide)⟩

/-- Claim C17 as stated fails.  A full leaf and a sibling whose `keyCount` is
`3`: `BTLeafNode::insertAndSplit` returns `0`, not an error. -/
theorem leaf_insertAndSplit_ignores_sibling_count :
    fullLeaf.keyCount = leafCapacity ∧ busyLeaf.keyCount = 3
    ∧ (fullLeaf.insertAndSplit leafCapacity 1000 ⟨99, 1⟩ busyLeaf 0).rc = 0 := by
  decide!

/-- Claim C17, amended.  `BTLeafNode::insertAndSplit` returns `-1` and changes
nothing whenever the node's `keyCount` is not `L`, and returns `0` whenever
`keyCount = L` (for `L ≥ 1`), whatever the sibling's `keyCount`. -/
theorem leaf_insertAndSplit_return_code (L : Nat) (n : BTLeafNode) (key : Int) (rid : RecordId)
    (sibling : BTLeafNode) (siblingKey0 : Int) :
    (n.keyCount ≠ L →
      n.insertAndSplit L key rid sibling siblingKey0
        = { rc := -1, node := n, sibling := sibling, siblingKey := siblingKey0 })
    ∧ (n.keyCount = L → 0 < L → (n.insertAndSplit L key rid sibling siblingKey0).rc = 0) := by
  constructor
  · intro h
    simp [BTLeafNode.insertAndSplit, BTLeafNode.getKeyCount, h]
  · intro h hL
    have hh : ¬ L / 2 ≥ L := by omega
    simp only [BTLeafNode.insertAndSplit, BTLeafNode.getKeyCount, h, ne_eq, not_true_eq_false,
      if_false]
    split
    · rfl
    · simp [BTLeafNode.insert, BTLeafNode.getKeyCount, hh]

/-- Claim C17, amended, at a leaf of capacity `4` with three entries, and at a
full leaf of capacity `4` with a sibling whose `keyCount` is `2`. -/
theorem leaf_insertAndSplit_return_code_witness :
    smallLeaf.keyCount ≠ 4
    ∧ smallLeaf.insertAndSplit 4 25 ⟨9, 9⟩ smallJunkLeaf 0
        = { rc := -1, node := smallLeaf, sibling := smallJunkLeaf, siblingKey := 0 }
    ∧ smallFullLeaf.keyCount = 4 ∧ 0 < 4
    ∧ (smallFullLeaf.insertAndSplit 4 25 ⟨9, 9⟩ { smallJunkLeaf with keyCount := 2 } 0).rc = 0 :=
  ⟨by decide, (leaf_insertAndSplit_return_code 4 smallLeaf 25 ⟨9, 9⟩ smallJunkLeaf 0).1 (by decide),
    by decide, by decide,
    (leaf_insertAndSplit_return_code 4 smallFullLeaf 25 ⟨9, 9⟩
      { smallJunkLeaf with keyCount := 2 } 0).2 (by decide) (by decide)⟩

/-- Claim C18 as stated fails.  The full non-leaf of capacity `K = 127` is split
by a key larger than every separator: the left node keeps `63` keys, fewer
than `ceil(127/2) = 64`. -/
theorem nonLeaf_split_left_below_ceil_half :
    fullNonLeaf.keyCount = nonLeafCapacity ∧ junkNonLeaf.keyCount = 0
    ∧ splitTop.rc = 0
    ∧ splitTop.node.keyCount = 63
    ∧ (nonLeafCapacity + 1) / 2 = 64
    ∧ ¬ ((nonLeafCapacity + 1) / 2 ≤ splitTop.node.keyCount) := by
  decide!

/-- Claim C18, amended.  For capacities `L ≥ 2` and `K ≥ 2`, a full leaf and a
full non-leaf, any sibling and any inserted key, both `insertAndSplit` routines
return `0` and leave `keyCount` between `floor(capacity/2)` and `capacity` in
the original node and in the sibling. -/
theorem insertAndSplit_keyCount_bounds (L K : Nat) (leaf sibL : BTLeafNode) (key : Int)
    (rid : RecordId) (sk0 : Int) (node sibN : BTNonLeafNode) (key2 : Int) (pid : PageId)
    (mk0 : Int) (hL : 2 ≤ L) (hK : 2 ≤ K) (h1 : leaf.keyCount = L) (h2 : node.keyCount = K) :
    (leaf.insertAndSplit L key rid sibL sk0).rc = 0
    ∧ L / 2 ≤ (leaf.insertAndSplit L key rid sibL sk0).node.keyCount
    ∧ (leaf.insertAndSplit L key rid sibL sk0).node.keyCount ≤ L
    ∧ L / 2 ≤ (leaf.insertAndSplit L key rid sibL sk0).sibling.keyCount
    ∧ (leaf.insertAndSplit L key rid sibL sk0).sibling.keyCount ≤ L
    ∧ (node.insertAndSplit K key2 pid sibN mk0).rc = 0
    ∧ K / 2 ≤ (node.insertAndSplit K key2 pid sibN mk0).node.keyCount
    ∧ (node.insertAndSplit K key2 pid sibN mk0).node.keyCount ≤ K
    ∧ K / 2 ≤ (node.insertAndSplit K key2 pid sibN mk0).sibling.keyCount
    ∧ (node.insertAndSplit K key2 pid sibN mk0).sibling.keyCount ≤ K := by
  have hhL : ¬ L / 2 ≥ L := by omega
  have hhK : ¬ K / 2 ≥ K := by omega
  have leafPart : (leaf.insertAndSplit L key rid sibL sk0).rc = 0
      ∧ L / 2 ≤ (leaf.insertAndSplit L key rid sibL sk0).node.keyCount
      ∧ (leaf.insertAndSplit L key rid sibL sk0).node.keyCount ≤ L
      ∧ L / 2 ≤ (leaf.insertAndSplit L key rid sibL sk0).sibling.keyCount
      ∧ (leaf.insertAndSplit L key rid sibL sk0).sibling.keyCount ≤ L := by
    simp only [BTLeafNode.insertAndSplit, BTLeafNode.getKeyCount, h1, ne_eq, not_true_eq_false,
      if_false]
    split
    · simp only [true_and]
      omega
    · simp only [BTLeafNode.insert, BTLeafNode.getKeyCount, hhL, if_false]
      simp only [true_and]
      omega
  have nodePart : (node.insertAndSplit K key2 pid sibN mk0).rc = 0
      ∧ K / 2 ≤ (node.insertAndSplit K key2 pid sibN mk0).node.keyCount
      ∧ (node.insertAndSplit K key2 pid sibN mk0).node.keyCount ≤ K
      ∧ K / 2 ≤ (node.insertAndSplit K key2 pid sibN mk0).sibling.keyCount
      ∧ (node.insertAndSplit K key2 pid sibN mk0).sibling.keyCount ≤ K := by
    simp only [BTNonLeafNode.insertAndSplit, BTNonLeafNode.getKeyCount, h2, ne_eq,
      not_true_eq_false, if_false]
    split
    · simp only [true_and]
      omega
    · simp only [BTNonLeafNode.insert, BTNonLeafNode.getKeyCount, hhK, if_false]
      simp only [true_and]
      omega
  exact ⟨leafPart.1, leafPart.2.1, leafPart.2.2.1, leafPart.2.2.2.1, leafPart.2.2.2.2,
    nodePart.1, nodePart.2.1, nodePart.2.2.1, nodePart.2.2.2.1, nodePart.2.2.2.2⟩

/-- Claim C18, amended, at the full leaf and the full non-leaf of capacity `4`. -/
theorem insertAndSplit_keyCount_bounds_witness :
    2 ≤ 4 ∧ smallFullLeaf.keyCount = 4 ∧ smallFullNonLeaf.keyCount = 4
    ∧ (smallFullLeaf.insertAndSplit 4 25 ⟨9, 9⟩ smallJunkLeaf 0).rc = 0
    ∧ 4 / 2 ≤ (smallFullLeaf.insertAndSplit 4 25 ⟨9, 9⟩ smallJunkLeaf 0).node.keyCount
    ∧ (smallFullLeaf.insertAndSplit 4 25 ⟨9, 9⟩ smallJunkLeaf 0).node.keyCount ≤ 4
    ∧ 4 / 2 ≤ (smallFullLeaf.insertAndSplit 4 25 ⟨9, 9⟩ smallJunkLeaf 0).sibling.keyCount
    ∧ (smallFullLeaf.insertAndSplit 4 25 ⟨9, 9⟩ smallJunkLeaf 0).sibling.keyCount ≤ 4
    ∧ (smallFullNonLeaf.insertAndSplit 4 25 77 smallJunkNonLeaf 0).rc = 0
    ∧ 4 / 2 ≤ (smallFullNonLeaf.insertAndSplit 4 25 77 smallJunkNonLeaf 0).node.keyCount
    ∧ (smallFullNonLeaf.insertAndSplit 4 25 77 smallJunkNonLeaf 0).node.keyCount ≤ 4
    ∧ 4 / 2 ≤ (smallFullNonLeaf.insertAndSplit 4 25 77 smallJunkNonLeaf 0).sibling.keyCount
    ∧ (smallFullNonLeaf.insertAndSplit 4 25 77 smallJunkNonLeaf 0).sibling.keyCount ≤ 4 :=
  ⟨by decide, by decide, by decide,
    insertAndSplit_keyCount_bounds 4 4 smallFullLeaf smallJunkLeaf 25 ⟨9, 9⟩ 0 smallFullNonLeaf
      smallJunkNonLeaf 25 77 0 (by decide) (by decide) (by decide) (by decide)⟩

/-- Claim C20.  For an empty index (`treeHeight = 0`), a capacity `L ≥ 1` and a
local leaf with `L` slots, `BTreeIndex::insert` returns `0`, appends one page
to the file, sets `rootPid` to the page id that was `endPid()` before the call
and `treeHeight` to `1`; the page at `rootPid` is a leaf with `keyCount = 1`,
the single entry `(key, rid)` and `nextNode = -1`. -/
theorem insert_into_empty_index (L K : Nat) (u : Uninit) (t : BTreeIndex) (key : Int)
    (rid : RecordId) (hL : 0 < L) (hu : u.entries.length = L) (h0 : t.treeHeight = 0) :
    ∃ leaf : BTLeafNode,
      BTreeIndex.insert L K u t key rid
        = (0, { pf := { pages := t.pf.pages ++ [Page.leaf leaf] },
                rootPid := t.pf.endPid, treeHeight := 1 })
      ∧ PageFile.read { pages := t.pf.pages ++ [Page.leaf leaf] } t.pf.endPid
          = .ok (Page.leaf leaf)
      ∧ leaf.keyCount = 1 ∧ leaf.used = [⟨rid, key⟩] ∧ leaf.nextNode = -1 := by
  refine ⟨{ keyCount := 1, nextNode := -1, entries := u.entries.set 0 ⟨rid, key⟩ }, ?_, ?_, rfl,
    ?_, rfl⟩
  · have hL0 : ¬ L = 0 := by omega
    simp [BTreeIndex.insert, h0, BTLeafNode.insert, BTLeafNode.init, BTLeafNode.getKeyCount,
      BTLeafNode.locate, BTLeafNode.locateLoop, BTLeafNode.write, pageFile_write_end, hL0]
  · exact pageFile_read_at t.pf.pages [] _
  · cases hue : u.entries with
    | nil => rw [hue] at hu; simp at hu; omega
    | cons a as => simp [BTLeafNode.used]

/-- Claim C20, at the key `5` inserted into the empty index over a file that
holds the metadata page. -/
theorem insert_into_empty_index_witness :
    0 < leafCapacity ∧ zeroed.entries.length = leafCapacity
    ∧ (BTreeIndex.init freshFile).treeHeight = 0
    ∧ ∃ leaf : BTLeafNode,
      BTreeIndex.insert leafCapacity nonLeafCapacity zeroed (BTreeIndex.init freshFile) 5 ⟨0, 0⟩
        = (0, { pf := { pages := (BTreeIndex.init freshFile).pf.pages ++ [Page.leaf leaf] },
                rootPid := (BTreeIndex.init freshFile).pf.endPid, treeHeight := 1 })
      ∧ PageFile.read { pages := (BTreeIndex.init freshFile).pf.pages ++ [Page.leaf leaf] }
          (BTreeIndex.init freshFile).pf.endPid = .ok (Page.leaf leaf)
      ∧ leaf.keyCount = 1 ∧ leaf.used = [⟨⟨0, 0⟩, 5⟩] ∧ leaf.nextNode = -1 :=
  ⟨by decide, by decide, by decide,
    insert_into_empty_index leafCapacity nonLeafCapacity zeroed (BTreeIndex.init freshFile) 5
      ⟨0, 0⟩ (by decide) (by decide) (by decide)⟩

/-! ### Ascending inserts into a single leaf -/

/-- The first insert into an empty index writes a leaf with one entry behind
the pages of the file. -/
theorem insert_first_leaf (L K : Nat) (u : Uninit) (pre : List Page) (r0 : PageId) (key : Int)
    (rid : RecordId) (hL : 0 < L) :
    BTreeIndex.insert L K u { pf := { pages := pre }, rootPid := r0, treeHeight := 0 } key rid
      = (0, { pf := { pages := pre ++ [Page.leaf
                        { keyCount := 1, nextNode := -1,
                          entries := u.entries.set 0 ⟨rid, key⟩ }] },
              rootPid := Int.ofNat pre.length, treeHeight := 1 }) := by
  have hL0 : ¬ L = 0 := by omega
  have hw : ∀ p : Page, PageFile.write { pages := pre } (PageFile.endPid { pages := pre }) p
      = (0, { pages := pre ++ [p] }) := fun p => pageFile_write_end { pages := pre } p
  have he : PageFile.endPid { pages := pre } = Int.ofNat pre.length := rfl
  simp only [BTreeIndex.insert, BTLeafNode.insert, BTLeafNode.init, BTLeafNode.getKeyCount,
    BTLeafNode.locate, BTLeafNode.locateLoop, BTLeafNode.write, hw]
  simp [hL0, he]

/-- The branch of `BTLeafNode::insertAndSplit` taken by a key that is not below
the key of entry `half`: return code, left node, and header of the sibling. -/
theorem leaf_insertAndSplit_high (L : Nat) (n sibling : BTLeafNode) (key : Int) (rid : RecordId)
    (sk0 : Int) (hc : n.keyCount = L) (hk : key ≥ (n.entry (L / 2)).key) :
    (n.insertAndSplit L key rid sibling sk0).rc = 0
    ∧ (n.insertAndSplit L key rid sibling sk0).node = { n with keyCount := L / 2 }
    ∧ (n.insertAndSplit L key rid sibling sk0).sibling.keyCount = L - L / 2 + 1
    ∧ (n.insertAndSplit L key rid sibling sk0).sibling.nextNode = n.nextNode
    ∧ (n.insertAndSplit L key rid sibling sk0).siblingKey = (n.entry (L / 2)).key := by
  simp only [BTLeafNode.insertAndSplit, BTLeafNode.getKeyCount, hc, ne_eq, not_true_eq_false,
    if_false, BTLeafNode.entry] at *
  simp only [hk, if_true, and_self]

/-- The keys `k+1, ..., L+1` inserted into a tree that is a single leaf holding
the keys `1, ..., k`: every call returns `0`, the last one splits the leaf and
writes a new root. -/
theorem insertAll_single_leaf (L K : Nat) (u : Uninit) (pre : List Page) (rid : Nat → RecordId)
    (hL : 2 ≤ L) (huk : 1 ≤ u.keyEntries.length) (hup : 2 ≤ u.pageEntries.length) :
    ∀ (m k : Nat) (n : BTLeafNode), 1 ≤ k → k ≤ L → k + m = L + 1 →
      n.keyCount = k → n.nextNode = -1 → n.entries.length = L →
      (∀ j, j < k → n.entry j = ⟨rid j, Int.ofNat j + 1⟩) →
      ∃ left right : BTLeafNode, ∃ root : BTNonLeafNode,
        BTreeIndex.insertAll L K u
            { pf := { pages := pre ++ [Page.leaf n] }, rootPid := Int.ofNat pre.length,
              treeHeight := 1 } (numbered rid k m)
          = (List.replicate m 0,
             { pf := { pages := pre ++ [Page.leaf left, Page.leaf right, Page.nonleaf root] },
               rootPid := Int.ofNat (pre.length + 2), treeHeight := 2 })
        ∧ left.keyCount = L / 2 ∧ left.nextNode = Int.ofNat (pre.length + 1)
        ∧ right.keyCount = (L + 1) / 2 + 1 ∧ right.nextNode = -1
        ∧ root.keyCount = 1 ∧ root.keyAt 0 = Int.ofNat (L / 2) + 1
        ∧ root.pageAt 0 = Int.ofNat pre.length ∧ root.pageAt 1 = Int.ofNat (pre.length + 1) := by
  intro m
  induction m with
  | zero => intro k n _ h2 h3; omega
  | succ m ih =>
    intro k n hk1 hk2 hkm hc hnext hlen hent
    by_cases hlast : k = L
    · -- the leaf is full: the insert splits it
      have hm : m = 0 := by omega
      subst hm
      have hhalf : (n.entry (L / 2)).key = Int.ofNat (L / 2) + 1 := by
        rw [hent (L / 2) (by omega)]
      have hge : Int.ofNat k + 1 ≥ (n.entry (L / 2)).key := by
        rw [hhalf]
        have : L / 2 ≤ k := by omega
        simp only [Int.ofNat_eq_coe]
        omega
      obtain ⟨s1, s2, s3, s4, s5⟩ := leaf_insertAndSplit_high L n (BTLeafNode.init u.entries)
        (Int.ofNat k + 1) (rid k) 0 (by omega) hge
      have hsk : (n.insertAndSplit L (Int.ofNat k + 1) (rid k) (BTLeafNode.init u.entries)
          0).siblingKey ≠ -1 := by
        rw [s5, hhalf]
        simp only [Int.ofNat_eq_coe]
        omega
      have hins := insert_single_leaf_split L K u pre n (Int.ofNat k + 1) (rid k) (by omega) s1 hsk
      refine ⟨{ (n.insertAndSplit L (Int.ofNat k + 1) (rid k) (BTLeafNode.init u.entries) 0).node
                  with nextNode := Int.ofNat (pre.length + 1) },
              { (n.insertAndSplit L (Int.ofNat k + 1) (rid k) (BTLeafNode.init u.entries)
                    0).sibling
                  with nextNode :=
                    (n.insertAndSplit L (Int.ofNat k + 1) (rid k) (BTLeafNode.init u.entries)
                      0).node.nextNode },
              { keyCount := 1,
                keyEntries := u.keyEntries.set 0
                  (n.insertAndSplit L (Int.ofNat k + 1) (rid k) (BTLeafNode.init u.entries)
                    0).siblingKey,
                pageEntries := (((u.pageEntries.set 0 (-1)).set 0 (Int.ofNat pre.length)).set 1
                  (Int.ofNat (pre.length + 1))) },
              ?_, ?_, ?_, ?_, ?_, ?_, ?_, ?_, ?_⟩
      · simp only [numbered, BTreeIndex.insertAll, hins, List.replicate]
      · rw [s2]
      · rfl
      · simp only [s3]
        omega
      · simp only [s2, hnext]
      · rfl
      · simp only [BTNonLeafNode.keyAt, getD_set_ite, s5, hhalf]
        have : 0 = 0 ∧ 0 < u.keyEntries.length := ⟨rfl, by omega⟩
        simp only [this, and_self, if_true]
      · simp only [BTNonLeafNode.pageAt, getD_set_ite, List.length_set]
        have a1 : ¬ (1 = 0 ∧ 1 < u.pageEntries.length) := by omega
        have a2 : 0 = 0 ∧ 0 < u.pageEntries.length := ⟨rfl, by omega⟩
        simp only [a1, a2, and_self, if_true, if_false]
      · simp only [BTNonLeafNode.pageAt, getD_set_ite, List.length_set]
        have a1 : 1 = 1 ∧ 1 < u.pageEntries.length := ⟨rfl, by omega⟩
        simp only [a1, and_self, if_true]
    · -- the leaf has room: the key goes behind its entries
      have hlt : ∀ j, j < n.keyCount → (n.entry j).key < Int.ofNat k + 1 := by
        intro j hj
        rw [hent j (by omega)]
        simp only [Int.ofNat_eq_coe]
        omega
      have hstep := insert_single_leaf_step L K u pre n (Int.ofNat k + 1) (rid k) (by omega) hlt
      obtain ⟨left, right, root, e, rest⟩ := ih (k + 1)
        { n with entries := n.entries.set n.keyCount ⟨rid k, Int.ofNat k + 1⟩,
                 keyCount := n.keyCount + 1 }
        (by omega) (by omega) (by omega) (by simp [hc]) hnext (by simp [hlen])
        (by
          intro j hj
          simp only [BTLeafNode.entry, getD_set_ite, hc, hlen]
          by_cases c : j = k
          · subst c
            have : j = j ∧ j < L := ⟨rfl, by omega⟩
            simp only [this, and_self, if_true]
          · have c1 : ¬ (k = j ∧ k < L) := by omega
            simp only [c1, if_false]
            exact hent j (by omega))
      refine ⟨left, right, root, ?_, rest⟩
      simp only [numbered, BTreeIndex.insertAll, hstep, e, List.replicate]

/-- Claim C19.  For capacities `L ≥ 2` and `K ≥ 1`, local nodes with arrays of
full size, any index file and any record locators, inserting the keys
`1, 2, ..., L+1` in that order into the empty index makes every call return
`0` and appends three pages to the file, the left leaf, the right leaf and the
root.  Afterwards `treeHeight = 2` and `rootPid` is the third of these pages;
the root is a non-leaf with one separator, `floor(L/2) + 1`, whose children are
the two leaves; the left leaf has `floor(L/2)` entries and its `nextNode` is the
page id of the right leaf; the right leaf has `ceil(L/2) + 1` entries and
`nextNode = -1`. -/
theorem insert_ascending_splits_root (L K : Nat) (u : Uninit) (pf0 : PageFile)
    (rid : Nat → RecordId) (hL : 2 ≤ L) (hu : u.entries.length = L)
    (huk : u.keyEntries.length = K) (hup : u.pageEntries.length = K + 1) (hK : 1 ≤ K) :
    ∃ left right : BTLeafNode, ∃ root : BTNonLeafNode,
      BTreeIndex.insertAll L K u (BTreeIndex.init pf0) (numbered rid 0 (L + 1))
        = (List.replicate (L + 1) 0,
           { pf := { pages := pf0.pages ++ [Page.leaf left, Page.leaf right, Page.nonleaf root] },
             rootPid := Int.ofNat (pf0.pages.length + 2), treeHeight := 2 })
      ∧ root.keyCount = 1 ∧ root.keyAt 0 = Int.ofNat (L / 2) + 1
      ∧ root.pageAt 0 = Int.ofNat pf0.pages.length
      ∧ root.pageAt 1 = Int.ofNat (pf0.pages.length + 1)
      ∧ left.keyCount = L / 2 ∧ left.nextNode = Int.ofNat (pf0.pages.length + 1)
      ∧ right.keyCount = (L + 1) / 2 + 1 ∧ right.nextNode = -1 := by
  have hfirst := insert_first_leaf L K u pf0.pages (-1) (Int.ofNat 0 + 1) (rid 0) (by omega)
  obtain ⟨left, right, root, e, h1, h2, h3, h4, h5, h6, h7, h8⟩ :=
    insertAll_single_leaf L K u pf0.pages rid hL (by omega) (by omega) L 1
      { keyCount := 1, nextNode := -1, entries := u.entries.set 0 ⟨rid 0, Int.ofNat 0 + 1⟩ }
      (Nat.le_refl 1) (by omega) (by omega) rfl rfl (by simp [hu])
      (by
        intro j hj
        have : j = 0 := by omega
        subst this
        simp only [BTLeafNode.entry, getD_set_ite]
        have : 0 = 0 ∧ 0 < u.entries.length := ⟨rfl, by omega⟩
        simp only [this, and_self, if_true])
  refine ⟨left, right, root, ?_, h5, h6, h7, h8, h1, h2, h3, h4⟩
  have hinit : BTreeIndex.init pf0
      = ({ pf := { pages := pf0.pages }, rootPid := -1, treeHeight := 0 } : BTreeIndex) := rfl
  rw [hinit]
  simp only [numbered, BTreeIndex.insertAll, hfirst, e, List.replicate]

/-- Claim C19, at `L = 84`, `K = 127`, over the file that holds the metadata
page, with the record locators `(i, 0)`. -/
theorem insert_ascending_splits_root_witness :
    2 ≤ leafCapacity ∧ zeroed.entries.length = leafCapacity
    ∧ zeroed.keyEntries.length = nonLeafCapacity
    ∧ zeroed.pageEntries.length = nonLeafCapacity + 1 ∧ 1 ≤ nonLeafCapacity
    ∧ ∃ left right : BTLeafNode, ∃ root : BTNonLeafNode,
      BTreeIndex.insertAll leafCapacity nonLeafCapacity zeroed (BTreeIndex.init freshFile)
          (numbered (fun i => ⟨Int.ofNat i, 0⟩) 0 (leafCapacity + 1))
        = (List.replicate (leafCapacity + 1) 0,
           { pf := { pages := freshFile.pages
                      ++ [Page.leaf left, Page.leaf right, Page.nonleaf root] },
             rootPid := Int.ofNat (freshFile.pages.length + 2), treeHeight := 2 })
      ∧ root.keyCount = 1 ∧ root.keyAt 0 = Int.ofNat (leafCapacity / 2) + 1
      ∧ root.pageAt 0 = Int.ofNat freshFile.pages.length
      ∧ root.pageAt 1 = Int.ofNat (freshFile.pages.length + 1)
      ∧ left.keyCount = leafCapacity / 2
      ∧ left.nextNode = Int.ofNat (freshFile.pages.length + 1)
      ∧ right.keyCount = (leafCapacity + 1) / 2 + 1 ∧ right.nextNode = -1 :=
  ⟨by decide, by decide, by decide, by decide, by decide,
    insert_ascending_splits_root leafCapacity nonLeafCapacity zeroed freshFile
      (fun i => ⟨Int.ofNat i, 0⟩) (by decide) (by decide) (by decide) (by decide) (by decide)⟩

/-! ### Closing and opening the index -/

/-- Four bytes written by a store of a 32-bit integer are read back as that
integer, whatever follows them. -/
theorem intOfBytes_bytesOfInt (x : Int) (rest : List Nat) (h : isInt32 x) :
    intOfBytes (bytesOfInt x ++ rest) = x := by
  obtain ⟨h1, h2⟩ := h
  simp only [INT_MIN, INT_MAX] at h1 h2
  simp only [intOfBytes, bytesOfInt, List.cons_append, List.nil_append, List.getD_cons_zero,
    List.getD_cons_succ, wrap32, Int.ofNat_eq_coe]
  omega

/-- Claim C21.  For every index state whose `rootPid` and `treeHeight` are
32-bit integers, every content `temp` of the local buffer of `close` and every
state `t0` of the index that is opened: when the write of page `0` and the
closing and opening of the file succeed, `BTreeIndex::close` returns `0`, and
`BTreeIndex::open` on the file it leaves returns `0` with the same `rootPid`
and the same `treeHeight`. -/
theorem close_then_open_restores_fields (temp : List Nat) (t t0 : BTreeIndex)
    (hr : isInt32 t.rootPid) (hh : isInt32 t.treeHeight) :
    (BTreeIndex.close temp 0 t).1 = 0
    ∧ (BTreeIndex.open 0 (BTreeIndex.close temp 0 t).2.pf t0).1 = 0
    ∧ (BTreeIndex.open 0 (BTreeIndex.close temp 0 t).2.pf t0).2.rootPid = t.rootPid
    ∧ (BTreeIndex.open 0 (BTreeIndex.close temp 0 t).2.pf t0).2.treeHeight = t.treeHeight := by
  have hclose : ∃ rest rest2 : List Nat, ∃ more : List Page,
      BTreeIndex.close temp 0 t
        = (0, { t with
                pf := PageFile.mk
                  (Page.metadata (intOfBytes (bytesOfInt t.rootPid ++ rest))
                    (intOfBytes (bytesOfInt t.treeHeight ++ rest2)) :: more) }) := by
    cases hp : t.pf.pages with
    | nil =>
      refine ⟨bytesOfInt t.treeHeight ++ List.drop 4 (List.drop 4 temp),
        List.drop 4 (List.drop 4 temp), [], ?_⟩
      simp [BTreeIndex.close, BTreeIndex.META_PID, PageFile.write, hp,
        BTreeIndex.pageOfMetaBytes, memcpy, bytesOfInt]
    | cons a as =>
      refine ⟨bytesOfInt t.treeHeight ++ List.drop 4 (List.drop 4 temp),
        List.drop 4 (List.drop 4 temp), as, ?_⟩
      simp [BTreeIndex.close, BTreeIndex.META_PID, PageFile.write, hp,
        BTreeIndex.pageOfMetaBytes, memcpy, bytesOfInt]
  obtain ⟨rest, rest2, more, hc⟩ := hclose
  rw [hc]
  simp only [intOfBytes_bytesOfInt _ _ hr, intOfBytes_bytesOfInt _ _ hh]
  have hopen : BTreeIndex.open 0 (PageFile.mk (Page.metadata t.rootPid t.treeHeight :: more)) t0
      = (0, { pf := PageFile.mk (Page.metadata t.rootPid t.treeHeight :: more),
              rootPid := intOfBytes (bytesOfInt t.rootPid ++ []),
              treeHeight := intOfBytes (bytesOfInt t.treeHeight ++ []) }) := by
    simp [BTreeIndex.open, BTreeIndex.META_PID, PageFile.read, BTreeIndex.metaBytesOfPage,
      memcpy, bytesOfInt]
  rw [hopen]
  simp only [intOfBytes_bytesOfInt _ _ hr, intOfBytes_bytesOfInt _ _ hh, and_self]

/-- Claim C21 at the index of height `2` with root page `3`, closed with a
buffer of `1024` bytes `171` and opened into a new index object. -/
theorem close_then_open_restores_fields_witness :
    isInt32 grownIndex.rootPid ∧ isInt32 grownIndex.treeHeight
    ∧ (BTreeIndex.close (List.replicate 1024 171) 0 grownIndex).1 = 0
    ∧ (BTreeIndex.open 0 (BTreeIndex.close (List.replicate 1024 171) 0 grownIndex).2.pf
        (BTreeIndex.init freshFile)).1 = 0
    ∧ (BTreeIndex.open 0 (BTreeIndex.close (List.replicate 1024 171) 0 grownIndex).2.pf
        (BTreeIndex.init freshFile)).2.rootPid = grownIndex.rootPid
    ∧ (BTreeIndex.open 0 (BTreeIndex.close (List.replicate 1024 171) 0 grownIndex).2.pf
        (BTreeIndex.init freshFile)).2.treeHeight = grownIndex.treeHeight :=
  have hr : isInt32 grownIndex.rootPid := by decide
  have hh : isInt32 grownIndex.treeHeight := by decide
  ⟨hr, hh, close_then_open_restores_fields (List.replicate 1024 171) grownIndex
    (BTreeIndex.init freshFile) hr hh⟩

/-- Claim C23.  For every index state, capacities, contents of the local nodes
and `(key, rid)`, whatever `BTreeIndex::insert` returns, `treeHeight` after the
call is the value before the call or that value plus one. -/
theorem insert_treeHeight_step (L K : Nat) (u : Uninit) (t : BTreeIndex) (key : Int)
    (rid : RecordId) :
    (BTreeIndex.insert L K u t key rid).2.treeHeight = t.treeHeight
    ∨ (BTreeIndex.insert L K u t key rid).2.treeHeight = t.treeHeight + 1 := by
  dsimp only [BTreeIndex.insert]
  repeat' split
  all_goals first | (left; rfl) | (right; rfl)

/-! ### The planner on a repeated condition -/

/-- The `switch` of the folding loop keeps `useIndex`. -/
theorem planKey_useIndex (s : PlanState) (comp : Comparator) (v : Int) :
    (SqlEngine.planKey s comp v).useIndex = s.useIndex := by
  cases comp <;> simp only [SqlEngine.planKey] <;> (repeat' split) <;> rfl

/-- The `switch` of the folding loop, run twice on the same condition, gives
the state it gives when run once. -/
theorem planKey_idem (s : PlanState) (comp : Comparator) (v : Int) :
    SqlEngine.planKey (SqlEngine.planKey s comp v) comp v = SqlEngine.planKey s comp v := by
  obtain ⟨a1, a2, a3, a4, a5, a6, a7, a8, a9, a10, a11⟩ := s
  cases comp
  · simp only [SqlEngine.planKey]
    by_cases e1 : a3 = true
    · by_cases e2 : a4 = v
      · simp [e1, e2]
      · simp [e1, e2]
    · simp [e1]
  · simp only [SqlEngine.planKey]
  · simp only [SqlEngine.planKey]
    by_cases e1 : (!a8 || decide (v ≤ a10)) = true
    · simp [e1]
    · simp [e1]
  · simp only [SqlEngine.planKey]
    by_cases e1 : (!a5 || decide (v ≥ a7)) = true
    · simp [e1]
    · simp [e1]
  · simp only [SqlEngine.planKey]
    by_cases e1 : (!a8 || decide (v < a10)) = true
    · simp [e1]
    · simp [e1]
  · simp only [SqlEngine.planKey]
    by_cases e1 : (!a5 || decide (v > a7)) = true
    · simp [e1]
    · simp [e1]

/-- Processing the same condition a second time leaves the planner state as it
is after the first time. -/
theorem planStep_idem (s : PlanState) (p : SelCond) :
    SqlEngine.planStep (SqlEngine.planStep s p) p = SqlEngine.planStep s p := by
  by_cases h1 : p.attr = 1
  · by_cases h2 : p.comp = Comparator.NE
    · by_cases h3 : (s.equalsExists && decide (s.equalsKey = p.value)) = true
      · simp [SqlEngine.planStep, h1, h2, h3]
      · simp [SqlEngine.planStep, h1, h2, h3]
    · have hstep : ∀ s0 : PlanState, SqlEngine.planStep s0 p
          = SqlEngine.planKey { s0 with useIndex := true } p.comp p.value := by
        intro s0
        simp only [SqlEngine.planStep, h1, h2, if_true, if_false]
      have hfix : ({ SqlEngine.planKey { s with useIndex := true } p.comp p.value with
            useIndex := true } : PlanState)
          = SqlEngine.planKey { s with useIndex := true } p.comp p.value := by
        have hu := planKey_useIndex { s with useIndex := true } p.comp p.value
        generalize SqlEngine.planKey { s with useIndex := true } p.comp p.value = r at hu
        obtain ⟨a1, a2, a3, a4, a5, a6, a7, a8, a9, a10, a11⟩ := r
        simp only at hu
        simp [hu]
      rw [hstep s, hstep, hfix, planKey_idem]
  · by_cases h2 : p.attr = 2
    · simp [SqlEngine.planStep, h1, h2]
    · simp [SqlEngine.planStep, h1, h2]

/-- The folding loop over a list that ends with the same condition twice. -/
theorem planLoop_repeat_last (p : SelCond) : ∀ (ps : List SelCond) (s : PlanState),
    SqlEngine.planLoop (ps ++ [p, p]) s = SqlEngine.planLoop (ps ++ [p]) s := by
  intro ps
  induction ps with
  | nil =>
    intro s
    simp only [List.nil_append, SqlEngine.planLoop, planStep_idem]
    split <;> rfl
  | cons c cs ih =>
    intro s
    simp only [List.cons_append, SqlEngine.planLoop]
    split
    · rfl
    · exact ih _

/-- Claim C22.  For every list of conditions `ps`, every condition `p` and
every selected attribute, the planner of `SqlEngine::select` ends in the same
state for `ps` followed by `p` twice as for `ps` followed by `p` once: the same
no-results verdict, the same `useIndex` (hence the same choice of the index
branch) and `needValue` flags, and the same `minKey` and `maxKey`. -/
theorem plan_same_for_repeated_condition (attr : Int) (validIndex : Bool)
    (ps : List SelCond) (p : SelCond) :
    SqlEngine.plan attr (ps ++ [p, p]) = SqlEngine.plan attr (ps ++ [p])
    ∧ (SqlEngine.plan attr (ps ++ [p, p])).noResults
        = (SqlEngine.plan attr (ps ++ [p])).noResults
    ∧ (SqlEngine.plan attr (ps ++ [p, p])).useIndex
        = (SqlEngine.plan attr (ps ++ [p])).useIndex
    ∧ SqlEngine.usesIndex validIndex (SqlEngine.plan attr (ps ++ [p, p]))
        = SqlEngine.usesIndex validIndex (SqlEngine.plan attr (ps ++ [p]))
    ∧ (SqlEngine.plan attr (ps ++ [p, p])).needValue
        = (SqlEngine.plan attr (ps ++ [p])).needValue
    ∧ SqlEngine.minKey (SqlEngine.plan attr (ps ++ [p, p]))
        = SqlEngine.minKey (SqlEngine.plan attr (ps ++ [p]))
    ∧ SqlEngine.maxKey (SqlEngine.plan attr (ps ++ [p, p]))
        = SqlEngine.maxKey (SqlEngine.plan attr (ps ++ [p])) := by
  have hinit : SqlEngine.planInit attr (ps ++ [p, p]).length
      = SqlEngine.planInit attr (ps ++ [p]).length := by
    simp [SqlEngine.planInit]
  have h : SqlEngine.plan attr (ps ++ [p, p]) = SqlEngine.plan attr (ps ++ [p]) := by
    simp only [SqlEngine.plan, hinit, planLoop_repeat_last]
  rw [h]
  exact ⟨rfl, rfl, rfl, rfl, rfl, rfl, rfl⟩

/-! ### The planner on ranges that hold no key -/

/-- One pass of the folding loop on a `GT`, `GE`, `LT` or `LE` key condition,
from a state that reports nothing and flags the high bound strict: it reports
nothing, keeps that flag, and a key within the new bounds is within the old
bounds and satisfies the condition. -/
theorem planStep_range (s : PlanState) (c : SelCond) (ha : c.attr = 1)
    (hcomp : c.comp = Comparator.GT ∨ c.comp = Comparator.GE ∨ c.comp = Comparator.LT
      ∨ c.comp = Comparator.LE)
    (hn : s.noResults = false) (hl : s.ltNotLte = true) :
    (SqlEngine.planStep s c).noResults = false
    ∧ (SqlEngine.planStep s c).ltNotLte = true
    ∧ ∀ k : Int, (SqlEngine.planStep s c).aboveLow k → (SqlEngine.planStep s c).belowHigh k →
        s.aboveLow k ∧ s.belowHigh k ∧ c.comp.holds k c.value := by
  obtain ⟨a1, a2, a3, a4, a5, a6, a7, a8, a9, a10, a11⟩ := s
  obtain ⟨attr, comp, v⟩ := c
  simp only at ha hn hl hcomp
  subst ha hn hl
  rcases hcomp with h | h | h | h <;> subst h
  · cases a5 <;> cases a6 <;> cases a8 <;> by_cases e : v ≥ a7 <;>
      simp [SqlEngine.planStep, SqlEngine.planKey, PlanState.aboveLow, PlanState.belowHigh,
        Comparator.holds, e] <;> intros <;> omega
  · cases a5 <;> cases a6 <;> cases a8 <;> by_cases e : v > a7 <;>
      simp [SqlEngine.planStep, SqlEngine.planKey, PlanState.aboveLow, PlanState.belowHigh,
        Comparator.holds, e] <;> intros <;> omega
  · cases a5 <;> cases a6 <;> cases a8 <;> by_cases e : v ≤ a10 <;>
      simp [SqlEngine.planStep, SqlEngine.planKey, PlanState.aboveLow, PlanState.belowHigh,
        Comparator.holds, e] <;> intros <;> omega
  · cases a5 <;> cases a6 <;> cases a8 <;> by_cases e : v < a10 <;>
      simp [SqlEngine.planStep, SqlEngine.planKey, PlanState.aboveLow, PlanState.belowHigh,
        Comparator.holds, e] <;> intros <;> omega

/-- One pass of the folding loop keeps the two bounds 32-bit integers when the
literal of a key condition is one. -/
theorem planStep_bounds_int32 (s : PlanState) (c : SelCond) (hg : isInt32 s.gtKey)
    (hl : isInt32 s.ltKey) (hv : c.attr = 1 → isInt32 c.value) :
    isInt32 (SqlEngine.planStep s c).gtKey ∧ isInt32 (SqlEngine.planStep s c).ltKey := by
  obtain ⟨a1, a2, a3, a4, a5, a6, a7, a8, a9, a10, a11⟩ := s
  obtain ⟨attr, comp, v⟩ := c
  simp only at hg hl hv
  by_cases h1 : attr = 1
  · have hv1 := hv h1
    subst h1
    cases comp <;> simp only [SqlEngine.planStep, SqlEngine.planKey, if_true, reduceCtorEq,
      if_false] <;> (repeat' split) <;> exact ⟨by assumption, by assumption⟩
  · simp only [SqlEngine.planStep, h1, if_false]
    split <;> exact ⟨hg, hl⟩

/-- The folding loop keeps the two bounds 32-bit integers. -/
theorem planLoop_bounds_int32 : ∀ (cond : List SelCond) (s : PlanState),
    isInt32 s.gtKey → isInt32 s.ltKey → (∀ c ∈ cond, c.attr = 1 → isInt32 c.value) →
    isInt32 (SqlEngine.planLoop cond s).gtKey ∧ isInt32 (SqlEngine.planLoop cond s).ltKey := by
  intro cond
  induction cond with
  | nil => intro s hg hl _; exact ⟨hg, hl⟩
  | cons c cs ih =>
    intro s hg hl hv
    have h1 := planStep_bounds_int32 s c hg hl (hv c (List.mem_cons_self c cs))
    simp only [SqlEngine.planLoop]
    split
    · exact h1
    · exact ih _ h1.1 h1.2 (fun d hd => hv d (List.mem_cons_of_mem c hd))

/-- The folding loop on `GT`, `GE`, `LT` and `LE` key conditions: it is not left
by `break`, and a key within the final bounds is within the initial bounds and
satisfies every condition. -/
theorem planLoop_range : ∀ (cond : List SelCond) (s : PlanState),
    (∀ c ∈ cond, c.attr = 1 ∧ (c.comp = Comparator.GT ∨ c.comp = Comparator.GE
      ∨ c.comp = Comparator.LT ∨ c.comp = Comparator.LE)) →
    s.noResults = false → s.ltNotLte = true →
    (SqlEngine.planLoop cond s).noResults = false
    ∧ (SqlEngine.planLoop cond s).ltNotLte = true
    ∧ ∀ k : Int, (SqlEngine.planLoop cond s).aboveLow k → (SqlEngine.planLoop cond s).belowHigh k →
        s.aboveLow k ∧ s.belowHigh k ∧ ∀ c ∈ cond, c.comp.holds k c.value := by
  intro cond
  induction cond with
  | nil =>
    intro s _ hn hl
    refine ⟨hn, hl, fun k h1 h2 => ⟨h1, h2, fun c hc => ?_⟩⟩
    simp at hc
  | cons c cs ih =>
    intro s hc hn hl
    obtain ⟨p1, p2, p3⟩ := planStep_range s c (hc c (List.mem_cons_self c cs)).1
      (hc c (List.mem_cons_self c cs)).2 hn hl
    obtain ⟨q1, q2, q3⟩ := ih (SqlEngine.planStep s c)
      (fun d hd => hc d (List.mem_cons_of_mem c hd)) p1 p2
    have hloop : SqlEngine.planLoop (c :: cs) s = SqlEngine.planLoop cs (SqlEngine.planStep s c) := by
      simp only [SqlEngine.planLoop, p1, Bool.false_eq_true, if_false]
    rw [hloop]
    refine ⟨q1, q2, fun k h1 h2 => ?_⟩
    obtain ⟨r1, r2, r3⟩ := q3 k h1 h2
    obtain ⟨t1, t2, t3⟩ := p3 k r1 r2
    refine ⟨t1, t2, fun d hd => ?_⟩
    rcases List.mem_cons.mp hd with h | h
    · rw [h]; exact t3
    · exact r3 d h

/-- When the checks on the folded bounds report nothing, and the high bound is
flagged strict, some 32-bit key lies within the bounds. -/
theorem planChecks_leaves_key (s : PlanState) (hl : s.ltNotLte = true) (hg : isInt32 s.gtKey)
    (hh : isInt32 s.ltKey) (hn : (SqlEngine.planChecks s).noResults = false) :
    ∃ k : Int, isInt32 k ∧ s.aboveLow k ∧ s.belowHigh k := by
  obtain ⟨a1, a2, a3, a4, a5, a6, a7, a8, a9, a10, a11⟩ := s
  simp only at hl hg hh
  subst hl
  obtain ⟨g1, g2⟩ := hg
  obtain ⟨l1, l2⟩ := hh
  simp only [INT_MIN, INT_MAX] at g1 g2 l1 l2
  cases a2
  · cases a5
    · -- no low bound
      refine ⟨INT_MIN, by decide, ?_, ?_⟩
      · simp [PlanState.aboveLow]
      · cases a8
        · simp [PlanState.belowHigh]
        · simp [SqlEngine.planChecks, INT_MIN] at hn
          simp only [PlanState.belowHigh, INT_MIN]
          intro _
          by_cases c0 : a10 = -2147483648
          · simp [c0] at hn
          · omega
    · cases a6
      · -- low bound not strict
        refine ⟨a7, ⟨by simpa [INT_MIN] using g1, by simpa [INT_MAX] using g2⟩, ?_, ?_⟩
        · simp [PlanState.aboveLow]
        · cases a8
          · simp [PlanState.belowHigh]
          · simp [SqlEngine.planChecks, INT_MIN, INT_MAX] at hn
            simp only [PlanState.belowHigh]
            intro _
            by_cases c1 : a10 < a7
            · simp [c1] at hn
            · by_cases c2 : a7 = a10
              · simp [c1, c2] at hn
              · omega
      · -- low bound strict
        have hmax : a7 ≠ 2147483647 := by
          intro h
          cases a8 <;> simp [SqlEngine.planChecks, INT_MIN, INT_MAX, h] at hn
        refine ⟨a7 + 1, ⟨by simp only [INT_MIN]; omega, by simp only [INT_MAX]; omega⟩, ?_, ?_⟩
        · simp [PlanState.aboveLow]
        · cases a8
          · simp [PlanState.belowHigh]
          · simp [SqlEngine.planChecks, INT_MIN, INT_MAX] at hn
            simp only [PlanState.belowHigh]
            intro _
            by_cases c1 : a10 < a7
            · simp [c1] at hn
            · by_cases c2 : a7 = a10
              · simp [c1, c2] at hn
              · by_cases c3 : wrap32 (a10 - a7) = 1
                · simp [c1, c2, c3] at hn
                · simp only [wrap32] at c3
                  omega
  · simp [SqlEngine.planChecks] at hn

/-- Claim C24.  For every list of key conditions built from `GT`, `GE`, `LT`
and `LE` with 32-bit literals that no 32-bit key satisfies, the planner of
`SqlEngine::select` reports no-results, and the retrieval that follows prints
no row and leaves `count` at `0`, whatever the guarded block would do. -/
theorem plan_reports_unsatisfiable_ranges (attr : Int) (cond : List SelCond)
    (hc : ∀ c ∈ cond, c.attr = 1 ∧ (c.comp = Comparator.GT ∨ c.comp = Comparator.GE
      ∨ c.comp = Comparator.LT ∨ c.comp = Comparator.LE) ∧ isInt32 c.value)
    (hu : ∀ k : Int, isInt32 k → ¬ satisfiesKeyPreds k cond) :
    (SqlEngine.plan attr cond).noResults = true
    ∧ ∀ (Row : Type) (body : PlanState → List Row × Nat),
        SqlEngine.retrieve Row (SqlEngine.plan attr cond) body = ([], 0) := by
  have hres : (SqlEngine.plan attr cond).noResults = true := by
    cases hn : (SqlEngine.plan attr cond).noResults with
    | true => rfl
    | false =>
      exfalso
      obtain ⟨_, q2, q3⟩ := planLoop_range cond (SqlEngine.planInit attr cond.length)
        (fun c h => ⟨(hc c h).1, (hc c h).2.1⟩) rfl rfl
      obtain ⟨b1, b2⟩ := planLoop_bounds_int32 cond (SqlEngine.planInit attr cond.length)
        (show isInt32 INT_MIN by decide) (show isInt32 INT_MAX by decide)
        (fun c h _ => (hc c h).2.2)
      obtain ⟨k, k1, k2, k3⟩ := planChecks_leaves_key _ q2 b1 b2 hn
      exact hu k k1 (fun c h _ => (q3 k k2 k3).2.2 c h)
  refine ⟨hres, fun Row body => ?_⟩
  simp only [SqlEngine.retrieve, hres, Bool.not_true, Bool.false_eq_true, if_false]

/-- Claim C24 at the conditions `key > 5 AND key < 5` of a `SELECT COUNT(*)`. -/
theorem plan_reports_unsatisfiable_ranges_witness :
    (∀ c ∈ condEmpty, c.attr = 1 ∧ (c.comp = Comparator.GT ∨ c.comp = Comparator.GE
      ∨ c.comp = Comparator.LT ∨ c.comp = Comparator.LE) ∧ isInt32 c.value)
    ∧ (∀ k : Int, isInt32 k → ¬ satisfiesKeyPreds k condEmpty)
    ∧ (SqlEngine.plan 4 condEmpty).noResults = true
    ∧ ∀ (Row : Type) (body : PlanState → List Row × Nat),
        SqlEngine.retrieve Row (SqlEngine.plan 4 condEmpty) body = ([], 0) :=
  have hc : ∀ c ∈ condEmpty, c.attr = 1 ∧ (c.comp = Comparator.GT ∨ c.comp = Comparator.GE
      ∨ c.comp = Comparator.LT ∨ c.comp = Comparator.LE) ∧ isInt32 c.value := by decide
  have hu : ∀ k : Int, isInt32 k → ¬ satisfiesKeyPreds k condEmpty := by
    intro k _ h
    have h1 := h ⟨1, Comparator.GT, 5⟩ (by simp [condEmpty]) rfl
    have h2 := h ⟨1, Comparator.LT, 5⟩ (by simp [condEmpty]) rfl
    simp only [Comparator.holds] at h1 h2
    omega
  ⟨hc, hu, plan_reports_unsatisfiable_ranges 4 condEmpty hc hu⟩

/-! ### The bounds handed to the index -/

/-- A 32-bit integer is left as it is by the reduction to 32 bits. -/
theorem wrap32_of_isInt32 (x : Int) (h : isInt32 x) : wrap32 x = x := by
  obtain ⟨h1, h2⟩ := h
  simp only [INT_MIN, INT_MAX] at h1 h2
  simp only [wrap32]
  omega

/-- The checks on the folded bounds change no variable but `noResults`. -/
theorem planChecks_fields (s : PlanState) :
    (SqlEngine.planChecks s).gtExists = s.gtExists
    ∧ (SqlEngine.planChecks s).gtNotGte = s.gtNotGte
    ∧ (SqlEngine.planChecks s).gtKey = s.gtKey
    ∧ (SqlEngine.planChecks s).ltExists = s.ltExists
    ∧ (SqlEngine.planChecks s).ltNotLte = s.ltNotLte
    ∧ (SqlEngine.planChecks s).ltKey = s.ltKey := by
  unfold SqlEngine.planChecks
  dsimp only
  repeat' split
  all_goals exact ⟨rfl, rfl, rfl, rfl, rfl, rfl⟩

/-- When the checks on the folded bounds report nothing, a strict low bound is
not `INT_MAX` and a strict high bound is not `INT_MIN`. -/
theorem planChecks_strict_bounds (s : PlanState)
    (hn : (SqlEngine.planChecks s).noResults = false) :
    (s.gtExists = true → s.gtNotGte = true → s.gtKey ≠ INT_MAX)
    ∧ (s.ltExists = true → s.ltNotLte = true → s.ltKey ≠ INT_MIN) := by
  obtain ⟨a1, a2, a3, a4, a5, a6, a7, a8, a9, a10, a11⟩ := s
  cases a2
  · constructor
    · intro h1 h2 h3
      simp only at h1 h2 h3
      subst h1 h2 h3
      cases a8 <;> cases a9 <;> simp [SqlEngine.planChecks] at hn
    · intro h1 h2 h3
      simp only at h1 h2 h3
      subst h1 h2 h3
      cases a5
      · simp [SqlEngine.planChecks] at hn
      · by_cases c : (decide (a7 > INT_MIN)
            || ((a6 || true) && decide (a7 = INT_MIN))
            || ((a6 && true) && decide (wrap32 (INT_MIN - a7) = 1))
            || (a6 && decide (a7 = INT_MAX))) = true
        · simp only [SqlEngine.planChecks, Bool.not_false, if_true, c] at hn
          simp at hn
        · simp only [SqlEngine.planChecks, Bool.not_false, if_true, c] at hn
          simp at hn
  · simp [SqlEngine.planChecks] at hn

/-- When the checks on the folded bounds report nothing, `gtKey + 1` and
`ltKey - 1` stay within 32 bits wherever a strict bound calls for them. -/
theorem planChecks_no_overflow (s : PlanState) (hg : isInt32 s.gtKey) (hh : isInt32 s.ltKey)
    (hn : (SqlEngine.planChecks s).noResults = false) :
    ((SqlEngine.planChecks s).gtExists = true → (SqlEngine.planChecks s).gtNotGte = true →
      isInt32 ((SqlEngine.planChecks s).gtKey + 1))
    ∧ ((SqlEngine.planChecks s).ltExists = true → (SqlEngine.planChecks s).ltNotLte = true →
      isInt32 ((SqlEngine.planChecks s).ltKey - 1)) := by
  obtain ⟨f1, f2, f3, f4, f5, f6⟩ := planChecks_fields s
  obtain ⟨s1, s2⟩ := planChecks_strict_bounds s hn
  rw [f1, f2, f3, f4, f5, f6]
  obtain ⟨g1, g2⟩ := hg
  obtain ⟨l1, l2⟩ := hh
  simp only [INT_MIN, INT_MAX, isInt32, ne_eq] at *
  constructor
  · intro h1 h2
    have := s1 h1 h2
    omega
  · intro h1 h2
    have := s2 h1 h2
    omega

/-- Claim C29.  For every list of conditions whose key literals are 32-bit
integers and for which the planner of `SqlEngine::select` does not report
no-results: when the low bound is strict, `gtKey` is not `INT_MAX` and
`gtKey + 1` is a 32-bit integer, so the 32-bit sum is the exact one; when the
high bound is strict, `ltKey` is not `INT_MIN` and `ltKey - 1` is a 32-bit
integer, so the 32-bit difference is the exact one. -/
theorem plan_bounds_do_not_overflow (attr : Int) (cond : List SelCond)
    (hv : ∀ c ∈ cond, c.attr = 1 → isInt32 c.value)
    (hn : (SqlEngine.plan attr cond).noResults = false) :
    ((SqlEngine.plan attr cond).gtExists = true → (SqlEngine.plan attr cond).gtNotGte = true →
      (SqlEngine.plan attr cond).gtKey ≠ INT_MAX
      ∧ isInt32 ((SqlEngine.plan attr cond).gtKey + 1)
      ∧ wrap32 ((SqlEngine.plan attr cond).gtKey + 1) = (SqlEngine.plan attr cond).gtKey + 1)
    ∧ ((SqlEngine.plan attr cond).ltExists = true → (SqlEngine.plan attr cond).ltNotLte = true →
      (SqlEngine.plan attr cond).ltKey ≠ INT_MIN
      ∧ isInt32 ((SqlEngine.plan attr cond).ltKey - 1)
      ∧ wrap32 ((SqlEngine.plan attr cond).ltKey - 1) = (SqlEngine.plan attr cond).ltKey - 1) := by
  obtain ⟨b1, b2⟩ := planLoop_bounds_int32 cond (SqlEngine.planInit attr cond.length)
    (show isInt32 INT_MIN by decide) (show isInt32 INT_MAX by decide) hv
  obtain ⟨n1, n2⟩ := planChecks_no_overflow _ b1 b2 hn
  obtain ⟨f1, f2, f3, f4, f5, f6⟩ :=
    planChecks_fields (SqlEngine.planLoop cond (SqlEngine.planInit attr cond.length))
  obtain ⟨s1, s2⟩ :=
    planChecks_strict_bounds (SqlEngine.planLoop cond (SqlEngine.planInit attr cond.length)) hn
  constructor
  · intro h1 h2
    refine ⟨?_, n1 h1 h2, wrap32_of_isInt32 _ (n1 h1 h2)⟩
    simp only [SqlEngine.plan] at h1 h2 ⊢
    rw [f3]
    exact s1 (f1 ▸ h1) (f2 ▸ h2)
  · intro h1 h2
    refine ⟨?_, n2 h1 h2, wrap32_of_isInt32 _ (n2 h1 h2)⟩
    simp only [SqlEngine.plan] at h1 h2 ⊢
    rw [f6]
    exact s2 (f4 ▸ h1) (f5 ▸ h2)

/-- Claim C29 at the conditions `key > 10 AND key < 20`, whose two bounds are
strict: `minKey` is `11` and `maxKey` is `19`. -/
theorem plan_bounds_do_not_overflow_witness :
    (∀ c ∈ condStrict, c.attr = 1 → isInt32 c.value)
    ∧ (SqlEngine.plan 1 condStrict).noResults = false
    ∧ (SqlEngine.plan 1 condStrict).gtExists = true
    ∧ (SqlEngine.plan 1 condStrict).gtNotGte = true
    ∧ (SqlEngine.plan 1 condStrict).ltExists = true
    ∧ (SqlEngine.plan 1 condStrict).ltNotLte = true
    ∧ SqlEngine.minKey (SqlEngine.plan 1 condStrict) = 11
    ∧ SqlEngine.maxKey (SqlEngine.plan 1 condStrict) = 19
    ∧ ((SqlEngine.plan 1 condStrict).gtExists = true →
        (SqlEngine.plan 1 condStrict).gtNotGte = true →
        (SqlEngine.plan 1 condStrict).gtKey ≠ INT_MAX
        ∧ isInt32 ((SqlEngine.plan 1 condStrict).gtKey + 1)
        ∧ wrap32 ((SqlEngine.plan 1 condStrict).gtKey + 1)
            = (SqlEngine.plan 1 condStrict).gtKey + 1)
    ∧ ((SqlEngine.plan 1 condStrict).ltExists = true →
        (SqlEngine.plan 1 condStrict).ltNotLte = true →
        (SqlEngine.plan 1 condStrict).ltKey ≠ INT_MIN
        ∧ isInt32 ((SqlEngine.plan 1 condStrict).ltKey - 1)
        ∧ wrap32 ((SqlEngine.plan 1 condStrict).ltKey - 1)
            = (SqlEngine.plan 1 condStrict).ltKey - 1) :=
  have hv : ∀ c ∈ condStrict, c.attr = 1 → isInt32 c.value := by decide
  have hn : (SqlEngine.plan 1 condStrict).noResults = false := by decide
  ⟨hv, hn, by decide, by decide, by decide, by decide, by decide, by decide,
    plan_bounds_do_not_overflow 1 condStrict hv hn⟩

/-! ### The separator of a leaf split -/

/-- The copy loop of `BTLeafNode::insertAndSplit` never moves `j` back and
leaves the slots of the sibling below `j` as they are. -/
theorem leaf_splitLoop_low (src : List BuffEntry) (key : Int) (rid : RecordId) :
    ∀ (todo i : Nat) (s : BTLeafNode.SplitLoop),
      s.j ≤ (BTLeafNode.splitLoop src key rid todo i s).j
      ∧ ∀ x, x < s.j →
          (BTLeafNode.splitLoop src key rid todo i s).sib.getD x default = s.sib.getD x default := by
  intro todo
  induction todo with
  | zero => intro i s; exact ⟨Nat.le_refl _, fun x _ => rfl⟩
  | succ m ih =>
    intro i s
    simp only [BTLeafNode.splitLoop]
    split
    · obtain ⟨h1, h2⟩ := ih (i + 1)
        { sib := s.sib.set s.j ⟨rid, key⟩, j := s.j + 1 + 1, found := true }
      refine ⟨by simp only at h1; omega, fun x hx => ?_⟩
      rw [h2 x (by simp only; omega)]
      simp only [getD_set_ite]
      have : ¬ (s.j = x ∧ s.j < s.sib.length) := by omega
      simp only [this, if_false]
    · obtain ⟨h1, h2⟩ := ih (i + 1)
        { sib := s.sib.set s.j (src.getD i default), j := s.j + 1, found := s.found }
      refine ⟨by simp only at h1; omega, fun x hx => ?_⟩
      rw [h2 x (by simp only; omega)]
      simp only [getD_set_ite]
      have : ¬ (s.j = x ∧ s.j < s.sib.length) := by omega
      simp only [this, if_false]

/-- After a `memcpy` of at least twelve bytes between arrays of leaf entries,
the key of the first destination entry is the key of the first source entry. -/
theorem memcpyEntries_first_key (d : BuffEntry) (dst : List BuffEntry) (e : BuffEntry)
    (es : List BuffEntry) (n : Nat) (hn : 12 ≤ n) (hk : isInt32 e.key) :
    ((memcpyEntries (d :: dst) (e :: es) n).getD 0 default).key = e.key := by
  obtain ⟨m, rfl⟩ : ∃ m, n = m + 12 := ⟨n - 12, by omega⟩
  obtain ⟨h1, h2⟩ := hk
  simp only [INT_MIN, INT_MAX] at h1 h2
  simp only [memcpyEntries, memcpy, bytesOfEntries, bytesOfEntry, bytesOfInt, List.length_cons,
    entriesOfBytes, List.cons_append, List.nil_append, List.take_succ_cons, List.drop_succ_cons,
    List.drop_zero, List.getD_cons_zero, intOfBytes, List.getD_cons_succ, wrap32,
    Int.ofNat_eq_coe]
  omega

/-- Claim C25.  For every full leaf of a capacity `L` with `L - L / 2 ≥ 12`
(as for `L = 84`), whose arrays and those of the sibling have `L` slots and whose
key at `L / 2` is a 32-bit integer, and for every `(key, rid)`: the `siblingKey`
returned by `BTLeafNode::insertAndSplit` is the original `entries[L / 2].key`,
and it is the key of the sibling's first entry after the split. -/
theorem leaf_insertAndSplit_siblingKey_first (L : Nat) (n sibling : BTLeafNode) (key : Int)
    (rid : RecordId) (sk0 : Int) (hc : n.keyCount = L) (hL : 12 ≤ L - L / 2)
    (hn : n.entries.length = L) (hs : sibling.entries.length = L)
    (hk : isInt32 (n.entry (L / 2)).key) :
    (n.insertAndSplit L key rid sibling sk0).siblingKey = (n.entry (L / 2)).key
    ∧ ((n.insertAndSplit L key rid sibling sk0).sibling.entry 0).key
        = (n.insertAndSplit L key rid sibling sk0).siblingKey := by
  by_cases hge : key ≥ (n.entry (L / 2)).key
  · -- the new entry goes to the sibling: the copy loop fills slot 0 first
    obtain ⟨t, ht⟩ : ∃ t, L - L / 2 = t + 1 := ⟨L - L / 2 - 1, by omega⟩
    have hres : n.insertAndSplit L key rid sibling sk0
        = { rc := 0, node := { n with keyCount := L / 2 },
            sibling :=
              { keyCount := L - L / 2 + 1, nextNode := n.nextNode,
                entries :=
                  if !(BTLeafNode.splitLoop n.entries key rid (L - L / 2) (L / 2)
                        { sib := sibling.entries, j := 0, found := false }).found then
                    (BTLeafNode.splitLoop n.entries key rid (L - L / 2) (L / 2)
                        { sib := sibling.entries, j := 0, found := false }).sib.set
                      (BTLeafNode.splitLoop n.entries key rid (L - L / 2) (L / 2)
                        { sib := sibling.entries, j := 0, found := false }).j ⟨rid, key⟩
                  else
                    (BTLeafNode.splitLoop n.entries key rid (L - L / 2) (L / 2)
                        { sib := sibling.entries, j := 0, found := false }).sib },
            siblingKey := (n.entry (L / 2)).key } := by
      simp only [BTLeafNode.insertAndSplit, BTLeafNode.getKeyCount, hc, ne_eq, not_true_eq_false,
        if_false, hge, if_true]
    rw [hres]
    refine ⟨rfl, ?_⟩
    simp only [BTLeafNode.entry]
    rw [ht]
    by_cases hfirst : (n.entries.getD (L / 2) default).key ≥ key
    · have hstep : BTLeafNode.splitLoop n.entries key rid (t + 1) (L / 2)
          { sib := sibling.entries, j := 0, found := false }
          = BTLeafNode.splitLoop n.entries key rid t (L / 2 + 1)
              { sib := sibling.entries.set 0 ⟨rid, key⟩, j := 0 + 1 + 1, found := true } := by
        have hcond : (!false && decide ((n.entries.getD (L / 2) default).key ≥ key)) = true := by
          simpa using hfirst
        simp only [BTLeafNode.splitLoop, hcond, if_true]
      rw [hstep]
      obtain ⟨h1, h2⟩ := leaf_splitLoop_low n.entries key rid t (L / 2 + 1)
        { sib := sibling.entries.set 0 ⟨rid, key⟩, j := 0 + 1 + 1, found := true }
      have h0 := h2 0 (by simp only; omega)
      have hkey : key = (n.entries.getD (L / 2) default).key := by
        simp only [BTLeafNode.entry] at hge
        omega
      split
      · simp only [getD_set_ite]
        have hne : ¬ ((BTLeafNode.splitLoop n.entries key rid t (L / 2 + 1)
            { sib := sibling.entries.set 0 ⟨rid, key⟩, j := 0 + 1 + 1, found := true }).j = 0
            ∧ (BTLeafNode.splitLoop n.entries key rid t (L / 2 + 1)
            { sib := sibling.entries.set 0 ⟨rid, key⟩, j := 0 + 1 + 1, found := true }).j
              < (BTLeafNode.splitLoop n.entries key rid t (L / 2 + 1)
            { sib := sibling.entries.set 0 ⟨rid, key⟩, j := 0 + 1 + 1, found := true }).sib.length) := by
          simp only at h1
          omega
        simp only [hne, if_false]
        rw [h0]
        simp only [getD_set_ite]
        have : 0 = 0 ∧ 0 < sibling.entries.length := ⟨rfl, by omega⟩
        simp only [this, and_self, if_true]
        exact hkey
      · rw [h0]
        simp only [getD_set_ite]
        have : 0 = 0 ∧ 0 < sibling.entries.length := ⟨rfl, by omega⟩
        simp only [this, and_self, if_true]
        exact hkey
    · have hstep : BTLeafNode.splitLoop n.entries key rid (t + 1) (L / 2)
          { sib := sibling.entries, j := 0, found := false }
          = BTLeafNode.splitLoop n.entries key rid t (L / 2 + 1)
              { sib := sibling.entries.set 0 (n.entries.getD (L / 2) default), j := 0 + 1,
                found := false } := by
        have hcond : (!false && decide ((n.entries.getD (L / 2) default).key ≥ key)) = false := by
          simpa using hfirst
        simp only [BTLeafNode.splitLoop, hcond, Bool.false_eq_true, if_false]
      rw [hstep]
      obtain ⟨h1, h2⟩ := leaf_splitLoop_low n.entries key rid t (L / 2 + 1)
        { sib := sibling.entries.set 0 (n.entries.getD (L / 2) default), j := 0 + 1,
          found := false }
      have h0 := h2 0 (by simp only; omega)
      split
      · simp only [getD_set_ite]
        have hne : ¬ ((BTLeafNode.splitLoop n.entries key rid t (L / 2 + 1)
            { sib := sibling.entries.set 0 (n.entries.getD (L / 2) default), j := 0 + 1,
              found := false }).j = 0
            ∧ (BTLeafNode.splitLoop n.entries key rid t (L / 2 + 1)
            { sib := sibling.entries.set 0 (n.entries.getD (L / 2) default), j := 0 + 1,
              found := false }).j
              < (BTLeafNode.splitLoop n.entries key rid t (L / 2 + 1)
            { sib := sibling.entries.set 0 (n.entries.getD (L / 2) default), j := 0 + 1,
              found := false }).sib.length) := by
          simp only at h1
          omega
        simp only [hne, if_false]
        rw [h0]
        simp only [getD_set_ite]
        have : 0 = 0 ∧ 0 < sibling.entries.length := ⟨rfl, by omega⟩
        simp only [this, and_self, if_true]
      · rw [h0]
        simp only [getD_set_ite]
        have : 0 = 0 ∧ 0 < sibling.entries.length := ⟨rfl, by omega⟩
        simp only [this, and_self, if_true]
  · -- the new entry goes to the left node: the sibling is filled by `memcpy`
    have hres : (n.insertAndSplit L key rid sibling sk0).siblingKey = (n.entry (L / 2)).key
        ∧ (n.insertAndSplit L key rid sibling sk0).sibling.entries
          = memcpyEntries sibling.entries (n.entries.drop (L / 2)) (L - L / 2) := by
      simp only [BTLeafNode.insertAndSplit, BTLeafNode.getKeyCount, hc, ne_eq, not_true_eq_false,
        if_false, hge, and_self]
    refine ⟨hres.1, ?_⟩
    rw [hres.1]
    simp only [BTLeafNode.entry, hres.2]
    obtain ⟨d, dst, hd⟩ : ∃ d dst, sibling.entries = d :: dst := by
      cases h : sibling.entries with
      | nil => rw [h] at hs; simp at hs; omega
      | cons d dst => exact ⟨d, dst, rfl⟩
    obtain ⟨e, es, he⟩ : ∃ e es, n.entries.drop (L / 2) = e :: es := by
      cases h : n.entries.drop (L / 2) with
      | nil =>
        have : (n.entries.drop (L / 2)).length = L - L / 2 := by simp [hn]
        rw [h] at this
        simp at this
        omega
      | cons e es => exact ⟨e, es, rfl⟩
    have hhead : n.entries.getD (L / 2) default = e := by
      have := getD_drop (default : BuffEntry) n.entries (L / 2) 0
      rw [he] at this
      simpa using this.symm
    rw [hd, he, memcpyEntries_first_key d dst e es (L - L / 2) hL
      (by rw [← hhead]; exact hk), hhead]

/-- Claim C25 at the full leaf of capacity `84` split by the key `505`. -/
theorem leaf_insertAndSplit_siblingKey_first_witness :
    fullLeaf.keyCount = leafCapacity ∧ 12 ≤ leafCapacity - leafCapacity / 2
    ∧ fullLeaf.entries.length = leafCapacity ∧ junkLeaf.entries.length = leafCapacity
    ∧ isInt32 (fullLeaf.entry (leafCapacity / 2)).key
    ∧ (fullLeaf.insertAndSplit leafCapacity 505 ⟨99, 1⟩ junkLeaf 0).siblingKey
        = (fullLeaf.entry (leafCapacity / 2)).key
    ∧ ((fullLeaf.insertAndSplit leafCapacity 505 ⟨99, 1⟩ junkLeaf 0).sibling.entry 0).key
        = (fullLeaf.insertAndSplit leafCapacity 505 ⟨99, 1⟩ junkLeaf 0).siblingKey :=
  have h1 : fullLeaf.keyCount = leafCapacity := by decide
  have h2 : 12 ≤ leafCapacity - leafCapacity / 2 := by decide
  have h3 : fullLeaf.entries.length = leafCapacity := by decide
  have h4 : junkLeaf.entries.length = leafCapacity := by decide
  have h5 : isInt32 (fullLeaf.entry (leafCapacity / 2)).key := by decide
  ⟨h1, h2, h3, h4, h5,
    leaf_insertAndSplit_siblingKey_first leafCapacity fullLeaf junkLeaf 505 ⟨99, 1⟩ 0
      h1 h2 h3 h4 h5⟩

/-! ### The children of the sibling of a non-leaf split -/

/-- Claim C26 as stated fails.  The full non-leaf with the children
`100, ..., 227` is split by the key `2000 ≥ midKey` and the child `555` with an
empty sibling: the sibling's `pageEntries[0]` is the `-1` of the constructor,
not the original `pageEntries[half + 1] = 164`, and its `keyCount + 1` children
are `66` values, not the `64` original children from `half + 1` on and `555`. -/
theorem nonLeaf_insertAndSplit_sibling_first_child_unset :
    fullNonLeaf.keyCount = nonLeafCapacity ∧ junkNonLeaf.keyCount = 0
    ∧ splitTop.rc = 0
    ∧ splitTop.midKey = 640 ∧ (2000 : Int) ≥ splitTop.midKey
    ∧ fullNonLeaf.pageAt (nonLeafCapacity / 2 + 1) = 164
    ∧ splitTop.sibling.pageAt 0 = -1
    ∧ splitTop.sibling.pageAt 0 ≠ fullNonLeaf.pageAt (nonLeafCapacity / 2 + 1)
    ∧ splitTop.sibling.usedPages.length = nonLeafCapacity - nonLeafCapacity / 2 + 2
    ∧ (fullNonLeaf.pageEntries.drop (nonLeafCapacity / 2 + 1)).length
        = nonLeafCapacity - nonLeafCapacity / 2
    ∧ splitTop.sibling.usedPages ≠ fullNonLeaf.pageEntries.drop (nonLeafCapacity / 2 + 1) ++ [555] := by
  decide!

/-- Claim C26, amended.  For a full non-leaf (`keyCount = K`, `K ≥ 2`), a
sibling with arrays of full size and a key larger than every stored key,
`BTNonLeafNode::insertAndSplit` returns `0` and gives the sibling
`K - half + 1` keys; the sibling's `pageEntries[0]` is left as the sibling had
it, its children `1, ..., K - half` are the original `pageEntries[half + 1..K]`
in order, its key `K - half` is the new key and the child right of that key,
`pageEntries[K - half + 1]`, is `pid`. -/
theorem nonLeaf_insertAndSplit_sibling_children (K : Nat) (n sibling : BTNonLeafNode)
    (key : Int) (pid : PageId) (midKey0 : Int) (hK : 2 ≤ K) (hc : n.keyCount = K)
    (hsk : sibling.keyEntries.length = K) (hsp : sibling.pageEntries.length = K + 1)
    (hgt : ∀ i, i < K → n.keyAt i < key) :
    (n.insertAndSplit K key pid sibling midKey0).rc = 0
    ∧ (n.insertAndSplit K key pid sibling midKey0).sibling.keyCount = K - K / 2 + 1
    ∧ (n.insertAndSplit K key pid sibling midKey0).sibling.pageAt 0 = sibling.pageAt 0
    ∧ (∀ x, 1 ≤ x → x ≤ K - K / 2 →
        (n.insertAndSplit K key pid sibling midKey0).sibling.pageAt x = n.pageAt (K / 2 + x))
    ∧ (n.insertAndSplit K key pid sibling midKey0).sibling.keyAt (K - K / 2) = key
    ∧ (n.insertAndSplit K key pid sibling midKey0).sibling.pageAt (K - K / 2 + 1) = pid := by
  have hmid : key ≥ n.keyAt (K / 2) := by
    have := hgt (K / 2) (by omega)
    omega
  obtain ⟨l1, l2, l3, l4, _, l6⟩ := nonLeaf_splitLoop_append n.keyEntries n.pageEntries key pid
    (K - K / 2) (K / 2)
    { sibKeys := sibling.keyEntries, sibPages := sibling.pageEntries, j := 0, found := false }
    rfl
    (fun x h1 h2 => hgt x (by omega))
    (by simp; omega) (by simp; omega)
  have hres : n.insertAndSplit K key pid sibling midKey0
      = { rc := 0, node := { n with keyCount := K / 2 },
          sibling :=
            { keyEntries :=
                (BTNonLeafNode.splitLoop n.keyEntries n.pageEntries key pid (K - K / 2) (K / 2)
                  { sibKeys := sibling.keyEntries, sibPages := sibling.pageEntries, j := 0,
                    found := false }).sibKeys.set (K - K / 2) key,
              pageEntries :=
                (BTNonLeafNode.splitLoop n.keyEntries n.pageEntries key pid (K - K / 2) (K / 2)
                  { sibKeys := sibling.keyEntries, sibPages := sibling.pageEntries, j := 0,
                    found := false }).sibPages.set (K - K / 2 + 1) pid,
              keyCount := K - K / 2 + 1 },
          midKey := n.keyAt (K / 2) } := by
    simp only [BTNonLeafNode.insertAndSplit, BTNonLeafNode.getKeyCount, hc, ne_eq,
      not_true_eq_false, if_false, hmid, if_true, l1, l2, Bool.not_false, Nat.zero_add]
  rw [hres]
  simp only at l3 l4
  refine ⟨rfl, rfl, ?_, ?_, ?_, ?_⟩
  · simp only [BTNonLeafNode.pageAt, getD_set_ite, l4, hsp]
    have c1 : ¬ (K - K / 2 + 1 = 0 ∧ K - K / 2 + 1 < K + 1) := by omega
    have c2 : ¬ (0 + 1 ≤ 0 ∧ 0 < 0 + 1 + (K - K / 2)) := by omega
    simp only [c1, if_false]
    rw [l6 0]
    simp only [c2, if_false]
  · intro x hx1 hx2
    simp only [BTNonLeafNode.pageAt, getD_set_ite, l4, hsp]
    have c1 : ¬ (K - K / 2 + 1 = x ∧ K - K / 2 + 1 < K + 1) := by omega
    have c2 : 0 + 1 ≤ x ∧ x < 0 + 1 + (K - K / 2) := by omega
    simp only [c1, if_false]
    rw [l6 x]
    simp only [c2, and_self, if_true, Nat.sub_zero]
  · simp only [BTNonLeafNode.keyAt, getD_set_ite, l3, hsk]
    have c1 : K - K / 2 = K - K / 2 ∧ K - K / 2 < K := ⟨rfl, by omega⟩
    simp only [c1, and_self, if_true]
  · simp only [BTNonLeafNode.pageAt, getD_set_ite, l4, hsp]
    have c1 : K - K / 2 + 1 = K - K / 2 + 1 ∧ K - K / 2 + 1 < K + 1 := ⟨rfl, by omega⟩
    simp only [c1, and_self, if_true]

/-- Claim C26, amended, at the full non-leaf of capacity `4` with the children
`1, 2, 3, 4, 5`, split by the key `50` and the child `9`: the sibling, made by
the constructor, ends with the children `-1, 4, 5, 9`. -/
theorem nonLeaf_insertAndSplit_sibling_children_witness :
    2 ≤ 4 ∧ smallFullNonLeaf.keyCount = 4
    ∧ smallJunkNonLeaf.keyEntries.length = 4 ∧ smallJunkNonLeaf.pageEntries.length = 4 + 1
    ∧ (∀ i, i < 4 → smallFullNonLeaf.keyAt i < 50)
    ∧ smallJunkNonLeaf.pageAt 0 = -1
    ∧ (smallFullNonLeaf.insertAndSplit 4 50 9 smallJunkNonLeaf 0).sibling.usedPages = [-1, 4, 5, 9]
    ∧ (smallFullNonLeaf.insertAndSplit 4 50 9 smallJunkNonLeaf 0).rc = 0
    ∧ (smallFullNonLeaf.insertAndSplit 4 50 9 smallJunkNonLeaf 0).sibling.keyCount = 4 - 4 / 2 + 1
    ∧ (smallFullNonLeaf.insertAndSplit 4 50 9 smallJunkNonLeaf 0).sibling.pageAt 0
        = smallJunkNonLeaf.pageAt 0
    ∧ (∀ x, 1 ≤ x → x ≤ 4 - 4 / 2 →
        (smallFullNonLeaf.insertAndSplit 4 50 9 smallJunkNonLeaf 0).sibling.pageAt x
          = smallFullNonLeaf.pageAt (4 / 2 + x))
    ∧ (smallFullNonLeaf.insertAndSplit 4 50 9 smallJunkNonLeaf 0).sibling.keyAt (4 - 4 / 2) = 50
    ∧ (smallFullNonLeaf.insertAndSplit 4 50 9 smallJunkNonLeaf 0).sibling.pageAt (4 - 4 / 2 + 1)
        = 9 :=
  have hgt : ∀ i, i < 4 → smallFullNonLeaf.keyAt i < 50 := by decide
  ⟨by decide, by decide, by decide, by decide, hgt, by decide, by decide,
    nonLeaf_insertAndSplit_sibling_children 4 smallFullNonLeaf smallJunkNonLeaf 50 9 0
      (by decide) (by decide) (by decide) (by decide) hgt⟩

/-! ### What a split leaves alone -/

/-- Claim C27.  For every full non-leaf and every `(key, pid)` with
`key ≥ keyEntries[half]`, `BTNonLeafNode::insertAndSplit` returns `0` with
`midKey` the original `keyEntries[half]`, and leaves the left node with
`keyCount = half`, the keys `keyEntries[0..half)` and the children
`pageEntries[0..half + 1)` of the original node. -/
theorem nonLeaf_insertAndSplit_left_unchanged (K : Nat) (n sibling : BTNonLeafNode) (key : Int)
    (pid : PageId) (midKey0 : Int) (hc : n.keyCount = K) (hk : key ≥ n.keyAt (K / 2)) :
    (n.insertAndSplit K key pid sibling midKey0).rc = 0
    ∧ (n.insertAndSplit K key pid sibling midKey0).midKey = n.keyAt (K / 2)
    ∧ (n.insertAndSplit K key pid sibling midKey0).node.keyCount = K / 2
    ∧ (n.insertAndSplit K key pid sibling midKey0).node.usedKeys = n.keyEntries.take (K / 2)
    ∧ (n.insertAndSplit K key pid sibling midKey0).node.usedPages
        = n.pageEntries.take (K / 2 + 1) := by
  simp only [BTNonLeafNode.insertAndSplit, BTNonLeafNode.getKeyCount, hc, ne_eq,
    not_true_eq_false, if_false, hk, if_true, BTNonLeafNode.usedKeys, BTNonLeafNode.usedPages,
    and_self]

/-- Claim C27 at the full non-leaf of capacity `4` with the keys
`10, 20, 30, 40` and the children `1, 2, 3, 4, 5`, split by the key `35`. -/
theorem nonLeaf_insertAndSplit_left_unchanged_witness :
    smallFullNonLeaf.keyCount = 4 ∧ (35 : Int) ≥ smallFullNonLeaf.keyAt (4 / 2)
    ∧ (smallFullNonLeaf.insertAndSplit 4 35 9 smallJunkNonLeaf 0).midKey = 30
    ∧ (smallFullNonLeaf.insertAndSplit 4 35 9 smallJunkNonLeaf 0).node.usedKeys = [10, 20]
    ∧ (smallFullNonLeaf.insertAndSplit 4 35 9 smallJunkNonLeaf 0).node.usedPages = [1, 2, 3]
    ∧ (smallFullNonLeaf.insertAndSplit 4 35 9 smallJunkNonLeaf 0).rc = 0
    ∧ (smallFullNonLeaf.insertAndSplit 4 35 9 smallJunkNonLeaf 0).midKey
        = smallFullNonLeaf.keyAt (4 / 2)
    ∧ (smallFullNonLeaf.insertAndSplit 4 35 9 smallJunkNonLeaf 0).node.keyCount = 4 / 2
    ∧ (smallFullNonLeaf.insertAndSplit 4 35 9 smallJunkNonLeaf 0).node.usedKeys
        = smallFullNonLeaf.keyEntries.take (4 / 2)
    ∧ (smallFullNonLeaf.insertAndSplit 4 35 9 smallJunkNonLeaf 0).node.usedPages
        = smallFullNonLeaf.pageEntries.take (4 / 2 + 1) :=
  ⟨by decide, by decide, by decide, by decide, by decide,
    nonLeaf_insertAndSplit_left_unchanged 4 smallFullNonLeaf smallJunkNonLeaf 35 9 0
      (by decide) (by decide)⟩

/-- Claim C28.  For every full leaf, every sibling and every `(key, rid)`, after
`BTLeafNode::insertAndSplit` the sibling's `nextNode` is the `nextNode` the
node had before the call, and the node's own `nextNode` is that value still. -/
theorem leaf_insertAndSplit_nextNode (L : Nat) (n sibling : BTLeafNode) (key : Int)
    (rid : RecordId) (sk0 : Int) (hc : n.keyCount = L) :
    (n.insertAndSplit L key rid sibling sk0).sibling.nextNode = n.nextNode
    ∧ (n.insertAndSplit L key rid sibling sk0).node.nextNode = n.nextNode := by
  simp only [BTLeafNode.insertAndSplit, BTLeafNode.getKeyCount, hc, ne_eq, not_true_eq_false,
    if_false]
  split
  · simp
  · simp only [BTLeafNode.insert, BTLeafNode.getKeyCount]
    split
    · simp
    · simp

/-- Claim C28 at the full leaf of capacity `4` whose `nextNode` is `9`, split
by the key `50` into a sibling made by the constructor. -/
theorem leaf_insertAndSplit_nextNode_witness :
    smallFullLeaf.keyCount = 4 ∧ smallFullLeaf.nextNode = 9 ∧ smallJunkLeaf.nextNode ≠ 9
    ∧ (smallFullLeaf.insertAndSplit 4 50 ⟨5, 0⟩ smallJunkLeaf 0).rc = 0
    ∧ (smallFullLeaf.insertAndSplit 4 50 ⟨5, 0⟩ smallJunkLeaf 0).sibling.nextNode
        = smallFullLeaf.nextNode
    ∧ (smallFullLeaf.insertAndSplit 4 50 ⟨5, 0⟩ smallJunkLeaf 0).node.nextNode
        = smallFullLeaf.nextNode :=
  ⟨by decide, by decide, by decide, by decide,
    leaf_insertAndSplit_nextNode 4 smallFullLeaf smallJunkLeaf 50 ⟨5, 0⟩ 0 (by decide)⟩

/-! ### The test of the table scan -/

/-- Without overflow of `key - literal`, the test of the table scan is the
comparison itself. -/
theorem scanTest_exact_without_overflow (comp : Comparator) (key lit : Int)
    (h : isInt32 (key - lit)) :
    SqlEngine.scanTest comp (wrap32 (key - lit)) = decide (comp.holds key lit) := by
  obtain ⟨h1, h2⟩ := h
  simp only [INT_MIN, INT_MAX] at h1 h2
  have hw : wrap32 (key - lit) = key - lit := by
    simp only [wrap32]
    omega
  rw [hw]
  cases comp
  · simp only [SqlEngine.scanTest, Comparator.holds]
    by_cases c : key = lit
    · simp [c]
    · have : key - lit ≠ 0 := by omega
      simp [c, this]
  · simp only [SqlEngine.scanTest, Comparator.holds]
    by_cases c : key = lit
    · simp [c]
    · have : key - lit ≠ 0 := by omega
      simp [c, this]
  · simp only [SqlEngine.scanTest, Comparator.holds]
    by_cases c : key < lit
    · have : ¬ key - lit ≥ 0 := by omega
      simp [c, this]
    · have : key - lit ≥ 0 := by omega
      simp [c, this]
  · simp only [SqlEngine.scanTest, Comparator.holds]
    by_cases c : key > lit
    · have : ¬ key - lit ≤ 0 := by omega
      simp [c, this]
    · have : key - lit ≤ 0 := by omega
      simp [c, this]
  · simp only [SqlEngine.scanTest, Comparator.holds]
    by_cases c : key ≤ lit
    · have : ¬ key - lit > 0 := by omega
      simp [c, this]
    · have : key - lit > 0 := by omega
      simp [c, this]
  · simp only [SqlEngine.scanTest, Comparator.holds]
    by_cases c : key ≥ lit
    · have : ¬ key - lit < 0 := by omega
      simp [c, this]
    · have : key - lit < 0 := by omega
      simp [c, this]

/-- Claim C30 fails in the code.  The tuple key `2147483647` satisfies the key
condition `key > -1`, both 32-bit integers, but `diff = key - atoi(value)`
computed in 32 bits is `-2147483648`, so the test `diff <= 0` of the table scan
skips the tuple and it is not counted. -/
theorem scan_diff_overflow_rejects :
    isInt32 2147483647 ∧ isInt32 (-1)
    ∧ Comparator.GT.holds 2147483647 (-1)
    ∧ satisfiesKeyPreds 2147483647 condPositive
    ∧ SqlEngine.scanDiff 2147483647 (fun _ => 0) ⟨1, Comparator.GT, -1⟩ 0 = -2147483648
    ∧ SqlEngine.scanTest Comparator.GT
        (SqlEngine.scanDiff 2147483647 (fun _ => 0) ⟨1, Comparator.GT, -1⟩ 0) = false
    ∧ SqlEngine.scanConds 2147483647 (fun _ => 0) condPositive 0 = false := by
  decide

end Bruinbase
